import Mathlib

/-!
# Verification of `matmulmodule.c`

A shallow embedding of the matrix engine of `src/matmulmodule.c`.

* The C heap is explicit: `Heap.arrays` holds the `double` arrays obtained from
  `calloc` (a freed array is `none`), `Heap.refcnts` holds the `RefCnt` cells obtained
  from `malloc`.  A pointer is the index of its allocation.
* A `MatrixObject` handle is a value carrying the six fields of the C struct.
* An access outside a live array (undefined behaviour in C) makes the embedded
  function return `none`.
* `size_t` arithmetic is arithmetic on `Nat` modulo `2 ^ 64`.
* The element type `double` is a type parameter `α` with the operations the code
  uses (`0`, `1`, `+`, `-`, `*`, `/`, unary `-`, conversion from an integer); no algebraic
  law is assumed about them, except in the two algebraic identities of the product, where
  the laws used are named in the statement (a semiring for the identity matrix, commutative
  multiplication for the transpose of a product).
* `IeeeValue` instantiates `α` with the integers, the two infinities and NaN under the
  IEEE 754 sum and product, to evaluate the product on a matrix with an infinite entry.
* Allocation (`calloc`, `malloc`, `tp_alloc`) is assumed to succeed.
* The process-wide generator behind `rand()` is explicit: the stream of its coming results.
* Runs of the module are step relations on a state made of the heap and the handles.
-/

namespace MatMul

/-! ## Machine integers -/

/-- Number of values of the C type `size_t` on the 64-bit target. -/
def SIZE_MOD : Nat := 2 ^ 64

/-- Exclusive upper bound of the C type `int`: `INT_MAX + 1`. -/
def INT_LIMIT : Nat := 2 ^ 31

/-- Conversion of a C `int` to `size_t` (reduction modulo `2 ^ 64`). -/
def toSizeT (x : Int) : Nat := (x % (SIZE_MOD : Int)).toNat

/-! ## Heap and handles -/

/-- The C struct `RefCnt` (an `int64_t` counter; its overflow is out of reach and not modelled). -/
structure RefCnt where
  value : Int
deriving DecidableEq

/-- The C struct `MatrixObject`; `data_refcnt` and `data` are pointers into the heap. -/
structure MatrixObject where
  nrows : Nat
  ncols : Nat
  rows_stride : Nat
  cols_stride : Nat
  data_refcnt : Nat
  data : Nat
deriving DecidableEq

/-- The part of the C heap the module uses. -/
structure Heap (α : Type) where
  arrays : List (Option (List α))
  refcnts : List (Option RefCnt)

/-- The read `p[idx]` of an array element; `none` outside a live array. -/
def Heap.load {α : Type} (h : Heap α) (p idx : Nat) : Option α :=
  match h.arrays[p]? with
  | some (some arr) => arr[idx]?
  | _ => none

/-- The write `p[idx] = v` of an array element; `none` outside a live array. -/
def Heap.store {α : Type} (h : Heap α) (p idx : Nat) (v : α) : Option (Heap α) :=
  match h.arrays[p]? with
  | some (some arr) =>
    if idx < arr.length then
      some { h with arrays := h.arrays.set p (some (arr.set idx v)) }
    else none
  | _ => none

/-- Length of the live array at `p`, if there is one. -/
def Heap.bufLen {α : Type} (h : Heap α) (p : Nat) : Option Nat :=
  match h.arrays[p]? with
  | some (some arr) => some arr.length
  | _ => none

/-- The call `free(p)`; `none` when `p` is not a live array. -/
def Heap.free {α : Type} (h : Heap α) (p : Nat) : Option (Heap α) :=
  match h.arrays[p]? with
  | some (some _) => some { h with arrays := h.arrays.set p none }
  | _ => none

/-- The loop `for (size_t i = 0; i < n; ++i) body(i)` over a state `σ`. -/
def forLoop {σ : Type} (n : Nat) (body : Nat → σ → Option σ) (s : σ) : Option σ :=
  match n with
  | 0 => some s
  | k + 1 => (forLoop k body s).bind (body k)

/-! ## Buffer and matrix construction -/

/-- `AllocateArray`: `calloc` of `size` zero-initialised slots; returns the new pointer. -/
def AllocateArray {α : Type} [Zero α] (h : Heap α) (size : Nat) : Nat × Heap α :=
  (h.arrays.length, { h with arrays := h.arrays ++ [some (List.replicate size 0)] })

/-- The call `malloc(sizeof(RefCnt))`; the new cell is overwritten before it is read. -/
def mallocRefCnt {α : Type} (h : Heap α) : Nat × Heap α :=
  (h.refcnts.length, { h with refcnts := h.refcnts ++ [some ⟨0⟩] })

/-- `CreateUninitializedMatrix`: `tp_alloc` returns a zero-filled object. -/
def CreateUninitializedMatrix : MatrixObject :=
  { nrows := 0, ncols := 0, rows_stride := 0, cols_stride := 0, data_refcnt := 0, data := 0 }

/-- `DataIndexFromCoords`: the stride formula, in `size_t` arithmetic. -/
def DataIndexFromCoords (matrix : MatrixObject) (i j : Nat) : Nat :=
  (matrix.rows_stride * i + matrix.cols_stride * j) % SIZE_MOD

/-- `DataSize`: `nrows * ncols`, in `size_t` arithmetic. -/
def DataSize (matrix : MatrixObject) : Nat :=
  (matrix.nrows * matrix.ncols) % SIZE_MOD

/-- `SetRefCnt`: writes the counter through `data_refcnt`. -/
def SetRefCnt {α : Type} (h : Heap α) (matrix : MatrixObject) (value : Int) : Option (Heap α) :=
  match h.refcnts[matrix.data_refcnt]? with
  | some (some _) => some { h with refcnts := h.refcnts.set matrix.data_refcnt (some ⟨value⟩) }
  | _ => none

/-- `GetRefCnt`: reads the counter through `data_refcnt`. -/
def GetRefCnt {α : Type} (h : Heap α) (matrix : MatrixObject) : Option Int :=
  match h.refcnts[matrix.data_refcnt]? with
  | some (some r) => some r.value
  | _ => none

/-- `IncrementRefCnt`: pre-increment, returns the new value. -/
def IncrementRefCnt {α : Type} (h : Heap α) (matrix : MatrixObject) : Option (Int × Heap α) :=
  match h.refcnts[matrix.data_refcnt]? with
  | some (some r) =>
    some (r.value + 1, { h with refcnts := h.refcnts.set matrix.data_refcnt (some ⟨r.value + 1⟩) })
  | _ => none

/-- `DecrementRefCnt`: pre-decrement, returns the new value. -/
def DecrementRefCnt {α : Type} (h : Heap α) (matrix : MatrixObject) : Option (Int × Heap α) :=
  match h.refcnts[matrix.data_refcnt]? with
  | some (some r) =>
    some (r.value - 1, { h with refcnts := h.refcnts.set matrix.data_refcnt (some ⟨r.value - 1⟩) })
  | _ => none

/-- `InitMatrix`: sets shape and row-major strides, allocates the array and the counter. -/
def InitMatrix {α : Type} [Zero α] (h : Heap α) (matrix : MatrixObject) (nrows ncols : Nat) :
    Option (MatrixObject × Heap α) :=
  let m1 := { matrix with nrows := nrows, ncols := ncols, rows_stride := ncols, cols_stride := 1 }
  let a := AllocateArray h (DataSize m1)
  let m2 := { m1 with data := a.1 }
  let r := mallocRefCnt a.2
  let m3 := { m2 with data_refcnt := r.1 }
  (SetRefCnt r.2 m3 1).map (fun h3 => (m3, h3))

/-- `CreateMatrixFromSize`. -/
def CreateMatrixFromSize {α : Type} [Zero α] (h : Heap α) (nrows ncols : Nat) :
    Option (MatrixObject × Heap α) :=
  InitMatrix h CreateUninitializedMatrix nrows ncols

/-- `FillMatrix`: writes `value` to the raw slots `0 .. DataSize - 1`. -/
def FillMatrix {α : Type} (h : Heap α) (matrix : MatrixObject) (value : α) : Option (Heap α) :=
  forLoop (DataSize matrix) (fun i g => g.store matrix.data i value) h

/-- `CreateViewToMatrix`: a new handle on the same array and counter; the `assert` aborts
when the counter is not positive. -/
def CreateViewToMatrix {α : Type} (h : Heap α) (matrix : MatrixObject) :
    Option (MatrixObject × Heap α) :=
  (GetRefCnt h matrix).bind fun c =>
    if 0 < c then
      let another_view : MatrixObject :=
        { CreateUninitializedMatrix with
          nrows := matrix.nrows, ncols := matrix.ncols,
          rows_stride := matrix.rows_stride, cols_stride := matrix.cols_stride,
          data := matrix.data, data_refcnt := matrix.data_refcnt }
      (IncrementRefCnt h another_view).map (fun r => (another_view, r.2))
    else none

/-- `CreateTransposeView`: a view with shape and strides swapped. -/
def CreateTransposeView {α : Type} (h : Heap α) (matrix : MatrixObject) :
    Option (MatrixObject × Heap α) :=
  (CreateViewToMatrix h matrix).map fun r =>
    ({ r.1 with
        nrows := matrix.ncols, ncols := matrix.nrows,
        rows_stride := matrix.cols_stride, cols_stride := matrix.rows_stride }, r.2)

/-- `Matrix_dealloc`: drops one reference and frees the array when the counter reaches 0. -/
def Matrix_dealloc {α : Type} (h : Heap α) (self : MatrixObject) : Option (Heap α) :=
  (DecrementRefCnt h self).bind fun r =>
    if r.1 = 0 then r.2.free self.data else some r.2

/-- The expression `m->data[DataIndexFromCoords(m, i, j)]` read as a value. -/
def readAt {α : Type} (h : Heap α) (m : MatrixObject) (i j : Nat) : Option α :=
  h.load m.data (DataIndexFromCoords m i j)

/-- `Matrix_get`: the arguments are C `int`s, converted to `size_t` at the call. -/
def Matrix_get {α : Type} (h : Heap α) (self : MatrixObject) (i j : Int) : Option α :=
  h.load self.data (DataIndexFromCoords self (toSizeT i) (toSizeT j))

/-- `Matrix_set`: the arguments are C `int`s, converted to `size_t` at the call. -/
def Matrix_set {α : Type} (h : Heap α) (self : MatrixObject) (i j : Int) (value : α) :
    Option (Heap α) :=
  h.store self.data (DataIndexFromCoords self (toSizeT i) (toSizeT j)) value

/-- `Matrix_fill`. -/
def Matrix_fill {α : Type} (h : Heap α) (self : MatrixObject) (value : α) : Option (Heap α) :=
  FillMatrix h self value

/-! ## Results of the entry points -/

/-- The Python exception classes the module raises. -/
inductive PyExc where
  | RuntimeError
  | ValueError
deriving DecidableEq

/-- Result of an entry point: a value, `NULL` with an exception set by `PyErr_SetString`,
or undefined behaviour. -/
inductive PyResult (β : Type) where
  | ok (v : β)
  | raised (exc : PyExc) (msg : String)
  | undefined

/-- Lifts the result of the exception-free core. -/
def PyResult.ofOption {β : Type} : Option β → PyResult β
  | some v => PyResult.ok v
  | none => PyResult.undefined

/-- An operand of a number-protocol slot: a `Matrix` instance or another Python object. -/
inductive PyObject where
  | matrix (m : MatrixObject)
  | other

/-- The conversion `%lu` of a `size_t`. -/
def fmt_lu (n : Nat) : String := toString n

/-- The text `(%lu, %lu)` of a shape. -/
def fmtShape (r c : Nat) : String := "(" ++ fmt_lu r ++ ", " ++ fmt_lu c ++ ")"

/-- `snprintf(err, size, ...)`: keeps at most `size - 1` characters of the formatted text. -/
def snprintf (size : Nat) (text : String) : String := String.mk (text.data.take (size - 1))

/-- The macro `RAISE_EXCEPTION_IF`, with the rest of the function as `rest`. -/
def RAISE_EXCEPTION_IF {β : Type} (condition : Bool) (exception : PyExc) (text : String)
    (rest : PyResult β) : PyResult β :=
  if condition then PyResult.raised exception (snprintf 256 text) else rest

/-! ## Arithmetic engine -/

/-- `MatMulToDest`: the triple loop `dest[i][j] += A[i][k] * B[k][j]`. -/
def MatMulToDest {α : Type} [Add α] [Mul α] (h : Heap α) (A B dest : MatrixObject) :
    Option (Heap α) :=
  forLoop A.nrows (fun i h1 =>
    forLoop B.ncols (fun j h2 =>
      forLoop A.ncols (fun k g =>
        let dest_i_j := DataIndexFromCoords dest i j
        let A_i_k := DataIndexFromCoords A i k
        let B_k_j := DataIndexFromCoords B k j
        (g.load dest.data dest_i_j).bind fun d =>
        (g.load A.data A_i_k).bind fun a =>
        (g.load B.data B_k_j).bind fun b =>
        g.store dest.data dest_i_j (d + a * b)) h2) h1) h

/-- `MatMulImplCPU`. -/
def MatMulImplCPU {α : Type} [Zero α] [Add α] [Mul α] (h : Heap α) (A B : MatrixObject) :
    Option (MatrixObject × Heap α) :=
  (CreateMatrixFromSize h A.nrows B.ncols).bind fun r =>
    (MatMulToDest r.2 A B r.1).map fun h2 => (r.1, h2)

/-- `MatMulImpl`: the inner-dimension check, then `MatMulImplCPU`. -/
def MatMulImpl {α : Type} [Zero α] [Add α] [Mul α] (h : Heap α) (A B : MatrixObject) :
    PyResult (MatrixObject × Heap α) :=
  if A.ncols ≠ B.nrows then
    PyResult.raised PyExc.RuntimeError
      (snprintf 256 ("Wrong shapes while matmul: " ++ fmtShape A.nrows A.ncols ++ " @ "
        ++ fmtShape B.nrows B.ncols))
  else PyResult.ofOption (MatMulImplCPU h A B)

/-- `MatrixCopy`: a fresh matrix that takes over the strides of `matrix` and the raw slots
`0 .. DataSize - 1` of its array. -/
def MatrixCopy {α : Type} [Zero α] (h : Heap α) (matrix : MatrixObject) :
    Option (MatrixObject × Heap α) :=
  (CreateMatrixFromSize h matrix.nrows matrix.ncols).bind fun r =>
    let copy : MatrixObject :=
      { r.1 with rows_stride := matrix.rows_stride, cols_stride := matrix.cols_stride }
    (forLoop (DataSize matrix) (fun i g =>
      (g.load matrix.data i).bind fun v => g.store copy.data i v) r.2).map fun h2 => (copy, h2)

/-- The common body of `MatrixAdd`, `MatrixSubtract`, `MatrixMultiply` and `MatrixDivide`,
which differ only in the operator `op`. -/
def MatrixElementwise {α : Type} [Zero α] (op : α → α → α) (h : Heap α)
    (left right : MatrixObject) : Option (MatrixObject × Heap α) :=
  (CreateMatrixFromSize h left.nrows left.ncols).bind fun r =>
    let result := r.1
    (forLoop left.nrows (fun i h1 =>
      forLoop left.ncols (fun j g =>
        (g.load left.data (DataIndexFromCoords left i j)).bind fun x =>
        (g.load right.data (DataIndexFromCoords right i j)).bind fun y =>
        g.store result.data (DataIndexFromCoords result i j) (op x y)) h1) r.2).map
      fun h2 => (result, h2)

/-- `MatrixAdd`. -/
def MatrixAdd {α : Type} [Zero α] [Add α] (h : Heap α) (left right : MatrixObject) :
    Option (MatrixObject × Heap α) :=
  MatrixElementwise (fun x y => x + y) h left right

/-- `MatrixSubtract`. -/
def MatrixSubtract {α : Type} [Zero α] [Sub α] (h : Heap α) (left right : MatrixObject) :
    Option (MatrixObject × Heap α) :=
  MatrixElementwise (fun x y => x - y) h left right

/-- `MatrixMultiply`. -/
def MatrixMultiply {α : Type} [Zero α] [Mul α] (h : Heap α) (left right : MatrixObject) :
    Option (MatrixObject × Heap α) :=
  MatrixElementwise (fun x y => x * y) h left right

/-- `MatrixDivide`. -/
def MatrixDivide {α : Type} [Zero α] [Div α] (h : Heap α) (left right : MatrixObject) :
    Option (MatrixObject × Heap α) :=
  MatrixElementwise (fun x y => x / y) h left right

/-- The macro `CHECK_BOTH_MATRICES_OF_SAME_SHAPE` (with `VERIFY_IS_MATRIX` expanded), with the
rest of the function as `rest`. -/
def CHECK_BOTH_MATRICES_OF_SAME_SHAPE {β : Type} (_left _right : PyObject)
    (rest : MatrixObject → MatrixObject → PyResult β) : PyResult β :=
  match _left with
  | PyObject.other =>
    RAISE_EXCEPTION_IF true PyExc.ValueError "Expected @left to be a Matrix" PyResult.undefined
  | PyObject.matrix left =>
    match _right with
    | PyObject.other =>
      RAISE_EXCEPTION_IF true PyExc.ValueError "Expected @right to be a Matrix"
        PyResult.undefined
    | PyObject.matrix right =>
      RAISE_EXCEPTION_IF
        (decide (left.nrows ≠ right.nrows) || decide (left.ncols ≠ right.ncols))
        PyExc.ValueError
        ("Shapes of @left and @right should be the same, got: "
          ++ fmtShape left.nrows left.ncols ++ " and " ++ fmtShape right.nrows right.ncols)
        (rest left right)

/-- `Matrix_add`. -/
def Matrix_add {α : Type} [Zero α] [Add α] (h : Heap α) (_left _right : PyObject) :
    PyResult (MatrixObject × Heap α) :=
  CHECK_BOTH_MATRICES_OF_SAME_SHAPE _left _right fun left right =>
    PyResult.ofOption (MatrixAdd h left right)

/-- `Matrix_subtract`. -/
def Matrix_subtract {α : Type} [Zero α] [Sub α] (h : Heap α) (_left _right : PyObject) :
    PyResult (MatrixObject × Heap α) :=
  CHECK_BOTH_MATRICES_OF_SAME_SHAPE _left _right fun left right =>
    PyResult.ofOption (MatrixSubtract h left right)

/-- `Matrix_multiply`. -/
def Matrix_multiply {α : Type} [Zero α] [Mul α] (h : Heap α) (_left _right : PyObject) :
    PyResult (MatrixObject × Heap α) :=
  CHECK_BOTH_MATRICES_OF_SAME_SHAPE _left _right fun left right =>
    PyResult.ofOption (MatrixMultiply h left right)

/-- `Matrix_divide`. -/
def Matrix_divide {α : Type} [Zero α] [Div α] (h : Heap α) (_left _right : PyObject) :
    PyResult (MatrixObject × Heap α) :=
  CHECK_BOTH_MATRICES_OF_SAME_SHAPE _left _right fun left right =>
    PyResult.ofOption (MatrixDivide h left right)

/-- `MatrixNegative`: a fresh row-major matrix whose raw slot `i` is `-matrix->data[i]`. -/
def MatrixNegative {α : Type} [Zero α] [Neg α] (h : Heap α) (matrix : MatrixObject) :
    Option (MatrixObject × Heap α) :=
  (CreateMatrixFromSize h matrix.nrows matrix.ncols).bind fun r =>
    let result := r.1
    (forLoop (DataSize matrix) (fun i g =>
      (g.load matrix.data i).bind fun v => g.store result.data i (-v)) r.2).map
      fun h2 => (result, h2)

/-- `Matrix_positive`: unary plus is `MatrixCopy`. -/
def Matrix_positive {α : Type} [Zero α] (h : Heap α) (matrix : MatrixObject) :
    Option (MatrixObject × Heap α) :=
  MatrixCopy h matrix

/-! ## Valid matrices -/

/-- Standard row-major layout. -/
def RowMajor (m : MatrixObject) : Prop := m.rows_stride = m.ncols ∧ m.cols_stride = 1

/-- Layout of a transposed view of a row-major matrix. -/
def Transposed (m : MatrixObject) : Prop := m.rows_stride = 1 ∧ m.cols_stride = m.nrows

/-- A valid shape: both dimensions are positive C `int`s and the layout is row-major or
its transpose. -/
def ValidShape (m : MatrixObject) : Prop :=
  (1 ≤ m.nrows ∧ m.nrows < INT_LIMIT) ∧ (1 ≤ m.ncols ∧ m.ncols < INT_LIMIT) ∧
  (RowMajor m ∨ Transposed m)

/-- A valid matrix of the heap `h`: a valid shape, `data` is a live array of
`nrows * ncols` slots and the counter is positive. -/
def Valid {α : Type} (h : Heap α) (m : MatrixObject) : Prop :=
  ValidShape m ∧ h.bufLen m.data = some (m.nrows * m.ncols) ∧
  (GetRefCnt h m).any (fun c => decide (0 < c)) = true

instance (m : MatrixObject) : Decidable (ValidShape m) := by
  unfold ValidShape RowMajor Transposed
  infer_instance

instance {α : Type} (h : Heap α) (m : MatrixObject) : Decidable (Valid h m) := by
  unfold Valid
  infer_instance

/-- The element `m[i][j]` as a value (`0` when the read is out of bounds). -/
def entry {α : Type} [Zero α] (h : Heap α) (m : MatrixObject) (i j : Nat) : α :=
  (readAt h m i j).getD 0

/-- The running sum `acc += f k` for `k = 0 .. n - 1`, started from `0`. -/
def sumFrom0 {α : Type} [Zero α] [Add α] (n : Nat) (f : Nat → α) : α :=
  (List.range n).foldl (fun acc k => acc + f k) 0

/-! ## Concrete scenario and vocabulary of the statements -/

/-- A heap holding the arrays `bufs` at the pointers `1, 2, ...`, each with counter 1;
pointer 0 is `NULL`. -/
def heapOf {α : Type} (bufs : List (List α)) : Heap α :=
  { arrays := none :: bufs.map some, refcnts := none :: bufs.map (fun _ => some ⟨1⟩) }

/-- Handle of the `nrows × ncols` row-major matrix stored at pointer `p`. -/
def handleOf (p nrows ncols : Nat) : MatrixObject :=
  { nrows := nrows, ncols := ncols, rows_stride := ncols, cols_stride := 1,
    data_refcnt := p, data := p }

/-- Handle of the transposed view of `handleOf p nrows ncols`. -/
def transposedOf (p nrows ncols : Nat) : MatrixObject :=
  { nrows := ncols, ncols := nrows, rows_stride := 1, cols_stride := ncols,
    data_refcnt := p, data := p }

/-- The heap of the concrete scenario: `A = [[1,2],[3,4]]` at pointer 1 and
`B = [[5,6],[7,8]]` at pointer 2. -/
def scenarioHeap : Heap Int := heapOf [[1, 2, 3, 4], [5, 6, 7, 8]]

/-- The matrix `A = [[1,2],[3,4]]` of the concrete scenario. -/
def scenarioA : MatrixObject := handleOf 1 2 2

/-- The matrix `B = [[5,6],[7,8]]` of the concrete scenario. -/
def scenarioB : MatrixObject := handleOf 2 2 2

/-- The text of the error raised by `CHECK_BOTH_MATRICES_OF_SAME_SHAPE` on a shape mismatch. -/
def sameShapeText (left right : MatrixObject) : String :=
  "Shapes of @left and @right should be the same, got: "
    ++ fmtShape left.nrows left.ncols ++ " and " ++ fmtShape right.nrows right.ncols

/-- The result `res` of a binary elementwise entry point on the matrices `left`, `right` is a
`ValueError` exactly when the shapes differ, and then its message is `sameShapeText`. -/
def ShapeErrorIff {β : Type} (res : PyResult β) (left right : MatrixObject) : Prop :=
  ((∃ msg, res = PyResult.raised PyExc.ValueError msg) ↔
    (left.nrows ≠ right.nrows ∨ left.ncols ≠ right.ncols)) ∧
  ((left.nrows ≠ right.nrows ∨ left.ncols ≠ right.ncols) →
    res = PyResult.raised PyExc.ValueError (sameShapeText left right)) ∧
  (¬ (left.nrows ≠ right.nrows ∨ left.ncols ≠ right.ncols) →
    ∀ exc msg, res ≠ PyResult.raised exc msg)

/-- The fields of `m` that are printed are values of `size_t`. -/
def SizeT (m : MatrixObject) : Prop := m.nrows < SIZE_MOD ∧ m.ncols < SIZE_MOD

instance (m : MatrixObject) : Decidable (SizeT m) := by
  unfold SizeT
  infer_instance

/-- Every array and every counter of `h` is still in `g`, with the same contents. -/
def Heap.Extends {α : Type} (h g : Heap α) : Prop :=
  (∀ p, p < h.arrays.length → g.arrays[p]? = h.arrays[p]?) ∧
  (∀ p, p < h.refcnts.length → g.refcnts[p]? = h.refcnts[p]?)

/-- The matrix `C` of the heap `g` is fresh with respect to `h`: its array and its counter are
allocations that `h` does not have, the counter is 1, the array has `nrows * ncols` slots, and
every array and counter of `h` is in `g` with unchanged contents. -/
def Fresh {α : Type} (h : Heap α) (C : MatrixObject) (g : Heap α) : Prop :=
  C.data = h.arrays.length ∧ C.data_refcnt = h.refcnts.length ∧ h.Extends g ∧
  GetRefCnt g C = some 1 ∧ g.bufLen C.data = some (C.nrows * C.ncols)

/-- The result `res` of an elementwise operation on `left` and `right` in the heap `h`: a fresh
row-major matrix of the shape of `left` with `result[i][j] = op left[i][j] right[i][j]`. -/
def IsElementwiseResult {α : Type} [Zero α] (op : α → α → α) (h : Heap α)
    (left right : MatrixObject) (res : Option (MatrixObject × Heap α)) : Prop :=
  ∃ C g, res = some (C, g) ∧ C.nrows = left.nrows ∧ C.ncols = left.ncols ∧
    C.rows_stride = left.ncols ∧ C.cols_stride = 1 ∧ Fresh h C g ∧
    ∀ i j, i < left.nrows → j < left.ncols →
      readAt g C i j = some (op (entry h left i j) (entry h right i j))

/-- The handle `CreateMatrixFromSize h n m` returns: row-major, on the next free pointers. -/
def freshHandle {α : Type} (h : Heap α) (n m : Nat) : MatrixObject :=
  { nrows := n, ncols := m, rows_stride := m, cols_stride := 1,
    data_refcnt := h.refcnts.length, data := h.arrays.length }

/-- The heap `CreateMatrixFromSize h n m` returns: a new zero-filled array of `DataSize`
slots and a new counter set to 1. -/
def allocHeap {α : Type} [Zero α] (h : Heap α) (n m : Nat) : Heap α :=
  { arrays := h.arrays ++ [some (List.replicate ((n * m) % SIZE_MOD) 0)],
    refcnts := h.refcnts ++ [some ⟨1⟩] }

/-- The transposed view `[[1,3],[2,4]]` of the matrix `A` of the concrete scenario. -/
def scenarioAT : MatrixObject := transposedOf 1 2 2

/-- The heap `g` differs from `h` at most in the contents of the array at `p`. -/
def SameExcept {α : Type} (p : Nat) (h g : Heap α) : Prop :=
  g.refcnts = h.refcnts ∧ g.arrays.length = h.arrays.length ∧
  (∀ q, q ≠ p → g.arrays[q]? = h.arrays[q]?) ∧ g.bufLen p = h.bufLen p

/-- The spec's reading of `fill`: the loop over the logical `nrows × ncols` elements, each
overwritten through the stride formula (to be compared with `FillMatrix`). -/
def fillLogical {α : Type} (h : Heap α) (matrix : MatrixObject) (value : α) :
    Option (Heap α) :=
  forLoop matrix.nrows (fun i h1 =>
    forLoop matrix.ncols (fun j g =>
      g.store matrix.data (DataIndexFromCoords matrix i j) value) h1) h

/-! ## Constructors -/

/-- `Matrix_new`: `tp_new` returns an uninitialised object. -/
def Matrix_new : MatrixObject := CreateUninitializedMatrix

/-- `Matrix_init` on the parsed arguments `nrows`, `ncols` (C `int`s): returns the status
(`-1` when a dimension is rejected, `0` on success), the object and the heap. -/
def Matrix_init {α : Type} [Zero α] (h : Heap α) (self : MatrixObject) (nrows ncols : Int) :
    Option (Int × MatrixObject × Heap α) :=
  if nrows ≤ 0 ∨ ncols ≤ 0 then some (-1, self, h)
  else
    (InitMatrix h self (toSizeT nrows) (toSizeT ncols)).bind fun r =>
      (FillMatrix r.2 r.1 0).map fun h2 => (0, r.1, h2)

/-- `matmul_zeros` on the parsed shape (C `int`s, converted to `size_t` at the call of
`CreateMatrixFromSize`). -/
def matmul_zeros {α : Type} [Zero α] (h : Heap α) (nrows ncols : Int) :
    PyResult (MatrixObject × Heap α) :=
  PyResult.ofOption
    ((CreateMatrixFromSize h (toSizeT nrows) (toSizeT ncols)).bind fun r =>
      (FillMatrix r.2 r.1 0).map fun h2 => (r.1, h2))

/-- `matmul_ones` on the parsed shape. -/
def matmul_ones {α : Type} [Zero α] [One α] (h : Heap α) (nrows ncols : Int) :
    PyResult (MatrixObject × Heap α) :=
  PyResult.ofOption
    ((CreateMatrixFromSize h (toSizeT nrows) (toSizeT ncols)).bind fun r =>
      (FillMatrix r.2 r.1 1).map fun h2 => (r.1, h2))

/-- `matmul_full` on the parsed shape and value. -/
def matmul_full {α : Type} [Zero α] (h : Heap α) (nrows ncols : Int) (value : α) :
    PyResult (MatrixObject × Heap α) :=
  PyResult.ofOption
    ((CreateMatrixFromSize h (toSizeT nrows) (toSizeT ncols)).bind fun r =>
      (FillMatrix r.2 r.1 value).map fun h2 => (r.1, h2))

/-- `matmul_rand` on the parsed shape.  `RAND_MAX` is the constant of `<stdlib.h>`; `rng` is
the state of the process-wide generator, given as the results of the coming calls of
`rand()`.  Slot `i` receives `(double)rand() / (double)RAND_MAX`; the state left for later
calls is returned with the matrix. -/
def matmul_rand {α : Type} [Zero α] [NatCast α] [Div α] (RAND_MAX : Nat) (h : Heap α)
    (rng : Nat → Nat) (nrows ncols : Int) : PyResult (MatrixObject × Heap α × (Nat → Nat)) :=
  PyResult.ofOption
    ((CreateMatrixFromSize h (toSizeT nrows) (toSizeT ncols)).bind fun r =>
      (forLoop (DataSize r.1) (fun i (s : Heap α × (Nat → Nat)) =>
        (s.1.store r.1.data i (((s.2 0 : Nat) : α) / ((RAND_MAX : Nat) : α))).map fun g =>
          (g, fun k => s.2 (k + 1))) (r.2, rng)).map fun s => (r.1, s.1, s.2))

/-- The result `(C, g)` of a constructor called in the heap `h` with the shape `(rows, cols)`:
a fresh row-major `rows × cols` matrix whose every element is `v`. -/
def IsFilled {α : Type} (h : Heap α) (rows cols : Int) (v : α) (C : MatrixObject)
    (g : Heap α) : Prop :=
  C.nrows = rows.toNat ∧ C.ncols = cols.toNat ∧ C.rows_stride = cols.toNat ∧
  C.cols_stride = 1 ∧ Fresh h C g ∧ Valid g C ∧
  ∀ i j, i < C.nrows → j < C.ncols → readAt g C i j = some v

/-- The heap before any matrix is created: only the `NULL` slots. -/
def emptyHeap (α : Type) : Heap α := heapOf []

/-- A program state: the heap and the matrix handles created so far. -/
structure World (α : Type) where
  heap : Heap α
  handles : List MatrixObject

/-- One successful call of the module, without destruction of handles: a constructor with
positive C `int` dimensions, a view, a deep copy, a negation, an elementwise operation or a
product on handles of the state.  The new handle is added to the state. -/
inductive Step {α : Type} [Zero α] [One α] [Add α] [Sub α] [Mul α] [Div α] [Neg α]
    [NatCast α] : World α → World α → Prop where
  | init (w : World α) (r c : Int) (C : MatrixObject) (g : Heap α)
      (hr : 1 ≤ r ∧ r < (INT_LIMIT : Int)) (hc : 1 ≤ c ∧ c < (INT_LIMIT : Int))
      (he : Matrix_init w.heap Matrix_new r c = some (0, C, g)) :
      Step w ⟨g, C :: w.handles⟩
  | zeros (w : World α) (r c : Int) (C : MatrixObject) (g : Heap α)
      (hr : 1 ≤ r ∧ r < (INT_LIMIT : Int)) (hc : 1 ≤ c ∧ c < (INT_LIMIT : Int))
      (he : matmul_zeros w.heap r c = PyResult.ok (C, g)) :
      Step w ⟨g, C :: w.handles⟩
  | ones (w : World α) (r c : Int) (C : MatrixObject) (g : Heap α)
      (hr : 1 ≤ r ∧ r < (INT_LIMIT : Int)) (hc : 1 ≤ c ∧ c < (INT_LIMIT : Int))
      (he : matmul_ones w.heap r c = PyResult.ok (C, g)) :
      Step w ⟨g, C :: w.handles⟩
  | full (w : World α) (r c : Int) (v : α) (C : MatrixObject) (g : Heap α)
      (hr : 1 ≤ r ∧ r < (INT_LIMIT : Int)) (hc : 1 ≤ c ∧ c < (INT_LIMIT : Int))
      (he : matmul_full w.heap r c v = PyResult.ok (C, g)) :
      Step w ⟨g, C :: w.handles⟩
  | rand (w : World α) (RAND_MAX : Nat) (rng rng' : Nat → Nat) (r c : Int)
      (C : MatrixObject) (g : Heap α)
      (hr : 1 ≤ r ∧ r < (INT_LIMIT : Int)) (hc : 1 ≤ c ∧ c < (INT_LIMIT : Int))
      (he : matmul_rand RAND_MAX w.heap rng r c = PyResult.ok (C, g, rng')) :
      Step w ⟨g, C :: w.handles⟩
  | copy_view (w : World α) (M V : MatrixObject) (g : Heap α) (hM : M ∈ w.handles)
      (he : CreateViewToMatrix w.heap M = some (V, g)) :
      Step w ⟨g, V :: w.handles⟩
  | transpose_view (w : World α) (M T : MatrixObject) (g : Heap α) (hM : M ∈ w.handles)
      (he : CreateTransposeView w.heap M = some (T, g)) :
      Step w ⟨g, T :: w.handles⟩
  | deep_copy (w : World α) (M C : MatrixObject) (g : Heap α) (hM : M ∈ w.handles)
      (he : MatrixCopy w.heap M = some (C, g)) :
      Step w ⟨g, C :: w.handles⟩
  | negate (w : World α) (M C : MatrixObject) (g : Heap α) (hM : M ∈ w.handles)
      (he : MatrixNegative w.heap M = some (C, g)) :
      Step w ⟨g, C :: w.handles⟩
  | add (w : World α) (L R C : MatrixObject) (g : Heap α) (hL : L ∈ w.handles)
      (hR : R ∈ w.handles)
      (he : Matrix_add w.heap (PyObject.matrix L) (PyObject.matrix R) = PyResult.ok (C, g)) :
      Step w ⟨g, C :: w.handles⟩
  | subtract (w : World α) (L R C : MatrixObject) (g : Heap α) (hL : L ∈ w.handles)
      (hR : R ∈ w.handles)
      (he : Matrix_subtract w.heap (PyObject.matrix L) (PyObject.matrix R)
        = PyResult.ok (C, g)) :
      Step w ⟨g, C :: w.handles⟩
  | multiply (w : World α) (L R C : MatrixObject) (g : Heap α) (hL : L ∈ w.handles)
      (hR : R ∈ w.handles)
      (he : Matrix_multiply w.heap (PyObject.matrix L) (PyObject.matrix R)
        = PyResult.ok (C, g)) :
      Step w ⟨g, C :: w.handles⟩
  | divide (w : World α) (L R C : MatrixObject) (g : Heap α) (hL : L ∈ w.handles)
      (hR : R ∈ w.handles)
      (he : Matrix_divide w.heap (PyObject.matrix L) (PyObject.matrix R)
        = PyResult.ok (C, g)) :
      Step w ⟨g, C :: w.handles⟩
  | matmul (w : World α) (A B C : MatrixObject) (g : Heap α) (hA : A ∈ w.handles)
      (hB : B ∈ w.handles) (he : MatMulImpl w.heap A B = PyResult.ok (C, g)) :
      Step w ⟨g, C :: w.handles⟩

/-- The states reachable from the empty state by calls of `Step`. -/
inductive Reachable {α : Type} [Zero α] [One α] [Add α] [Sub α] [Mul α] [Div α] [Neg α]
    [NatCast α] : World α → Prop where
  | start : Reachable ⟨emptyHeap α, []⟩
  | step (w w' : World α) (hw : Reachable w) (hs : Step w w') : Reachable w'

/-- Every stride-computed index of `M` is the unwrapped `rows_stride * i + cols_stride * j`
and lies inside the array of `M`, whose length is `nrows * ncols`. -/
def IndexInBounds {α : Type} (h : Heap α) (M : MatrixObject) : Prop :=
  h.bufLen M.data = some (M.nrows * M.ncols) ∧
  ∀ i j, i < M.nrows → j < M.ncols →
    DataIndexFromCoords M i j = M.rows_stride * i + M.cols_stride * j ∧
    DataIndexFromCoords M i j < M.nrows * M.ncols

/-- No operation of the engine on the handles `M`, `N` of the heap `h` has undefined
behaviour: fill, copy and negation of `M` return a result, and the elementwise entry points
and the product on `M` and `N` return a value or raise their shape error. -/
def NoUndefined {α : Type} [Zero α] [Add α] [Sub α] [Mul α] [Div α] [Neg α] (h : Heap α)
    (M N : MatrixObject) : Prop :=
  (∀ v, FillMatrix h M v ≠ none) ∧ MatrixCopy h M ≠ none ∧ MatrixNegative h M ≠ none ∧
  Matrix_add h (PyObject.matrix M) (PyObject.matrix N) ≠ PyResult.undefined ∧
  Matrix_subtract h (PyObject.matrix M) (PyObject.matrix N) ≠ PyResult.undefined ∧
  Matrix_multiply h (PyObject.matrix M) (PyObject.matrix N) ≠ PyResult.undefined ∧
  Matrix_divide h (PyObject.matrix M) (PyObject.matrix N) ≠ PyResult.undefined ∧
  MatMulImpl h M N ≠ PyResult.undefined

/-- The state after `zeros((2, 3))` and a transposition of its result: one array of six
zeros with counter 2, and the two handles. -/
def scenarioWorld : World Int :=
  ⟨⟨[none, some [0, 0, 0, 0, 0, 0]], [none, some ⟨2⟩]⟩,
    [⟨3, 2, 1, 3, 1, 1⟩, ⟨2, 3, 3, 1, 1, 1⟩]⟩

/-- One call that changes the set of live handles or the heap: a construction
(`CreateMatrixFromSize`, through which every constructor, copy and result is made), a view, a
transposed view, a write of an array slot, or the destruction of a live handle. -/
inductive LifeStep {α : Type} [Zero α] : World α → World α → Prop where
  | create (w : World α) (n m : Nat) (C : MatrixObject) (g : Heap α)
      (he : CreateMatrixFromSize w.heap n m = some (C, g)) :
      LifeStep w ⟨g, C :: w.handles⟩
  | copy_view (w : World α) (M V : MatrixObject) (g : Heap α) (hM : M ∈ w.handles)
      (he : CreateViewToMatrix w.heap M = some (V, g)) :
      LifeStep w ⟨g, V :: w.handles⟩
  | transpose_view (w : World α) (M T : MatrixObject) (g : Heap α) (hM : M ∈ w.handles)
      (he : CreateTransposeView w.heap M = some (T, g)) :
      LifeStep w ⟨g, T :: w.handles⟩
  | write (w : World α) (p idx : Nat) (v : α) (g : Heap α)
      (he : w.heap.store p idx v = some g) :
      LifeStep w ⟨g, w.handles⟩
  | destroy (w : World α) (M : MatrixObject) (g : Heap α) (hM : M ∈ w.handles)
      (he : Matrix_dealloc w.heap M = some g) :
      LifeStep w ⟨g, w.handles.erase M⟩

/-- The states reachable from the empty state by calls of `LifeStep`; `handles` are the
live handles. -/
inductive Alive {α : Type} [Zero α] : World α → Prop where
  | start : Alive ⟨emptyHeap α, []⟩
  | step (w w' : World α) (hw : Alive w) (hs : LifeStep w w') : Alive w'

/-- Number of handles of `live` that reference the counter cell `r`. -/
def refCount (live : List MatrixObject) (r : Nat) : Nat :=
  live.countP (fun V => decide (V.data_refcnt = r))

/-- The reference-count invariant of a state: the counter of every live handle is the number
of live handles on that counter, its array is not freed, two live handles share the array
exactly when they share the counter, and every array that is not freed has a live handle. -/
def RefInv {α : Type} (w : World α) : Prop :=
  (∀ M ∈ w.handles,
    GetRefCnt w.heap M = some (refCount w.handles M.data_refcnt : Int) ∧
    (∃ arr, w.heap.arrays[M.data]? = some (some arr)) ∧
    ∀ V ∈ w.handles, (V.data = M.data ↔ V.data_refcnt = M.data_refcnt)) ∧
  ∀ p arr, w.heap.arrays[p]? = some (some arr) → ∃ M ∈ w.handles, M.data = p

/-- The effect of the reference-counting calls on the live handle `M` whose counter is `c`:
both views raise the counter to `c + 1` and leave the arrays as they are; `Matrix_dealloc`
lowers it to `c - 1` and frees the array of `M` exactly when `c - 1 = 0`. -/
def CountingCalls {α : Type} (h : Heap α) (M : MatrixObject) (c : Int) : Prop :=
  (∃ V g, CreateViewToMatrix h M = some (V, g) ∧ V.data = M.data ∧
    V.data_refcnt = M.data_refcnt ∧ GetRefCnt g M = some (c + 1) ∧ g.arrays = h.arrays) ∧
  (∃ T g, CreateTransposeView h M = some (T, g) ∧ T.data = M.data ∧
    T.data_refcnt = M.data_refcnt ∧ GetRefCnt g M = some (c + 1) ∧ g.arrays = h.arrays) ∧
  (∃ g, Matrix_dealloc h M = some g ∧ GetRefCnt g M = some (c - 1) ∧
    (c - 1 = 0 → g.arrays = h.arrays.set M.data none) ∧
    (c - 1 ≠ 0 → g.arrays = h.arrays))

/-! ## A fragment of IEEE 754 -/

/-- The values of a C `double` that the identity scenario needs: an integer (finite and
exactly representable while its magnitude stays below `2 ^ 53`, as it does in the scenario),
the two infinities, and NaN. -/
inductive IeeeValue where
  | fin (n : Int)
  | pinf
  | ninf
  | nan
deriving DecidableEq

/-- IEEE 754 addition on `IeeeValue`: NaN is absorbing, `inf + (-inf)` is NaN, an infinity
absorbs every other summand, finite values add exactly. -/
def IeeeValue.add : IeeeValue → IeeeValue → IeeeValue
  | IeeeValue.nan, _ => IeeeValue.nan
  | _, IeeeValue.nan => IeeeValue.nan
  | IeeeValue.pinf, IeeeValue.ninf => IeeeValue.nan
  | IeeeValue.ninf, IeeeValue.pinf => IeeeValue.nan
  | IeeeValue.pinf, _ => IeeeValue.pinf
  | _, IeeeValue.pinf => IeeeValue.pinf
  | IeeeValue.ninf, _ => IeeeValue.ninf
  | _, IeeeValue.ninf => IeeeValue.ninf
  | IeeeValue.fin a, IeeeValue.fin b => IeeeValue.fin (a + b)

/-- The infinity of the sign of `s * t`, for the product of an infinity of sign `s` with a
non-zero value of sign `t`. -/
def IeeeValue.signedInf (positive : Bool) : IeeeValue :=
  if positive then IeeeValue.pinf else IeeeValue.ninf

/-- IEEE 754 multiplication on `IeeeValue`: NaN is absorbing, `0 * inf` is NaN, an infinity
times a non-zero value is the infinity of the product of the signs, finite values multiply
exactly. -/
def IeeeValue.mul : IeeeValue → IeeeValue → IeeeValue
  | IeeeValue.nan, _ => IeeeValue.nan
  | _, IeeeValue.nan => IeeeValue.nan
  | IeeeValue.pinf, IeeeValue.pinf => IeeeValue.pinf
  | IeeeValue.pinf, IeeeValue.ninf => IeeeValue.ninf
  | IeeeValue.ninf, IeeeValue.pinf => IeeeValue.ninf
  | IeeeValue.ninf, IeeeValue.ninf => IeeeValue.pinf
  | IeeeValue.fin a, IeeeValue.pinf =>
    if a = 0 then IeeeValue.nan else IeeeValue.signedInf (decide (0 < a))
  | IeeeValue.pinf, IeeeValue.fin a =>
    if a = 0 then IeeeValue.nan else IeeeValue.signedInf (decide (0 < a))
  | IeeeValue.fin a, IeeeValue.ninf =>
    if a = 0 then IeeeValue.nan else IeeeValue.signedInf (decide (a < 0))
  | IeeeValue.ninf, IeeeValue.fin a =>
    if a = 0 then IeeeValue.nan else IeeeValue.signedInf (decide (a < 0))
  | IeeeValue.fin a, IeeeValue.fin b => IeeeValue.fin (a * b)

instance : Zero IeeeValue := ⟨IeeeValue.fin 0⟩

instance : One IeeeValue := ⟨IeeeValue.fin 1⟩

instance : Add IeeeValue := ⟨IeeeValue.add⟩

instance : Mul IeeeValue := ⟨IeeeValue.mul⟩

theorem forLoop_inv {σ : Type} (P : Nat → σ → Prop) (n : Nat) (body : Nat → σ → Option σ)
    (s : σ) (h0 : P 0 s)
    (step : ∀ i t, i < n → P i t → ∃ t', body i t = some t' ∧ P (i + 1) t') :
    ∃ t, forLoop n body s = some t ∧ P n t := by
  induction n with
  | zero => exact ⟨s, rfl, h0⟩
  | succ k ih =>
    obtain ⟨t, ht, hP⟩ := ih (fun i t hi hp => step i t (Nat.lt_succ_of_lt hi) hp)
    obtain ⟨t', ht', hP'⟩ := step k t (Nat.lt_succ_self k) hP
    exact ⟨t', by simp [forLoop, ht, ht'], hP'⟩

theorem Heap.bufLen_eq_some {α : Type} {h : Heap α} {p n : Nat} (hn : h.bufLen p = some n) :
    ∃ arr, h.arrays[p]? = some (some arr) ∧ arr.length = n := by
  unfold Heap.bufLen at hn
  split at hn
  · rename_i arr harr
    exact ⟨arr, harr, by simpa using hn⟩
  · simp at hn

theorem Heap.bufLen_lt {α : Type} {h : Heap α} {p n : Nat} (hn : h.bufLen p = some n) :
    p < h.arrays.length := by
  obtain ⟨arr, harr, -⟩ := Heap.bufLen_eq_some hn
  by_contra hp
  rw [List.getElem?_eq_none (by omega)] at harr
  simp at harr

theorem Heap.load_of_bufLen {α : Type} {h : Heap α} {p n idx : Nat}
    (hn : h.bufLen p = some n) (hi : idx < n) : ∃ v, h.load p idx = some v := by
  obtain ⟨arr, harr, hlen⟩ := Heap.bufLen_eq_some hn
  refine ⟨arr[idx], ?_⟩
  simp [Heap.load, harr, List.getElem?_eq_getElem, hlen, hi]

theorem SameExcept.refl {α : Type} (p : Nat) (h : Heap α) : SameExcept p h h :=
  ⟨rfl, rfl, fun _ _ => rfl, rfl⟩

theorem SameExcept.trans {α : Type} {p : Nat} {h g k : Heap α}
    (h1 : SameExcept p h g) (h2 : SameExcept p g k) : SameExcept p h k :=
  ⟨h2.1.trans h1.1, h2.2.1.trans h1.2.1,
    fun q hq => (h2.2.2.1 q hq).trans (h1.2.2.1 q hq), h2.2.2.2.trans h1.2.2.2⟩

theorem SameExcept.load_ne {α : Type} {p q : Nat} {h g : Heap α}
    (hs : SameExcept p h g) (hq : q ≠ p) (idx : Nat) : g.load q idx = h.load q idx := by
  simp [Heap.load, hs.2.2.1 q hq]

theorem SameExcept.bufLen_eq {α : Type} {p : Nat} {h g : Heap α}
    (hs : SameExcept p h g) (q : Nat) : g.bufLen q = h.bufLen q := by
  by_cases hq : q = p
  · subst hq; exact hs.2.2.2
  · simp [Heap.bufLen, hs.2.2.1 q hq]

theorem Heap.store_spec {α : Type} (h : Heap α) (p idx n : Nat) (v : α)
    (hn : h.bufLen p = some n) (hi : idx < n) :
    ∃ g, h.store p idx v = some g ∧ SameExcept p h g ∧ g.load p idx = some v ∧
      ∀ k, k ≠ idx → g.load p k = h.load p k := by
  have hp := Heap.bufLen_lt hn
  obtain ⟨arr, harr, hlen⟩ := Heap.bufLen_eq_some hn
  refine ⟨{ h with arrays := h.arrays.set p (some (arr.set idx v)) }, ?_, ?_, ?_, ?_⟩
  · simp [Heap.store, harr, hlen, hi]
  · refine ⟨rfl, by simp, fun q hq => ?_, ?_⟩
    · simp [List.getElem?_set_ne (Ne.symm hq)]
    · simp [Heap.bufLen, List.getElem?_set, hp, harr]
  · simp [Heap.load, List.getElem?_set, hp, hlen, hi]
  · intro k hk
    simp [Heap.load, List.getElem?_set, hp, harr, Ne.symm hk]

/-! ## The stride formula on valid shapes -/

theorem rowMajor_lt {n m i j : Nat} (hi : i < n) (hj : j < m) : m * i + j < n * m := by
  have h1 : m * (i + 1) ≤ m * n := Nat.mul_le_mul_left m hi
  rw [Nat.mul_succ] at h1
  rw [Nat.mul_comm n m]
  omega

theorem rowMajor_inj {m i j i' j' : Nat} (hj : j < m) (hj' : j' < m)
    (h : m * i + j = m * i' + j') : i = i' ∧ j = j' := by
  rcases Nat.lt_trichotomy i i' with hlt | heq | hgt
  · have h1 : m * (i + 1) ≤ m * i' := Nat.mul_le_mul_left m hlt
    rw [Nat.mul_succ] at h1
    omega
  · subst heq
    exact ⟨rfl, by omega⟩
  · have h1 : m * (i' + 1) ≤ m * i := Nat.mul_le_mul_left m hgt
    rw [Nat.mul_succ] at h1
    omega

theorem size_lt_SIZE_MOD {n m : Nat} (hn : n < INT_LIMIT) (hm : m < INT_LIMIT) :
    n * m < SIZE_MOD := by
  have h1 : n * m ≤ INT_LIMIT * INT_LIMIT := Nat.mul_le_mul (Nat.le_of_lt hn) (Nat.le_of_lt hm)
  have h2 : INT_LIMIT * INT_LIMIT < SIZE_MOD := by decide
  omega

theorem ValidShape.dataSize {m : MatrixObject} (hs : ValidShape m) :
    DataSize m = m.nrows * m.ncols :=
  Nat.mod_eq_of_lt (size_lt_SIZE_MOD hs.1.2 hs.2.1.2)

theorem ValidShape.index_eq {m : MatrixObject} (hs : ValidShape m) {i j : Nat}
    (hi : i < m.nrows) (hj : j < m.ncols) :
    DataIndexFromCoords m i j = m.rows_stride * i + m.cols_stride * j ∧
    m.rows_stride * i + m.cols_stride * j < m.nrows * m.ncols := by
  have hsz := size_lt_SIZE_MOD hs.1.2 hs.2.1.2
  have hlt : m.rows_stride * i + m.cols_stride * j < m.nrows * m.ncols := by
    rcases hs.2.2 with ⟨h1, h2⟩ | ⟨h1, h2⟩
    · rw [h1, h2, Nat.one_mul]
      exact rowMajor_lt hi hj
    · rw [h1, h2, Nat.one_mul, Nat.add_comm, Nat.mul_comm m.nrows m.ncols]
      exact rowMajor_lt hj hi
  exact ⟨Nat.mod_eq_of_lt (Nat.lt_trans hlt hsz), hlt⟩

theorem ValidShape.index_lt {m : MatrixObject} (hs : ValidShape m) {i j : Nat}
    (hi : i < m.nrows) (hj : j < m.ncols) :
    DataIndexFromCoords m i j < m.nrows * m.ncols := by
  rw [(hs.index_eq hi hj).1]
  exact (hs.index_eq hi hj).2

theorem ValidShape.index_inj {m : MatrixObject} (hs : ValidShape m) {i j i' j' : Nat}
    (hi : i < m.nrows) (hj : j < m.ncols) (hi' : i' < m.nrows) (hj' : j' < m.ncols)
    (h : DataIndexFromCoords m i j = DataIndexFromCoords m i' j') : i = i' ∧ j = j' := by
  rw [(hs.index_eq hi hj).1, (hs.index_eq hi' hj').1] at h
  rcases hs.2.2 with ⟨h1, h2⟩ | ⟨h1, h2⟩
  · rw [h1, h2, Nat.one_mul, Nat.one_mul] at h
    exact rowMajor_inj hj hj' h
  · rw [h1, h2, Nat.one_mul, Nat.one_mul, Nat.add_comm, Nat.add_comm i'] at h
    exact (rowMajor_inj hi hi' h).symm

theorem Valid.readAt_eq {α : Type} [Zero α] {h : Heap α} {m : MatrixObject} (hv : Valid h m)
    {i j : Nat} (hi : i < m.nrows) (hj : j < m.ncols) :
    readAt h m i j = some (entry h m i j) := by
  obtain ⟨v, hv'⟩ := Heap.load_of_bufLen hv.2.1 (hv.1.index_lt hi hj)
  simp [entry, readAt, hv']

/-! ## Views -/

theorem Heap.load_congr {α : Type} {h g : Heap α} (ha : g.arrays = h.arrays) (p idx : Nat) :
    g.load p idx = h.load p idx := by
  simp [Heap.load, ha]

theorem Heap.bufLen_congr {α : Type} {h g : Heap α} (ha : g.arrays = h.arrays) (p : Nat) :
    g.bufLen p = h.bufLen p := by
  simp [Heap.bufLen, ha]

theorem Valid.refcnt_pos {α : Type} {h : Heap α} {m : MatrixObject} (hv : Valid h m) :
    ∃ c, GetRefCnt h m = some c ∧ 0 < c := by
  have h3 := hv.2.2
  cases hc : GetRefCnt h m with
  | none => simp [hc] at h3
  | some c => exact ⟨c, rfl, by simpa [hc] using h3⟩

theorem GetRefCnt_eq_some {α : Type} {h : Heap α} {m : MatrixObject} {c : Int}
    (hc : GetRefCnt h m = some c) : h.refcnts[m.data_refcnt]? = some (some ⟨c⟩) := by
  unfold GetRefCnt at hc
  split at hc
  · rename_i r hr
    cases r
    simp only [Option.some.injEq] at hc
    subst hc
    exact hr
  · simp at hc

theorem ValidShape.transpose {m : MatrixObject} (hs : ValidShape m) :
    ValidShape { m with nrows := m.ncols, ncols := m.nrows,
                        rows_stride := m.cols_stride, cols_stride := m.rows_stride } := by
  refine ⟨hs.2.1, hs.1, ?_⟩
  rcases hs.2.2 with ⟨h1, h2⟩ | ⟨h1, h2⟩
  · exact Or.inr ⟨h2, h1⟩
  · exact Or.inl ⟨h2, h1⟩

theorem CreateTransposeView_eq {α : Type} (h : Heap α) (M : MatrixObject) (c : Int)
    (hc : GetRefCnt h M = some c) (hpos : 0 < c) :
    CreateTransposeView h M =
      some ({ M with nrows := M.ncols, ncols := M.nrows,
                     rows_stride := M.cols_stride, cols_stride := M.rows_stride },
            { h with refcnts := h.refcnts.set M.data_refcnt (some ⟨c + 1⟩) }) := by
  have hr := GetRefCnt_eq_some hc
  simp [CreateTransposeView, CreateViewToMatrix, hc, hpos, IncrementRefCnt, hr]

theorem Valid.retain {α : Type} {h : Heap α} {M V : MatrixObject} {c : Int}
    (hc : GetRefCnt h M = some c) (hpos : 0 < c) (hV : Valid h V) :
    Valid { h with refcnts := h.refcnts.set M.data_refcnt (some ⟨c + 1⟩) } V := by
  refine ⟨hV.1, hV.2.1, ?_⟩
  obtain ⟨d, hd, hdpos⟩ := hV.refcnt_pos
  have hr := GetRefCnt_eq_some hc
  have hrd := GetRefCnt_eq_some hd
  have hlt : M.data_refcnt < h.refcnts.length := by
    by_contra hn
    rw [List.getElem?_eq_none (by omega)] at hr
    simp at hr
  by_cases he : M.data_refcnt = V.data_refcnt
  · have hpos1 : 0 < c + 1 := by omega
    simp [GetRefCnt, List.getElem?_set, ← he, hlt, hpos1]
  · simp [GetRefCnt, List.getElem?_set, he, hrd, hdpos]

theorem index_transpose (m : MatrixObject) (i j : Nat) :
    DataIndexFromCoords
        ({ m with nrows := m.ncols, ncols := m.nrows,
                  rows_stride := m.cols_stride, cols_stride := m.rows_stride } : MatrixObject)
        i j
      = DataIndexFromCoords m j i := by
  simp [DataIndexFromCoords, Nat.add_comm]

/-! ## Fresh matrices -/

theorem forLoop2_inv {σ : Type} (P : Nat → σ → Prop) (n m : Nat)
    (body : Nat → Nat → σ → Option σ) (s : σ) (h0 : P 0 s)
    (step : ∀ i j t, i < n → j < m → P (m * i + j) t →
      ∃ t', body i j t = some t' ∧ P (m * i + j + 1) t') :
    ∃ t, forLoop n (fun i s1 => forLoop m (fun j s2 => body i j s2) s1) s = some t ∧
      P (m * n) t := by
  refine forLoop_inv (fun i t => P (m * i) t) n _ s h0 ?_
  intro i t hi hP
  have hin := forLoop_inv (fun j u => P (m * i + j) u) m (fun j s2 => body i j s2) t hP
    (fun j u hj hu => step i j u hi hj hu)
  obtain ⟨u, hu, hPu⟩ := hin
  refine ⟨u, hu, ?_⟩
  show P (m * (i + 1)) u
  rw [Nat.mul_succ]
  exact hPu

theorem CreateMatrixFromSize_eq {α : Type} [Zero α] (h : Heap α) (n m : Nat) :
    CreateMatrixFromSize h n m = some (freshHandle h n m, allocHeap h n m) := by
  simp [CreateMatrixFromSize, InitMatrix, AllocateArray, mallocRefCnt, SetRefCnt, DataSize,
    CreateUninitializedMatrix, freshHandle, allocHeap]

theorem Heap.Extends.of_eq {α : Type} (h : Heap α) : h.Extends h :=
  ⟨fun _ _ => rfl, fun _ _ => rfl⟩

theorem Heap.Extends.load_eq {α : Type} {h g : Heap α} (he : h.Extends g) {p : Nat}
    (hp : p < h.arrays.length) (idx : Nat) : g.load p idx = h.load p idx := by
  simp [Heap.load, he.1 p hp]

theorem Heap.Extends.valid {α : Type} {h g : Heap α} (he : h.Extends g) {V : MatrixObject}
    (hV : Valid h V) : Valid g V := by
  obtain ⟨c, hc, hpos⟩ := hV.refcnt_pos
  have hr := GetRefCnt_eq_some hc
  have hlt : V.data_refcnt < h.refcnts.length := by
    by_contra hn
    rw [List.getElem?_eq_none (by omega)] at hr
    simp at hr
  refine ⟨hV.1, ?_, ?_⟩
  · have hb := hV.2.1
    simp only [Heap.bufLen, he.1 _ (Heap.bufLen_lt hV.2.1)]
    exact hb
  · simp [GetRefCnt, he.2 _ hlt, hr, hpos]

theorem Heap.extends_alloc {α : Type} [Zero α] (h : Heap α) (n m : Nat) :
    h.Extends (allocHeap h n m) :=
  ⟨fun _ hp => List.getElem?_append_left hp, fun _ hp => List.getElem?_append_left hp⟩

theorem Heap.Extends.sameExcept {α : Type} {h h1 g : Heap α} {p : Nat} (he : h.Extends h1)
    (hp : h.arrays.length ≤ p) (hs : SameExcept p h1 g) : h.Extends g := by
  refine ⟨fun q hq => ?_, fun q hq => ?_⟩
  · rw [hs.2.2.1 q (by omega)]
    exact he.1 q hq
  · rw [hs.1]
    exact he.2 q hq

theorem Heap.bufLen_alloc {α : Type} [Zero α] (h : Heap α) (n m : Nat) :
    (allocHeap h n m).bufLen h.arrays.length = some ((n * m) % SIZE_MOD) := by
  simp [Heap.bufLen, allocHeap]

theorem Heap.load_alloc {α : Type} [Zero α] (h : Heap α) (n m idx : Nat)
    (hi : idx < (n * m) % SIZE_MOD) : (allocHeap h n m).load h.arrays.length idx = some 0 := by
  simp [Heap.load, allocHeap, hi]

theorem ValidShape.freshHandle {α : Type} (h : Heap α) {n m : Nat}
    (hn : 1 ≤ n ∧ n < INT_LIMIT) (hm : 1 ≤ m ∧ m < INT_LIMIT) :
    ValidShape (freshHandle h n m) :=
  ⟨hn, hm, Or.inl ⟨rfl, rfl⟩⟩

theorem freshHandle_index {α : Type} (h : Heap α) {n m i j : Nat}
    (hn : n < INT_LIMIT) (hm : m < INT_LIMIT) (hi : i < n) (hj : j < m) :
    DataIndexFromCoords (freshHandle h n m) i j = m * i + j := by
  have hlt : m * i + j < n * m := rowMajor_lt hi hj
  simp only [DataIndexFromCoords, MatMul.freshHandle, Nat.one_mul]
  exact Nat.mod_eq_of_lt (Nat.lt_trans hlt (size_lt_SIZE_MOD hn hm))

theorem readOld {α : Type} [Zero α] {h h1 g : Heap α} {p : Nat} (he : h.Extends h1)
    (hp : h.arrays.length ≤ p) (hs : SameExcept p h1 g) {V : MatrixObject} (hV : Valid h V)
    {i j : Nat} (hi : i < V.nrows) (hj : j < V.ncols) :
    g.load V.data (DataIndexFromCoords V i j) = some (entry h V i j) := by
  rw [(he.sameExcept hp hs).load_eq (Heap.bufLen_lt hV.2.1)]
  exact hV.readAt_eq hi hj

theorem write_step {α : Type} {h1 g : Heap α} {p len t : Nat} {F : Nat → α}
    (hlen : h1.bufLen p = some len) (ht : t < len) (hs : SameExcept p h1 g)
    (hdone : ∀ idx, idx < t → g.load p idx = some (F idx)) (v : α) (hv : v = F t) :
    ∃ g', g.store p t v = some g' ∧ SameExcept p h1 g' ∧
      ∀ idx, idx < t + 1 → g'.load p idx = some (F idx) := by
  have hg : g.bufLen p = some len := by rw [hs.2.2.2, hlen]
  obtain ⟨g', hst, hs', hnew, hold⟩ := Heap.store_spec g p t len v hg ht
  refine ⟨g', hst, hs.trans hs', fun idx hidx => ?_⟩
  by_cases he : idx = t
  · rw [he, hnew, hv]
  · rw [hold idx he]
    exact hdone idx (by omega)

theorem rowMajor_index (m i j : Nat) (hj : j < m) :
    (m * i + j) / m = i ∧ (m * i + j) % m = j := by
  have hm : 0 < m := by omega
  refine ⟨?_, ?_⟩
  · rw [Nat.mul_add_div hm, Nat.div_eq_of_lt hj, Nat.add_zero]
  · rw [Nat.mul_add_mod, Nat.mod_eq_of_lt hj]

theorem fresh_of_sameExcept {α : Type} [Zero α] (h g : Heap α) (n m : Nat)
    (hn : n < INT_LIMIT) (hm : m < INT_LIMIT)
    (hs : SameExcept h.arrays.length (allocHeap h n m) g) (C : MatrixObject)
    (hd : C.data = h.arrays.length) (hc : C.data_refcnt = h.refcnts.length)
    (hCn : C.nrows = n) (hCm : C.ncols = m) : Fresh h C g := by
  refine ⟨hd, hc, (Heap.extends_alloc h n m).sameExcept (Nat.le_refl _) hs, ?_, ?_⟩
  · simp [GetRefCnt, hs.1, hc, allocHeap]
  · rw [hd, hs.2.2.2, Heap.bufLen_alloc, Nat.mod_eq_of_lt (size_lt_SIZE_MOD hn hm), hCn, hCm]

theorem MatrixElementwise_spec {α : Type} [Zero α] (op : α → α → α) (h : Heap α)
    (left right : MatrixObject) (hl : Valid h left) (hr : Valid h right)
    (hn : left.nrows = right.nrows) (hm : left.ncols = right.ncols) :
    IsElementwiseResult op h left right (MatrixElementwise op h left right) := by
  have hsz : (left.nrows * left.ncols) % SIZE_MOD = left.nrows * left.ncols :=
    Nat.mod_eq_of_lt (size_lt_SIZE_MOD hl.1.1.2 hl.1.2.1.2)
  have hext := Heap.extends_alloc h left.nrows left.ncols
  have hlen := Heap.bufLen_alloc h left.nrows left.ncols
  rw [hsz] at hlen
  have hidx : ∀ i j, i < left.nrows → j < left.ncols →
      DataIndexFromCoords (freshHandle h left.nrows left.ncols) i j = left.ncols * i + j :=
    fun i j hi hj => freshHandle_index h hl.1.1.2 hl.1.2.1.2 hi hj
  obtain ⟨g, hg, hs, hdone⟩ := forLoop2_inv
    (fun t (g : Heap α) => SameExcept h.arrays.length (allocHeap h left.nrows left.ncols) g ∧
      ∀ idx, idx < t → g.load h.arrays.length idx
        = some (op (entry h left (idx / left.ncols) (idx % left.ncols))
                   (entry h right (idx / left.ncols) (idx % left.ncols))))
    left.nrows left.ncols
    (fun i j g =>
      (g.load left.data (DataIndexFromCoords left i j)).bind fun x =>
      (g.load right.data (DataIndexFromCoords right i j)).bind fun y =>
      g.store h.arrays.length
        (DataIndexFromCoords (freshHandle h left.nrows left.ncols) i j) (op x y))
    (allocHeap h left.nrows left.ncols)
    ⟨SameExcept.refl _ _, fun idx hidx0 => absurd hidx0 (Nat.not_lt_zero _)⟩
    (by
      intro i j g hi hj hP
      obtain ⟨hs, hdone⟩ := hP
      dsimp only
      rw [readOld hext (Nat.le_refl _) hs hl hi hj,
        readOld hext (Nat.le_refl _) hs hr (hn ▸ hi) (hm ▸ hj), hidx i j hi hj]
      simp only [Option.some_bind]
      have hlt : left.ncols * i + j < left.nrows * left.ncols := rowMajor_lt hi hj
      refine write_step hlen hlt hs hdone _ ?_
      rw [(rowMajor_index left.ncols i j hj).1, (rowMajor_index left.ncols i j hj).2])
  refine ⟨freshHandle h left.nrows left.ncols, g, ?_, rfl, rfl, rfl, rfl,
    fresh_of_sameExcept h g _ _ hl.1.1.2 hl.1.2.1.2 hs _ rfl rfl rfl rfl, ?_⟩
  · rw [MatrixElementwise, CreateMatrixFromSize_eq]
    simp only [Option.some_bind]
    exact congrArg (Option.map _) hg
  · intro i j hi hj
    have hlt : left.ncols * i + j < left.ncols * left.nrows := by
      rw [Nat.mul_comm left.ncols left.nrows]
      exact rowMajor_lt hi hj
    show (g.load h.arrays.length
      (DataIndexFromCoords (freshHandle h left.nrows left.ncols) i j)) = _
    rw [hidx i j hi hj, hdone _ hlt,
      (rowMajor_index left.ncols i j hj).1, (rowMajor_index left.ncols i j hj).2]

/-! ## Raw-slot loops: copy and fill -/

theorem Fresh.valid_matrix {α : Type} {h g : Heap α} {C : MatrixObject} (hf : Fresh h C g)
    (hs : ValidShape C) : Valid g C := by
  refine ⟨hs, hf.2.2.2.2, ?_⟩
  rw [hf.2.2.2.1]
  decide

theorem Fresh.data_ne {α : Type} {h g : Heap α} {C V : MatrixObject} (hf : Fresh h C g)
    (hV : Valid h V) : C.data ≠ V.data := by
  have h1 := Heap.bufLen_lt hV.2.1
  have h2 := hf.1
  omega

theorem copyLoop_spec {α : Type} (h1 : Heap α) (src dst n : Nat) (hne : src ≠ dst)
    (hsrc : h1.bufLen src = some n) (hdst : h1.bufLen dst = some n) :
    ∃ g, forLoop n (fun i g => (g.load src i).bind fun v => g.store dst i v) h1 = some g ∧
      SameExcept dst h1 g ∧ ∀ idx, idx < n → g.load dst idx = h1.load src idx := by
  refine forLoop_inv
    (fun t (g : Heap α) => SameExcept dst h1 g ∧ ∀ idx, idx < t → g.load dst idx = h1.load src idx)
    n _ h1 ⟨SameExcept.refl _ _, fun idx hidx0 => absurd hidx0 (Nat.not_lt_zero _)⟩ ?_
  intro i g hi hP
  obtain ⟨hs, hdone⟩ := hP
  obtain ⟨v, hv⟩ := Heap.load_of_bufLen hsrc hi
  have hg : g.bufLen dst = some n := by rw [hs.2.2.2, hdst]
  obtain ⟨g', hst, hs', hnew, hold⟩ := Heap.store_spec g dst i n v hg hi
  dsimp only
  rw [hs.load_ne hne, hv]
  refine ⟨g', hst, hs.trans hs', fun idx hidx => ?_⟩
  by_cases he : idx = i
  · rw [he, hnew, hv]
  · rw [hold idx he]
    exact hdone idx (by omega)

theorem fillLoop_spec {α : Type} (h1 : Heap α) (p n len : Nat) (v : α)
    (hlen : h1.bufLen p = some len) (hn : n ≤ len) :
    ∃ g, forLoop n (fun i g => g.store p i v) h1 = some g ∧
      SameExcept p h1 g ∧ ∀ idx, idx < n → g.load p idx = some v := by
  refine forLoop_inv
    (fun t (g : Heap α) => SameExcept p h1 g ∧ ∀ idx, idx < t → g.load p idx = some v)
    n _ h1 ⟨SameExcept.refl _ _, fun idx hidx0 => absurd hidx0 (Nat.not_lt_zero _)⟩ ?_
  intro i g hi hP
  exact write_step hlen (by omega) hP.1 hP.2 v rfl

theorem MatrixCopy_spec {α : Type} [Zero α] (h : Heap α) (M : MatrixObject) (hv : Valid h M) :
    ∃ C g, MatrixCopy h M = some (C, g) ∧ C.nrows = M.nrows ∧ C.ncols = M.ncols ∧
      C.rows_stride = M.rows_stride ∧ C.cols_stride = M.cols_stride ∧ Fresh h C g ∧
      Valid g C ∧
      ∀ i j, i < M.nrows → j < M.ncols → readAt g C i j = some (entry h M i j) := by
  have hsz : (M.nrows * M.ncols) % SIZE_MOD = M.nrows * M.ncols :=
    Nat.mod_eq_of_lt (size_lt_SIZE_MOD hv.1.1.2 hv.1.2.1.2)
  have hext := Heap.extends_alloc h M.nrows M.ncols
  have hlen := Heap.bufLen_alloc h M.nrows M.ncols
  rw [hsz] at hlen
  have hMlt := Heap.bufLen_lt hv.2.1
  have hsrc : (allocHeap h M.nrows M.ncols).bufLen M.data = some (M.nrows * M.ncols) := by
    rw [← hv.2.1]
    simp only [Heap.bufLen, hext.1 _ hMlt]
  obtain ⟨g, hg, hs, hdone⟩ := copyLoop_spec (allocHeap h M.nrows M.ncols) M.data
    h.arrays.length (M.nrows * M.ncols) (by omega) hsrc hlen
  have hfresh : Fresh h (⟨M.nrows, M.ncols, M.rows_stride, M.cols_stride, h.refcnts.length,
      h.arrays.length⟩ : MatrixObject) g :=
    fresh_of_sameExcept h g _ _ hv.1.1.2 hv.1.2.1.2 hs _ rfl rfl rfl rfl
  have hshape : ValidShape (⟨M.nrows, M.ncols, M.rows_stride, M.cols_stride, h.refcnts.length,
      h.arrays.length⟩ : MatrixObject) :=
    ⟨hv.1.1, hv.1.2.1, hv.1.2.2⟩
  refine ⟨⟨M.nrows, M.ncols, M.rows_stride, M.cols_stride, h.refcnts.length,
    h.arrays.length⟩, g, ?_, rfl, rfl, rfl, rfl, hfresh, hfresh.valid_matrix hshape, ?_⟩
  · rw [MatrixCopy, CreateMatrixFromSize_eq]
    simp only [Option.some_bind, DataSize, hsz]
    exact congrArg (Option.map _) hg
  · intro i j hi hj
    have hlt := hv.1.index_lt hi hj
    show g.load h.arrays.length (DataIndexFromCoords M i j) = _
    rw [hdone _ hlt, hext.load_eq hMlt]
    exact hv.readAt_eq hi hj

theorem toSizeT_of_nonneg {i : Int} {n : Nat} (h0 : 0 ≤ i) (hn : i < n) (hlim : n < INT_LIMIT) :
    toSizeT i = i.toNat ∧ i.toNat < n := by
  have h1 : (INT_LIMIT : Int) < (SIZE_MOD : Int) := by decide
  have h2 : i < (SIZE_MOD : Int) := by
    have : (n : Int) < (INT_LIMIT : Int) := by exact_mod_cast hlim
    omega
  refine ⟨?_, by omega⟩
  unfold toSizeT
  rw [Int.emod_eq_of_lt h0 h2]

/-! ## Matrix multiplication -/

theorem sumFrom0_succ {α : Type} [Zero α] [Add α] (k : Nat) (f : Nat → α) :
    sumFrom0 (k + 1) f = sumFrom0 k f + f k := by
  unfold sumFrom0
  rw [List.range_succ, List.foldl_append]
  rfl

theorem MatMulToDest_spec {α : Type} [Zero α] [Add α] [Mul α] (h : Heap α)
    (A B : MatrixObject) (hA : Valid h A) (hB : Valid h B) (hK : A.ncols = B.nrows) :
    ∃ g, MatMulToDest (allocHeap h A.nrows B.ncols) A B (freshHandle h A.nrows B.ncols) = some g ∧
      SameExcept h.arrays.length (allocHeap h A.nrows B.ncols) g ∧
      ∀ i j, i < A.nrows → j < B.ncols →
        g.load h.arrays.length (B.ncols * i + j)
          = some (sumFrom0 A.ncols (fun k => entry h A i k * entry h B k j)) := by
  have hsz : (A.nrows * B.ncols) % SIZE_MOD = A.nrows * B.ncols :=
    Nat.mod_eq_of_lt (size_lt_SIZE_MOD hA.1.1.2 hB.1.2.1.2)
  have hext := Heap.extends_alloc h A.nrows B.ncols
  have hlen := Heap.bufLen_alloc h A.nrows B.ncols
  rw [hsz] at hlen
  have hd : (freshHandle h A.nrows B.ncols).data = h.arrays.length := rfl
  obtain ⟨g, hg, hs, hdone, -⟩ := forLoop2_inv
    (fun t (g : Heap α) => SameExcept h.arrays.length (allocHeap h A.nrows B.ncols) g ∧
      (∀ idx, idx < t → g.load h.arrays.length idx
        = some (sumFrom0 A.ncols
            (fun k => entry h A (idx / B.ncols) k * entry h B k (idx % B.ncols)))) ∧
      (∀ idx, t ≤ idx → idx < A.nrows * B.ncols → g.load h.arrays.length idx = some 0))
    A.nrows B.ncols
    (fun i j h2 =>
      forLoop A.ncols (fun k g =>
        (g.load (freshHandle h A.nrows B.ncols).data
            (DataIndexFromCoords (freshHandle h A.nrows B.ncols) i j)).bind fun d =>
        (g.load A.data (DataIndexFromCoords A i k)).bind fun a =>
        (g.load B.data (DataIndexFromCoords B k j)).bind fun b =>
        g.store (freshHandle h A.nrows B.ncols).data
          (DataIndexFromCoords (freshHandle h A.nrows B.ncols) i j) (d + a * b)) h2)
    (allocHeap h A.nrows B.ncols)
    ⟨SameExcept.refl _ _, fun idx hidx0 => absurd hidx0 (Nat.not_lt_zero _),
      fun idx _ hidx => Heap.load_alloc h _ _ idx (by rw [hsz]; exact hidx)⟩
    (by
      intro i j s hi hj hP
      obtain ⟨hs, hdone, hzero⟩ := hP
      have hlt : B.ncols * i + j < A.nrows * B.ncols := rowMajor_lt hi hj
      have hij := rowMajor_index B.ncols i j hj
      obtain ⟨u, hu, hsu, hdu, hcell, hzu⟩ := forLoop_inv
        (fun k (g : Heap α) => SameExcept h.arrays.length (allocHeap h A.nrows B.ncols) g ∧
          (∀ idx, idx < B.ncols * i + j → g.load h.arrays.length idx
            = some (sumFrom0 A.ncols
                (fun k => entry h A (idx / B.ncols) k * entry h B k (idx % B.ncols)))) ∧
          g.load h.arrays.length (B.ncols * i + j)
            = some (sumFrom0 k (fun k => entry h A i k * entry h B k j)) ∧
          (∀ idx, B.ncols * i + j < idx → idx < A.nrows * B.ncols →
            g.load h.arrays.length idx = some 0))
        A.ncols
        (fun k g =>
          (g.load (freshHandle h A.nrows B.ncols).data
              (DataIndexFromCoords (freshHandle h A.nrows B.ncols) i j)).bind fun d =>
          (g.load A.data (DataIndexFromCoords A i k)).bind fun a =>
          (g.load B.data (DataIndexFromCoords B k j)).bind fun b =>
          g.store (freshHandle h A.nrows B.ncols).data
            (DataIndexFromCoords (freshHandle h A.nrows B.ncols) i j) (d + a * b))
        s
        ⟨hs, hdone, hzero _ (Nat.le_refl _) hlt, fun idx h1 h2 => hzero idx (by omega) h2⟩
        (by
          intro k g hk hQ
          obtain ⟨hsg, hdg, hcg, hzg⟩ := hQ
          have hgl : g.bufLen h.arrays.length = some (A.nrows * B.ncols) := by
            rw [hsg.2.2.2, hlen]
          obtain ⟨g', hst, hs', hnew, hold⟩ := Heap.store_spec g h.arrays.length
            (B.ncols * i + j) (A.nrows * B.ncols)
            (sumFrom0 k (fun k => entry h A i k * entry h B k j)
              + entry h A i k * entry h B k j) hgl hlt
          dsimp only
          rw [hd, freshHandle_index h hA.1.1.2 hB.1.2.1.2 hi hj, hcg,
            readOld hext (Nat.le_refl _) hsg hA hi hk,
            readOld hext (Nat.le_refl _) hsg hB (hK ▸ hk) hj]
          simp only [Option.some_bind]
          refine ⟨g', hst, hsg.trans hs', fun idx hidx => ?_, ?_, fun idx h1 h2 => ?_⟩
          · rw [hold idx (by omega)]
            exact hdg idx hidx
          · rw [hnew, sumFrom0_succ]
          · rw [hold idx (by omega)]
            exact hzg idx h1 h2)
      refine ⟨u, hu, hsu, fun idx hidx => ?_, fun idx h1 h2 => hzu idx (by omega) h2⟩
      by_cases he : idx = B.ncols * i + j
      · rw [he, hcell, hij.1, hij.2]
      · exact hdu idx (by omega))
  refine ⟨g, hg, hs, fun i j hi hj => ?_⟩
  have hlt : B.ncols * i + j < B.ncols * A.nrows := by
    rw [Nat.mul_comm B.ncols A.nrows]
    exact rowMajor_lt hi hj
  have hij := rowMajor_index B.ncols i j hj
  rw [hdone _ hlt, hij.1, hij.2]

theorem MatMulImplCPU_spec {α : Type} [Zero α] [Add α] [Mul α] (h : Heap α)
    (A B : MatrixObject) (hA : Valid h A) (hB : Valid h B) (hK : A.ncols = B.nrows) :
    ∃ C g, MatMulImplCPU h A B = some (C, g) ∧ C.nrows = A.nrows ∧ C.ncols = B.ncols ∧
      C.rows_stride = B.ncols ∧ C.cols_stride = 1 ∧ Fresh h C g ∧ Valid g C ∧
      ∀ i j, i < A.nrows → j < B.ncols →
        readAt g C i j = some (sumFrom0 A.ncols (fun k => entry h A i k * entry h B k j)) := by
  obtain ⟨g, hg, hs, hdone⟩ := MatMulToDest_spec h A B hA hB hK
  have hfresh : Fresh h (freshHandle h A.nrows B.ncols) g :=
    fresh_of_sameExcept h g _ _ hA.1.1.2 hB.1.2.1.2 hs _ rfl rfl rfl rfl
  refine ⟨freshHandle h A.nrows B.ncols, g, ?_, rfl, rfl, rfl, rfl, hfresh,
    hfresh.valid_matrix (ValidShape.freshHandle h hA.1.1 hB.1.2.1), fun i j hi hj => ?_⟩
  · rw [MatMulImplCPU, CreateMatrixFromSize_eq]
    simp only [Option.some_bind]
    rw [hg]
    rfl
  · show g.load h.arrays.length (DataIndexFromCoords (freshHandle h A.nrows B.ncols) i j) = _
    rw [freshHandle_index h hA.1.1.2 hB.1.2.1.2 hi hj]
    exact hdone i j hi hj

/-! ## Error messages -/

theorem snprintf_eq (size : Nat) (text : String) (hl : text.length ≤ size - 1) :
    snprintf size text = text := by
  unfold snprintf
  rw [List.take_of_length_le hl]

theorem fmt_lu_length {n : Nat} (hn : n < SIZE_MOD) : (fmt_lu n).length ≤ 20 := by
  have h1 : SIZE_MOD < 10 ^ 20 := by decide
  exact Nat.repr_length n 20 (by decide) (by omega)

theorem fmtShape_length {r c : Nat} (hr : r < SIZE_MOD) (hc : c < SIZE_MOD) :
    (fmtShape r c).length ≤ 44 := by
  have h1 := fmt_lu_length hr
  have h2 := fmt_lu_length hc
  have e1 : ("(" : String).length = 1 := by decide
  have e2 : (", " : String).length = 2 := by decide
  have e3 : (")" : String).length = 1 := by decide
  simp only [fmtShape, String.length_append, e1, e2, e3]
  omega

theorem matmulText_length {A B : MatrixObject} (hA : SizeT A) (hB : SizeT B) :
    ("Wrong shapes while matmul: " ++ fmtShape A.nrows A.ncols ++ " @ "
      ++ fmtShape B.nrows B.ncols).length ≤ 256 - 1 := by
  have h1 := fmtShape_length hA.1 hA.2
  have h2 := fmtShape_length hB.1 hB.2
  have e1 : ("Wrong shapes while matmul: " : String).length = 27 := by decide
  have e2 : (" @ " : String).length = 3 := by decide
  simp only [String.length_append, e1, e2]
  omega

theorem sameShapeText_length {left right : MatrixObject} (hl : SizeT left)
    (hr : SizeT right) : (sameShapeText left right).length ≤ 256 - 1 := by
  have h1 := fmtShape_length hl.1 hl.2
  have h2 := fmtShape_length hr.1 hr.2
  have e1 : ("Shapes of @left and @right should be the same, got: " : String).length = 52 := by
    decide
  have e2 : (" and " : String).length = 5 := by decide
  simp only [sameShapeText, String.length_append, e1, e2]
  omega

theorem PyResult.ofOption_ne_raised {β : Type} (o : Option β) (exc : PyExc) (msg : String) :
    PyResult.ofOption o ≠ PyResult.raised exc msg := by
  cases o <;> simp [PyResult.ofOption]

theorem check_shapeErrorIff {β : Type} (left right : MatrixObject) (hl : SizeT left)
    (hr : SizeT right) (f : MatrixObject → MatrixObject → Option β) :
    ShapeErrorIff
      (CHECK_BOTH_MATRICES_OF_SAME_SHAPE (PyObject.matrix left) (PyObject.matrix right)
        (fun l r => PyResult.ofOption (f l r))) left right := by
  have hlen := sameShapeText_length hl hr
  by_cases hm : left.nrows ≠ right.nrows ∨ left.ncols ≠ right.ncols
  · have hcond : (decide (left.nrows ≠ right.nrows) || decide (left.ncols ≠ right.ncols))
        = true := by
      rcases hm with h1 | h1 <;> simp [h1]
    have he : CHECK_BOTH_MATRICES_OF_SAME_SHAPE (PyObject.matrix left) (PyObject.matrix right)
        (fun l r => PyResult.ofOption (f l r))
        = PyResult.raised PyExc.ValueError (sameShapeText left right) := by
      simp only [CHECK_BOTH_MATRICES_OF_SAME_SHAPE, RAISE_EXCEPTION_IF]
      rw [hcond, ← snprintf_eq 256 (sameShapeText left right) hlen]
      rfl
    exact ⟨⟨fun _ => hm, fun _ => ⟨_, he⟩⟩, fun _ => he, fun hn => absurd hm hn⟩
  · have hcond : (decide (left.nrows ≠ right.nrows) || decide (left.ncols ≠ right.ncols))
        = false := by
      have h1 : left.nrows = right.nrows := by
        by_contra hne
        exact hm (Or.inl hne)
      have h2 : left.ncols = right.ncols := by
        by_contra hne
        exact hm (Or.inr hne)
      simp [h1, h2]
    have he : CHECK_BOTH_MATRICES_OF_SAME_SHAPE (PyObject.matrix left) (PyObject.matrix right)
        (fun l r => PyResult.ofOption (f l r)) = PyResult.ofOption (f left right) := by
      simp only [CHECK_BOTH_MATRICES_OF_SAME_SHAPE, RAISE_EXCEPTION_IF]
      rw [hcond]
      rfl
    rw [he]
    refine ⟨⟨fun hex => ?_, fun hmm => absurd hmm hm⟩, fun hmm => absurd hmm hm, fun _ => ?_⟩
    · obtain ⟨msg, hmsg⟩ := hex
      exact absurd hmsg (PyResult.ofOption_ne_raised _ _ _)
    · intro exc msg
      exact PyResult.ofOption_ne_raised _ _ _

/-! ## Element access through handles -/

theorem CreateViewToMatrix_eq {α : Type} (h : Heap α) (M : MatrixObject) (c : Int)
    (hc : GetRefCnt h M = some c) (hpos : 0 < c) :
    CreateViewToMatrix h M =
      some (M, { h with refcnts := h.refcnts.set M.data_refcnt (some ⟨c + 1⟩) }) := by
  have hr := GetRefCnt_eq_some hc
  simp [CreateViewToMatrix, hc, hpos, IncrementRefCnt, hr]

theorem Matrix_get_eq {α : Type} (h : Heap α) {M : MatrixObject} (hs : ValidShape M)
    {i j : Int} (hi0 : 0 ≤ i) (hi : i < (M.nrows : Int)) (hj0 : 0 ≤ j)
    (hj : j < (M.ncols : Int)) :
    Matrix_get h M i j = readAt h M i.toNat j.toNat ∧ i.toNat < M.nrows ∧ j.toNat < M.ncols := by
  obtain ⟨ei, hi'⟩ := toSizeT_of_nonneg hi0 hi hs.1.2
  obtain ⟨ej, hj'⟩ := toSizeT_of_nonneg hj0 hj hs.2.1.2
  exact ⟨by rw [Matrix_get, ei, ej, readAt], hi', hj'⟩

theorem Matrix_set_spec {α : Type} {h : Heap α} {M : MatrixObject} (hv : Valid h M)
    {i j : Int} (hi0 : 0 ≤ i) (hi : i < (M.nrows : Int)) (hj0 : 0 ≤ j)
    (hj : j < (M.ncols : Int)) (v : α) :
    ∃ g, Matrix_set h M i j v = some g ∧ SameExcept M.data h g ∧
      g.load M.data (DataIndexFromCoords M i.toNat j.toNat) = some v ∧
      ∀ k, k ≠ DataIndexFromCoords M i.toNat j.toNat → g.load M.data k = h.load M.data k := by
  obtain ⟨ei, hi'⟩ := toSizeT_of_nonneg hi0 hi hv.1.1.2
  obtain ⟨ej, hj'⟩ := toSizeT_of_nonneg hj0 hj hv.1.2.1.2
  obtain ⟨g, hst, hs, hnew, hold⟩ := Heap.store_spec h M.data
    (DataIndexFromCoords M i.toNat j.toNat) (M.nrows * M.ncols) v hv.2.1
    (hv.1.index_lt hi' hj')
  exact ⟨g, by rw [Matrix_set, ei, ej]; exact hst, hs, hnew, hold⟩

theorem set_through_alias {α : Type} {h : Heap α} {M N : MatrixObject} (hM : Valid h M)
    (hN : Valid h N) (hd : N.data = M.data) {i j : Int} (hi0 : 0 ≤ i)
    (hi : i < (N.nrows : Int)) (hj0 : 0 ≤ j) (hj : j < (N.ncols : Int)) {a b : Nat}
    (ha : a < M.nrows) (hb : b < M.ncols)
    (hidx : DataIndexFromCoords N i.toNat j.toNat = DataIndexFromCoords M a b) (v : α) :
    ∃ g, Matrix_set h N i j v = some g ∧ SameExcept M.data h g ∧ readAt g M a b = some v ∧
      ∀ a' b', a' < M.nrows → b' < M.ncols → (a', b') ≠ (a, b) →
        readAt g M a' b' = readAt h M a' b' := by
  obtain ⟨g, hset, hs, hnew, hold⟩ := Matrix_set_spec hN hi0 hi hj0 hj v
  rw [hd] at hs hnew hold
  refine ⟨g, hset, hs, ?_, fun a' b' ha' hb' hne => ?_⟩
  · rw [readAt, ← hidx]
    exact hnew
  · refine hold _ (fun he => hne ?_)
    rw [hidx] at he
    obtain ⟨h1, h2⟩ := hM.1.index_inj ha' hb' ha hb he
    rw [h1, h2]

theorem int_pair_ne {i j i' j' : Int} (hi : 0 ≤ i) (hj : 0 ≤ j) (hi' : 0 ≤ i') (hj' : 0 ≤ j')
    (hne : (i', j') ≠ (i, j)) : (i'.toNat, j'.toNat) ≠ (i.toNat, j.toNat) := by
  intro he
  apply hne
  have h1 : i'.toNat = i.toNat := congrArg Prod.fst he
  have h2 : j'.toNat = j.toNat := congrArg Prod.snd he
  have e1 : i' = i := by omega
  have e2 : j' = j := by omega
  rw [e1, e2]

/-! ## Fill -/

theorem ValidShape.index_surj {m : MatrixObject} (hs : ValidShape m) {idx : Nat}
    (hidx : idx < m.nrows * m.ncols) :
    ∃ i j, i < m.nrows ∧ j < m.ncols ∧ DataIndexFromCoords m i j = idx := by
  have hn : 0 < m.nrows := hs.1.1
  have hm : 0 < m.ncols := hs.2.1.1
  rcases hs.2.2 with ⟨h1, h2⟩ | ⟨h1, h2⟩
  · have hi : idx / m.ncols < m.nrows := (Nat.div_lt_iff_lt_mul hm).mpr hidx
    have hj : idx % m.ncols < m.ncols := Nat.mod_lt _ hm
    refine ⟨idx / m.ncols, idx % m.ncols, hi, hj, ?_⟩
    rw [(hs.index_eq hi hj).1, h1, h2, Nat.one_mul]
    exact Nat.div_add_mod idx m.ncols
  · have hj : idx / m.nrows < m.ncols :=
      (Nat.div_lt_iff_lt_mul hn).mpr (by rw [Nat.mul_comm]; exact hidx)
    have hi : idx % m.nrows < m.nrows := Nat.mod_lt _ hn
    refine ⟨idx % m.nrows, idx / m.nrows, hi, hj, ?_⟩
    rw [(hs.index_eq hi hj).1, h1, h2, Nat.one_mul, Nat.add_comm]
    exact Nat.div_add_mod idx m.nrows

theorem FillMatrix_spec {α : Type} {h : Heap α} {M : MatrixObject} (hv : Valid h M) (v : α) :
    ∃ g, FillMatrix h M v = some g ∧ SameExcept M.data h g ∧
      ∀ idx, idx < M.nrows * M.ncols → g.load M.data idx = some v := by
  obtain ⟨g, hg, hs, hdone⟩ := fillLoop_spec h M.data (DataSize M) (M.nrows * M.ncols) v
    hv.2.1 (Nat.le_of_eq hv.1.dataSize)
  refine ⟨g, hg, hs, fun idx hidx => hdone idx ?_⟩
  rw [hv.1.dataSize]
  exact hidx

theorem fillLogical_spec {α : Type} {h : Heap α} {M : MatrixObject} (hv : Valid h M) (v : α) :
    ∃ g, fillLogical h M v = some g ∧ SameExcept M.data h g ∧
      ∀ idx, idx < M.nrows * M.ncols → g.load M.data idx = some v := by
  obtain ⟨g, hg, hs, hdone⟩ := forLoop2_inv
    (fun t (g : Heap α) => SameExcept M.data h g ∧
      ∀ i' j', i' < M.nrows → j' < M.ncols → M.ncols * i' + j' < t →
        g.load M.data (DataIndexFromCoords M i' j') = some v)
    M.nrows M.ncols
    (fun i j g => g.store M.data (DataIndexFromCoords M i j) v) h
    ⟨SameExcept.refl _ _, fun _ _ _ _ h0 => absurd h0 (Nat.not_lt_zero _)⟩
    (by
      intro i j g hi hj hP
      obtain ⟨hs, hdone⟩ := hP
      have hgl : g.bufLen M.data = some (M.nrows * M.ncols) := by rw [hs.2.2.2, hv.2.1]
      obtain ⟨g', hst, hs', hnew, hold⟩ := Heap.store_spec g M.data
        (DataIndexFromCoords M i j) (M.nrows * M.ncols) v hgl (hv.1.index_lt hi hj)
      refine ⟨g', hst, hs.trans hs', fun i' j' hi' hj' hlt => ?_⟩
      by_cases he : DataIndexFromCoords M i' j' = DataIndexFromCoords M i j
      · rw [he]
        exact hnew
      · rw [hold _ he]
        refine hdone i' j' hi' hj' ?_
        rcases Nat.lt_or_ge (M.ncols * i' + j') (M.ncols * i + j) with h1 | h1
        · exact h1
        · exfalso
          have h2 : M.ncols * i' + j' = M.ncols * i + j := by omega
          obtain ⟨e1, e2⟩ := rowMajor_inj hj' hj h2
          exact he (by rw [e1, e2]))
  refine ⟨g, hg, hs, fun idx hidx => ?_⟩
  obtain ⟨i, j, hi, hj, he⟩ := hv.1.index_surj hidx
  rw [← he]
  refine hdone i j hi hj ?_
  rw [Nat.mul_comm M.ncols M.nrows]
  exact rowMajor_lt hi hj

theorem heap_eq_of_sameExcept {α : Type} {h g1 g2 : Heap α} {p len : Nat}
    (h1 : SameExcept p h g1) (h2 : SameExcept p h g2) (hlen : h.bufLen p = some len)
    (hl : ∀ idx, idx < len → g1.load p idx = g2.load p idx) : g1 = g2 := by
  obtain ⟨arr1, ha1, hl1⟩ := Heap.bufLen_eq_some (h1.2.2.2.trans hlen)
  obtain ⟨arr2, ha2, hl2⟩ := Heap.bufLen_eq_some (h2.2.2.2.trans hlen)
  have harr : arr1 = arr2 := by
    apply List.ext_getElem?
    intro idx
    rcases Nat.lt_or_ge idx len with hi | hi
    · have h3 := hl idx hi
      simp only [Heap.load, ha1, ha2] at h3
      exact h3
    · rw [List.getElem?_eq_none (by omega), List.getElem?_eq_none (by omega)]
  have harrs : g1.arrays = g2.arrays := by
    apply List.ext_getElem?
    intro q
    by_cases hq : q = p
    · rw [hq, ha1, ha2, harr]
    · rw [h1.2.2.1 q hq, h2.2.2.1 q hq]
  cases g1
  cases g2
  simp only [Heap.mk.injEq]
  exact ⟨harrs, h1.1.trans h2.1.symm⟩

/-! ## Constructors -/

theorem toSizeT_of_int {i : Int} (h0 : 0 ≤ i) (hlim : i < (INT_LIMIT : Int)) :
    toSizeT i = i.toNat ∧ i.toNat < INT_LIMIT := by
  have h1 : (INT_LIMIT : Int) < (SIZE_MOD : Int) := by decide
  refine ⟨?_, by omega⟩
  unfold toSizeT
  rw [Int.emod_eq_of_lt h0 (by omega)]

theorem InitMatrix_eq {α : Type} [Zero α] (h : Heap α) (self : MatrixObject) (n m : Nat) :
    InitMatrix h self n m = some (freshHandle h n m, allocHeap h n m) := by
  simp [InitMatrix, AllocateArray, mallocRefCnt, SetRefCnt, DataSize, freshHandle, allocHeap]

theorem fresh_alloc {α : Type} [Zero α] (h : Heap α) {n m : Nat}
    (hn : 1 ≤ n ∧ n < INT_LIMIT) (hm : 1 ≤ m ∧ m < INT_LIMIT) :
    Valid (allocHeap h n m) (freshHandle h n m) :=
  (fresh_of_sameExcept h (allocHeap h n m) n m hn.2 hm.2 (SameExcept.refl _ _)
    (freshHandle h n m) rfl rfl rfl rfl).valid_matrix (ValidShape.freshHandle h hn hm)

theorem createFilled_spec {α : Type} [Zero α] (h : Heap α) (rows cols : Int)
    (hr : 1 ≤ rows ∧ rows < (INT_LIMIT : Int)) (hc : 1 ≤ cols ∧ cols < (INT_LIMIT : Int))
    (v : α) :
    ∃ g, (CreateMatrixFromSize h (toSizeT rows) (toSizeT cols)).bind (fun r =>
        (FillMatrix r.2 r.1 v).map fun h2 => (r.1, h2))
          = some (freshHandle h rows.toNat cols.toNat, g) ∧
      (InitMatrix h Matrix_new (toSizeT rows) (toSizeT cols)).bind (fun r =>
        (FillMatrix r.2 r.1 v).map fun h2 => ((0 : Int), r.1, h2))
          = some (0, freshHandle h rows.toNat cols.toNat, g) ∧
      IsFilled h rows cols v (freshHandle h rows.toNat cols.toNat) g := by
  obtain ⟨er, hr'⟩ := toSizeT_of_int (by omega) hr.2
  obtain ⟨ec, hc'⟩ := toSizeT_of_int (by omega) hc.2
  have hn : 1 ≤ rows.toNat ∧ rows.toNat < INT_LIMIT := ⟨by omega, hr'⟩
  have hm : 1 ≤ cols.toNat ∧ cols.toNat < INT_LIMIT := ⟨by omega, hc'⟩
  have hv := fresh_alloc h hn hm
  obtain ⟨g, hg, hs, hdone⟩ := FillMatrix_spec hv v
  have hf : Fresh h (freshHandle h rows.toNat cols.toNat) g :=
    fresh_of_sameExcept h g _ _ hn.2 hm.2 hs _ rfl rfl rfl rfl
  have hvg := hf.valid_matrix (ValidShape.freshHandle h hn hm)
  refine ⟨g, ?_, ?_, rfl, rfl, rfl, rfl, hf, hvg, fun i j hi hj => ?_⟩
  · rw [er, ec, CreateMatrixFromSize_eq]
    simp only [Option.some_bind]
    rw [hg]
    rfl
  · rw [er, ec, InitMatrix_eq]
    simp only [Option.some_bind]
    rw [hg]
    rfl
  · exact hdone _ (hvg.1.index_lt hi hj)

theorem matmul_rand_spec {α : Type} [Zero α] [NatCast α] [Div α] (RAND_MAX : Nat)
    (h : Heap α) (rng : Nat → Nat) (rows cols : Int)
    (hr : 1 ≤ rows ∧ rows < (INT_LIMIT : Int)) (hc : 1 ≤ cols ∧ cols < (INT_LIMIT : Int)) :
    ∃ g, matmul_rand RAND_MAX h rng rows cols
        = PyResult.ok (freshHandle h rows.toNat cols.toNat, g,
            fun k => rng (rows.toNat * cols.toNat + k)) ∧
      Fresh h (freshHandle h rows.toNat cols.toNat) g ∧
      Valid g (freshHandle h rows.toNat cols.toNat) ∧
      ∀ i j, i < rows.toNat → j < cols.toNat →
        readAt g (freshHandle h rows.toNat cols.toNat) i j
          = some (((rng (cols.toNat * i + j) : Nat) : α) / ((RAND_MAX : Nat) : α)) := by
  obtain ⟨er, hr'⟩ := toSizeT_of_int (by omega) hr.2
  obtain ⟨ec, hc'⟩ := toSizeT_of_int (by omega) hc.2
  have hn : 1 ≤ rows.toNat ∧ rows.toNat < INT_LIMIT := ⟨by omega, hr'⟩
  have hm : 1 ≤ cols.toNat ∧ cols.toNat < INT_LIMIT := ⟨by omega, hc'⟩
  have hv := fresh_alloc h hn hm
  have hsz : DataSize (freshHandle h rows.toNat cols.toNat) = rows.toNat * cols.toNat :=
    hv.1.dataSize
  obtain ⟨s, hs, hsame, hdone, hrng⟩ := forLoop_inv
    (fun t (s : Heap α × (Nat → Nat)) =>
      SameExcept h.arrays.length (allocHeap h rows.toNat cols.toNat) s.1 ∧
      (∀ idx, idx < t → s.1.load h.arrays.length idx
        = some (((rng idx : Nat) : α) / ((RAND_MAX : Nat) : α))) ∧
      s.2 = fun k => rng (t + k))
    (rows.toNat * cols.toNat)
    (fun i (s : Heap α × (Nat → Nat)) =>
      (s.1.store (freshHandle h rows.toNat cols.toNat).data i
        (((s.2 0 : Nat) : α) / ((RAND_MAX : Nat) : α))).map fun g =>
          (g, fun k => s.2 (k + 1)))
    (allocHeap h rows.toNat cols.toNat, rng)
    ⟨SameExcept.refl _ _, fun idx hidx0 => absurd hidx0 (Nat.not_lt_zero _), by simp⟩
    (by
      intro i s hi hP
      obtain ⟨hsame, hdone, hrng⟩ := hP
      obtain ⟨g', hst, hs', hload⟩ := write_step
        (F := fun idx => ((rng idx : Nat) : α) / ((RAND_MAX : Nat) : α)) hv.2.1 hi hsame hdone
        (((s.2 0 : Nat) : α) / ((RAND_MAX : Nat) : α))
        (by rw [hrng]; simp only [Nat.add_zero])
      refine ⟨(g', fun k => s.2 (k + 1)), congrArg (Option.map _) hst, hs', hload, ?_⟩
      funext k
      show s.2 (k + 1) = rng (i + 1 + k)
      rw [hrng]
      show rng (i + (k + 1)) = rng (i + 1 + k)
      congr 1
      omega)
  have hf : Fresh h (freshHandle h rows.toNat cols.toNat) s.1 :=
    fresh_of_sameExcept h s.1 _ _ hn.2 hm.2 hsame _ rfl rfl rfl rfl
  have hvg := hf.valid_matrix (ValidShape.freshHandle h hn hm)
  refine ⟨s.1, ?_, hf, hvg, fun i j hi hj => ?_⟩
  · rw [matmul_rand, er, ec, CreateMatrixFromSize_eq]
    simp only [Option.some_bind, hsz]
    rw [hs, ← hrng]
    rfl
  · show s.1.load h.arrays.length (DataIndexFromCoords _ i j) = _
    rw [freshHandle_index h hn.2 hm.2 hi hj]
    exact hdone _ (rowMajor_lt hi hj)

/-! ## Algebraic laws of the product -/

theorem sumFrom0_congr {α : Type} [Zero α] [Add α] (n : Nat) (f g : Nat → α)
    (hfg : ∀ k, k < n → f k = g k) : sumFrom0 n f = sumFrom0 n g := by
  induction n with
  | zero => rfl
  | succ n ih =>
    rw [sumFrom0_succ, sumFrom0_succ, ih (fun k hk => hfg k (Nat.lt_succ_of_lt hk)),
      hfg n (Nat.lt_succ_self n)]

theorem CreateTransposeView_valid {α : Type} {h : Heap α} {M : MatrixObject}
    (hv : Valid h M) :
    ∃ T h', CreateTransposeView h M = some (T, h') ∧ h'.arrays = h.arrays ∧ Valid h' T ∧
      T.nrows = M.ncols ∧ T.ncols = M.nrows ∧ T.data = M.data ∧
      T.data_refcnt = M.data_refcnt ∧
      (∀ V, Valid h V → Valid h' V) ∧
      (∀ i j, DataIndexFromCoords T i j = DataIndexFromCoords M j i) := by
  obtain ⟨c, hc, hpos⟩ := hv.refcnt_pos
  have hM1 := Valid.retain hc hpos hv
  refine ⟨_, _, CreateTransposeView_eq h M c hc hpos, rfl,
    ⟨hv.1.transpose, by rw [Nat.mul_comm]; exact hM1.2.1, hM1.2.2⟩, rfl, rfl, rfl, rfl,
    fun V hV => Valid.retain hc hpos hV, fun i j => index_transpose M i j⟩

theorem entry_of_alias {α : Type} [Zero α] {h h' : Heap α} {M T : MatrixObject}
    (ha : h'.arrays = h.arrays) (hd : T.data = M.data) {i j a b : Nat}
    (hidx : DataIndexFromCoords T i j = DataIndexFromCoords M a b) :
    readAt h' T i j = readAt h M a b ∧ entry h' T i j = entry h M a b := by
  have h1 : readAt h' T i j = readAt h M a b := by
    rw [readAt, readAt, hd, hidx]
    exact Heap.load_congr ha _ _
  exact ⟨h1, by rw [entry, entry, h1]⟩

theorem MatMulImpl_of_CPU {α : Type} [Zero α] [Add α] [Mul α] {h : Heap α}
    {A B : MatrixObject} (hK : A.ncols = B.nrows) {r : MatrixObject × Heap α}
    (he : MatMulImplCPU h A B = some r) : MatMulImpl h A B = PyResult.ok r := by
  rw [MatMulImpl, if_neg (not_not.mpr hK), he]
  rfl

/-! ## Validity along runs -/

theorem mapLoop_spec {α : Type} (f : α → α) (h1 : Heap α) (src dst n : Nat) (hne : src ≠ dst)
    (hsrc : h1.bufLen src = some n) (hdst : h1.bufLen dst = some n) :
    ∃ g, forLoop n (fun i g => (g.load src i).bind fun v => g.store dst i (f v)) h1 = some g ∧
      SameExcept dst h1 g ∧ ∀ idx, idx < n → g.load dst idx = (h1.load src idx).map f := by
  refine forLoop_inv
    (fun t (g : Heap α) => SameExcept dst h1 g ∧
      ∀ idx, idx < t → g.load dst idx = (h1.load src idx).map f)
    n _ h1 ⟨SameExcept.refl _ _, fun idx hidx0 => absurd hidx0 (Nat.not_lt_zero _)⟩ ?_
  intro i g hi hP
  obtain ⟨hs, hdone⟩ := hP
  obtain ⟨v, hv⟩ := Heap.load_of_bufLen hsrc hi
  have hg : g.bufLen dst = some n := by rw [hs.2.2.2, hdst]
  obtain ⟨g', hst, hs', hnew, hold⟩ := Heap.store_spec g dst i n (f v) hg hi
  dsimp only
  rw [hs.load_ne hne, hv]
  refine ⟨g', hst, hs.trans hs', fun idx hidx => ?_⟩
  by_cases he : idx = i
  · rw [he, hnew, hv]
    rfl
  · rw [hold idx he]
    exact hdone idx (by omega)

theorem MatrixNegative_spec {α : Type} [Zero α] [Neg α] (h : Heap α) (M : MatrixObject)
    (hv : Valid h M) :
    ∃ C g, MatrixNegative h M = some (C, g) ∧ C.nrows = M.nrows ∧ C.ncols = M.ncols ∧
      C.rows_stride = M.ncols ∧ C.cols_stride = 1 ∧ Fresh h C g ∧ Valid g C ∧
      ∀ idx, idx < M.nrows * M.ncols →
        g.load C.data idx = (h.load M.data idx).map (fun v => -v) := by
  have hsz : (M.nrows * M.ncols) % SIZE_MOD = M.nrows * M.ncols :=
    Nat.mod_eq_of_lt (size_lt_SIZE_MOD hv.1.1.2 hv.1.2.1.2)
  have hext := Heap.extends_alloc h M.nrows M.ncols
  have hlen := Heap.bufLen_alloc h M.nrows M.ncols
  rw [hsz] at hlen
  have hMlt := Heap.bufLen_lt hv.2.1
  have hsrc : (allocHeap h M.nrows M.ncols).bufLen M.data = some (M.nrows * M.ncols) := by
    rw [← hv.2.1]
    simp only [Heap.bufLen, hext.1 _ hMlt]
  obtain ⟨g, hg, hs, hdone⟩ := mapLoop_spec (fun v => -v) (allocHeap h M.nrows M.ncols)
    M.data h.arrays.length (M.nrows * M.ncols) (by omega) hsrc hlen
  have hfresh : Fresh h (freshHandle h M.nrows M.ncols) g :=
    fresh_of_sameExcept h g _ _ hv.1.1.2 hv.1.2.1.2 hs _ rfl rfl rfl rfl
  refine ⟨freshHandle h M.nrows M.ncols, g, ?_, rfl, rfl, rfl, rfl, hfresh,
    hfresh.valid_matrix (ValidShape.freshHandle h hv.1.1 hv.1.2.1), fun idx hidx => ?_⟩
  · rw [MatrixNegative, CreateMatrixFromSize_eq]
    simp only [Option.some_bind, DataSize, hsz]
    exact congrArg (Option.map _) hg
  · show g.load h.arrays.length idx = _
    rw [hdone idx hidx, hext.load_eq hMlt]

theorem PyResult.ofOption_eq_ok {β : Type} {o : Option β} {x : β}
    (h : PyResult.ofOption o = PyResult.ok x) : o = some x := by
  cases o with
  | none => simp [PyResult.ofOption] at h
  | some y =>
    simp only [PyResult.ofOption, PyResult.ok.injEq] at h
    rw [h]

theorem check_ok_inv {β : Type} {L R : MatrixObject}
    {f : MatrixObject → MatrixObject → Option β} {x : β}
    (h : CHECK_BOTH_MATRICES_OF_SAME_SHAPE (PyObject.matrix L) (PyObject.matrix R)
      (fun l r => PyResult.ofOption (f l r)) = PyResult.ok x) :
    (L.nrows = R.nrows ∧ L.ncols = R.ncols) ∧ f L R = some x := by
  simp only [CHECK_BOTH_MATRICES_OF_SAME_SHAPE, RAISE_EXCEPTION_IF] at h
  split at h
  · simp at h
  · rename_i hc
    simp only [Bool.or_eq_true, decide_eq_true_eq, not_or, not_not] at hc
    exact ⟨hc, PyResult.ofOption_eq_ok h⟩

theorem check_ne_undefined {β : Type} {L R : MatrixObject}
    {f : MatrixObject → MatrixObject → Option β}
    (hf : L.nrows = R.nrows → L.ncols = R.ncols → f L R ≠ none) :
    CHECK_BOTH_MATRICES_OF_SAME_SHAPE (PyObject.matrix L) (PyObject.matrix R)
      (fun l r => PyResult.ofOption (f l r)) ≠ PyResult.undefined := by
  simp only [CHECK_BOTH_MATRICES_OF_SAME_SHAPE, RAISE_EXCEPTION_IF]
  split
  · simp
  · rename_i hc
    simp only [Bool.or_eq_true, decide_eq_true_eq, not_or, not_not] at hc
    have h1 := hf hc.1 hc.2
    cases hfo : f L R with
    | none => exact absurd hfo h1
    | some y => simp [PyResult.ofOption]

theorem MatMulImpl_ok_inv {α : Type} [Zero α] [Add α] [Mul α] {h : Heap α}
    {A B : MatrixObject} {r : MatrixObject × Heap α}
    (he : MatMulImpl h A B = PyResult.ok r) :
    A.ncols = B.nrows ∧ MatMulImplCPU h A B = some r := by
  unfold MatMulImpl at he
  split at he
  · simp at he
  · rename_i hc
    exact ⟨not_not.mp hc, PyResult.ofOption_eq_ok he⟩

theorem IsElementwiseResult.valid_result {α : Type} [Zero α] {op : α → α → α} {h : Heap α}
    {L R : MatrixObject} {C : MatrixObject} {g : Heap α} (hL : Valid h L)
    (hres : IsElementwiseResult op h L R (some (C, g))) : Valid g C ∧ h.Extends g := by
  obtain ⟨C', g', he, hn, hm, hrs, hcs, hf, -⟩ := hres
  simp only [Option.some.injEq, Prod.mk.injEq] at he
  obtain ⟨e1, e2⟩ := he
  subst e1
  subst e2
  exact ⟨hf.valid_matrix ⟨by rw [hn]; exact hL.1.1, by rw [hm]; exact hL.1.2.1,
    Or.inl ⟨hrs.trans hm.symm, hcs⟩⟩, hf.2.2.1⟩

theorem createFilled_valid {α : Type} [Zero α] {h : Heap α} {rows cols : Int}
    (hr : 1 ≤ rows ∧ rows < (INT_LIMIT : Int)) (hc : 1 ≤ cols ∧ cols < (INT_LIMIT : Int))
    (v : α) {C : MatrixObject} {g : Heap α}
    (he : (CreateMatrixFromSize h (toSizeT rows) (toSizeT cols)).bind (fun r =>
        (FillMatrix r.2 r.1 v).map fun h2 => (r.1, h2)) = some (C, g)) :
    Valid g C ∧ h.Extends g := by
  obtain ⟨g0, hz, -, hf⟩ := createFilled_spec h rows cols hr hc v
  rw [hz] at he
  simp only [Option.some.injEq, Prod.mk.injEq] at he
  obtain ⟨e1, e2⟩ := he
  subst e1
  subst e2
  exact ⟨hf.2.2.2.2.2.1, hf.2.2.2.2.1.2.2.1⟩

theorem Matrix_init_valid {α : Type} [Zero α] {h : Heap α} {rows cols : Int}
    (hr : 1 ≤ rows ∧ rows < (INT_LIMIT : Int)) (hc : 1 ≤ cols ∧ cols < (INT_LIMIT : Int))
    {C : MatrixObject} {g : Heap α}
    (he : Matrix_init h Matrix_new rows cols = some (0, C, g)) :
    Valid g C ∧ h.Extends g := by
  obtain ⟨g0, -, hi, hf⟩ := createFilled_spec h rows cols hr hc (0 : α)
  rw [Matrix_init, if_neg (by omega), hi] at he
  simp only [Option.some.injEq, Prod.mk.injEq, true_and] at he
  obtain ⟨e1, e2⟩ := he
  subst e1
  subst e2
  exact ⟨hf.2.2.2.2.2.1, hf.2.2.2.2.1.2.2.1⟩

theorem matmul_rand_valid {α : Type} [Zero α] [NatCast α] [Div α] {RAND_MAX : Nat}
    {h : Heap α} {rng rng' : Nat → Nat} {rows cols : Int}
    (hr : 1 ≤ rows ∧ rows < (INT_LIMIT : Int)) (hc : 1 ≤ cols ∧ cols < (INT_LIMIT : Int))
    {C : MatrixObject} {g : Heap α}
    (he : matmul_rand RAND_MAX h rng rows cols = PyResult.ok (C, g, rng')) :
    Valid g C ∧ h.Extends g := by
  obtain ⟨g0, hz, hf, hv, -⟩ := matmul_rand_spec RAND_MAX h rng rows cols hr hc
  rw [hz] at he
  simp only [PyResult.ok.injEq, Prod.mk.injEq] at he
  obtain ⟨e1, e2, -⟩ := he
  subst e1
  subst e2
  exact ⟨hv, hf.2.2.1⟩

theorem valid_cons_of_keep {α : Type} {h g : Heap α} {C : MatrixObject}
    {hs : List MatrixObject} (hC : Valid g C) (hk : ∀ V, Valid h V → Valid g V)
    (hv : ∀ M ∈ hs, Valid h M) : ∀ M ∈ C :: hs, Valid g M := by
  intro M hM
  rcases List.mem_cons.mp hM with h1 | h1
  · rw [h1]
    exact hC
  · exact hk M (hv M h1)

theorem valid_cons_of_extends {α : Type} {h g : Heap α} {C : MatrixObject}
    {hs : List MatrixObject} (hC : Valid g C ∧ h.Extends g)
    (hv : ∀ M ∈ hs, Valid h M) : ∀ M ∈ C :: hs, Valid g M :=
  valid_cons_of_keep hC.1 (fun _ hV => hC.2.valid hV) hv

theorem Step.preserves_valid {α : Type} [Zero α] [One α] [Add α] [Sub α] [Mul α] [Div α]
    [Neg α] [NatCast α] {w w' : World α} (hs : Step w w')
    (hv : ∀ M ∈ w.handles, Valid w.heap M) : ∀ M ∈ w'.handles, Valid w'.heap M := by
  cases hs with
  | init r c C g hr hc he => exact valid_cons_of_extends (Matrix_init_valid hr hc he) hv
  | zeros r c C g hr hc he =>
    exact valid_cons_of_extends (createFilled_valid hr hc 0 (PyResult.ofOption_eq_ok he)) hv
  | ones r c C g hr hc he =>
    exact valid_cons_of_extends (createFilled_valid hr hc 1 (PyResult.ofOption_eq_ok he)) hv
  | full r c v C g hr hc he =>
    exact valid_cons_of_extends (createFilled_valid hr hc v (PyResult.ofOption_eq_ok he)) hv
  | rand RAND_MAX rng rng' r c C g hr hc he =>
    exact valid_cons_of_extends (matmul_rand_valid hr hc he) hv
  | copy_view M V g hM he =>
    obtain ⟨c, hc, hpos⟩ := (hv M hM).refcnt_pos
    rw [CreateViewToMatrix_eq w.heap M c hc hpos] at he
    simp only [Option.some.injEq, Prod.mk.injEq] at he
    obtain ⟨e1, e2⟩ := he
    subst e1
    subst e2
    exact valid_cons_of_keep (Valid.retain hc hpos (hv M hM))
      (fun V hV => Valid.retain hc hpos hV) hv
  | transpose_view M T g hM he =>
    obtain ⟨T', g', he', -, hT, -, -, -, -, hkeep, -⟩ := CreateTransposeView_valid (hv M hM)
    rw [he'] at he
    simp only [Option.some.injEq, Prod.mk.injEq] at he
    obtain ⟨e1, e2⟩ := he
    subst e1
    subst e2
    exact valid_cons_of_keep hT hkeep hv
  | deep_copy M C g hM he =>
    obtain ⟨C', g', he', -, -, -, -, hf, hC, -⟩ := MatrixCopy_spec w.heap M (hv M hM)
    rw [he'] at he
    simp only [Option.some.injEq, Prod.mk.injEq] at he
    obtain ⟨e1, e2⟩ := he
    subst e1
    subst e2
    exact valid_cons_of_extends ⟨hC, hf.2.2.1⟩ hv
  | negate M C g hM he =>
    obtain ⟨C', g', he', -, -, -, -, hf, hC, -⟩ := MatrixNegative_spec w.heap M (hv M hM)
    rw [he'] at he
    simp only [Option.some.injEq, Prod.mk.injEq] at he
    obtain ⟨e1, e2⟩ := he
    subst e1
    subst e2
    exact valid_cons_of_extends ⟨hC, hf.2.2.1⟩ hv
  | add L R C g hL hR he =>
    obtain ⟨hsh, he'⟩ := check_ok_inv he
    have hres := MatrixElementwise_spec (fun x y => x + y) w.heap L R (hv L hL) (hv R hR)
      hsh.1 hsh.2
    rw [show MatrixElementwise (fun x y => x + y) w.heap L R = MatrixAdd w.heap L R from rfl,
      he'] at hres
    exact valid_cons_of_extends (hres.valid_result (hv L hL)) hv
  | subtract L R C g hL hR he =>
    obtain ⟨hsh, he'⟩ := check_ok_inv he
    have hres := MatrixElementwise_spec (fun x y => x - y) w.heap L R (hv L hL) (hv R hR)
      hsh.1 hsh.2
    rw [show MatrixElementwise (fun x y => x - y) w.heap L R = MatrixSubtract w.heap L R
      from rfl, he'] at hres
    exact valid_cons_of_extends (hres.valid_result (hv L hL)) hv
  | multiply L R C g hL hR he =>
    obtain ⟨hsh, he'⟩ := check_ok_inv he
    have hres := MatrixElementwise_spec (fun x y => x * y) w.heap L R (hv L hL) (hv R hR)
      hsh.1 hsh.2
    rw [show MatrixElementwise (fun x y => x * y) w.heap L R = MatrixMultiply w.heap L R
      from rfl, he'] at hres
    exact valid_cons_of_extends (hres.valid_result (hv L hL)) hv
  | divide L R C g hL hR he =>
    obtain ⟨hsh, he'⟩ := check_ok_inv he
    have hres := MatrixElementwise_spec (fun x y => x / y) w.heap L R (hv L hL) (hv R hR)
      hsh.1 hsh.2
    rw [show MatrixElementwise (fun x y => x / y) w.heap L R = MatrixDivide w.heap L R
      from rfl, he'] at hres
    exact valid_cons_of_extends (hres.valid_result (hv L hL)) hv
  | matmul A B C g hA hB he =>
    obtain ⟨hK, he'⟩ := MatMulImpl_ok_inv he
    obtain ⟨C', g', he2, -, -, -, -, hf, hC, -⟩ :=
      MatMulImplCPU_spec w.heap A B (hv A hA) (hv B hB) hK
    rw [he2] at he'
    simp only [Option.some.injEq, Prod.mk.injEq] at he'
    obtain ⟨e1, e2⟩ := he'
    subst e1
    subst e2
    exact valid_cons_of_extends ⟨hC, hf.2.2.1⟩ hv

theorem Reachable.all_valid {α : Type} [Zero α] [One α] [Add α] [Sub α] [Mul α] [Div α]
    [Neg α] [NatCast α] {w : World α} (hw : Reachable w) :
    ∀ M ∈ w.handles, Valid w.heap M := by
  induction hw with
  | start => intro M hM; simp at hM
  | step w w' _ hs ih => exact hs.preserves_valid ih

theorem Valid.indexInBounds {α : Type} {h : Heap α} {M : MatrixObject} (hv : Valid h M) :
    IndexInBounds h M :=
  ⟨hv.2.1, fun _ _ hi hj => ⟨(hv.1.index_eq hi hj).1, hv.1.index_lt hi hj⟩⟩

theorem Valid.noUndefined {α : Type} [Zero α] [Add α] [Sub α] [Mul α] [Div α] [Neg α]
    {h : Heap α} {M N : MatrixObject} (hM : Valid h M) (hN : Valid h N) :
    NoUndefined h M N := by
  have elem : ∀ op : α → α → α, M.nrows = N.nrows → M.ncols = N.ncols →
      MatrixElementwise op h M N ≠ none := by
    intro op h1 h2 hnone
    obtain ⟨C, g, he, -⟩ := MatrixElementwise_spec op h M N hM hN h1 h2
    rw [hnone] at he
    simp at he
  refine ⟨fun v hnone => ?_, fun hnone => ?_, fun hnone => ?_, check_ne_undefined (elem _),
    check_ne_undefined (elem _), check_ne_undefined (elem _), check_ne_undefined (elem _), ?_⟩
  · obtain ⟨g, he, -⟩ := FillMatrix_spec hM v
    rw [hnone] at he
    simp at he
  · obtain ⟨C, g, he, -⟩ := MatrixCopy_spec h M hM
    rw [hnone] at he
    simp at he
  · obtain ⟨C, g, he, -⟩ := MatrixNegative_spec h M hM
    rw [hnone] at he
    simp at he
  · by_cases hK : M.ncols = N.nrows
    · obtain ⟨C, g, he, -⟩ := MatMulImplCPU_spec h M N hM hN hK
      rw [MatMulImpl_of_CPU hK he]
      simp
    · rw [MatMulImpl, if_pos hK]
      simp

theorem scenarioWorld_reachable : Reachable scenarioWorld :=
  Reachable.step _ _
    (Reachable.step _ _ Reachable.start
      (Step.zeros ⟨emptyHeap Int, []⟩ 2 3 ⟨2, 3, 3, 1, 1, 1⟩
        ⟨[none, some [0, 0, 0, 0, 0, 0]], [none, some ⟨1⟩]⟩ (by decide) (by decide) rfl))
    (Step.transpose_view ⟨⟨[none, some [0, 0, 0, 0, 0, 0]], [none, some ⟨1⟩]⟩,
        [⟨2, 3, 3, 1, 1, 1⟩]⟩ ⟨2, 3, 3, 1, 1, 1⟩ ⟨3, 2, 1, 3, 1, 1⟩
      ⟨[none, some [0, 0, 0, 0, 0, 0]], [none, some ⟨2⟩]⟩ (List.mem_singleton.mpr rfl) rfl)

/-! ## Reference counting -/

theorem refCount_cons (V : MatrixObject) (live : List MatrixObject) (r : Nat) :
    refCount (V :: live) r = refCount live r + if V.data_refcnt = r then 1 else 0 := by
  simp [refCount, List.countP_cons]

theorem refCount_pos_of_mem {live : List MatrixObject} {M : MatrixObject} (hM : M ∈ live) :
    0 < refCount live M.data_refcnt := by
  unfold refCount
  rw [List.countP_pos_iff]
  exact ⟨M, hM, by simp⟩

theorem exists_of_refCount_pos {live : List MatrixObject} {r : Nat}
    (h : 0 < refCount live r) : ∃ V ∈ live, V.data_refcnt = r := by
  unfold refCount at h
  rw [List.countP_pos_iff] at h
  obtain ⟨V, hV, hp⟩ := h
  exact ⟨V, hV, by simpa using hp⟩

theorem refCount_eq_zero {live : List MatrixObject} {r : Nat}
    (h : ∀ V ∈ live, V.data_refcnt ≠ r) : refCount live r = 0 := by
  unfold refCount
  rw [List.countP_eq_zero]
  intro V hV
  simpa using h V hV

theorem refCount_erase {live : List MatrixObject} {M : MatrixObject} (hM : M ∈ live)
    (r : Nat) :
    refCount (live.erase M) r = refCount live r - if M.data_refcnt = r then 1 else 0 := by
  induction live with
  | nil => simp at hM
  | cons a l ih =>
    by_cases ha : a = M
    · subst ha
      rw [List.erase_cons_head, refCount_cons]
      omega
    · have hMl : M ∈ l := by
        rcases List.mem_cons.mp hM with h1 | h1
        · exact absurd h1.symm ha
        · exact h1
      have hpos := refCount_pos_of_mem hMl
      rw [List.erase_cons_tail (by simpa using ha), refCount_cons, refCount_cons, ih hMl]
      by_cases hr : M.data_refcnt = r
      · rw [hr] at hpos
        simp only [hr, if_true]
        omega
      · simp only [hr, if_false]
        omega

theorem GetRefCnt_of_cell {α : Type} {h : Heap α} {M : MatrixObject} {c : Int}
    (hc : h.refcnts[M.data_refcnt]? = some (some ⟨c⟩)) : GetRefCnt h M = some c := by
  simp [GetRefCnt, hc]

theorem GetRefCnt_lt {α : Type} {h : Heap α} {M : MatrixObject} {c : Int}
    (hc : GetRefCnt h M = some c) : M.data_refcnt < h.refcnts.length := by
  have hr := GetRefCnt_eq_some hc
  by_contra hn
  rw [List.getElem?_eq_none (by omega)] at hr
  simp at hr

theorem GetRefCnt_set {α : Type} (h : Heap α) (as : List (Option (List α))) (r : Nat)
    (c : Int) (hr : r < h.refcnts.length) (M : MatrixObject) :
    GetRefCnt ({ arrays := as, refcnts := h.refcnts.set r (some ⟨c⟩) } : Heap α) M
      = if M.data_refcnt = r then some c else GetRefCnt h M := by
  by_cases he : M.data_refcnt = r
  · simp [GetRefCnt, he, List.getElem?_set, hr]
  · simp [GetRefCnt, he, List.getElem?_set, Ne.symm he]

theorem array_lt {α : Type} {h : Heap α} {p : Nat} {arr : List α}
    (ha : h.arrays[p]? = some (some arr)) : p < h.arrays.length := by
  by_contra hn
  rw [List.getElem?_eq_none (by omega)] at ha
  simp at ha

theorem Matrix_dealloc_eq {α : Type} {h : Heap α} {M : MatrixObject} {c : Int}
    {arr : List α} (hc : GetRefCnt h M = some c)
    (ha : h.arrays[M.data]? = some (some arr)) :
    Matrix_dealloc h M = some
      ({ arrays := if c - 1 = 0 then h.arrays.set M.data none else h.arrays,
         refcnts := h.refcnts.set M.data_refcnt (some ⟨c - 1⟩) } : Heap α) := by
  have hr := GetRefCnt_eq_some hc
  by_cases h0 : c - 1 = 0
  · simp [Matrix_dealloc, DecrementRefCnt, hr, h0, Heap.free, ha]
  · simp [Matrix_dealloc, DecrementRefCnt, hr, h0]

theorem Heap.store_inv {α : Type} {h g : Heap α} {p idx : Nat} {v : α}
    (he : h.store p idx v = some g) :
    g.refcnts = h.refcnts ∧
    ∃ arr arr', h.arrays[p]? = some (some arr) ∧ g.arrays = h.arrays.set p (some arr') := by
  unfold Heap.store at he
  split at he
  · rename_i arr harr
    split at he
    · simp only [Option.some.injEq] at he
      subst he
      exact ⟨rfl, arr, arr.set idx v, harr, rfl⟩
    · simp at he
  · simp at he

theorem RefInv.bounds {α : Type} {h : Heap α} {live : List MatrixObject}
    (hinv : RefInv (⟨h, live⟩ : World α)) {M : MatrixObject} (hM : M ∈ live) :
    M.data < h.arrays.length ∧ M.data_refcnt < h.refcnts.length := by
  obtain ⟨hc, ⟨arr, ha⟩, -⟩ := hinv.1 M hM
  exact ⟨array_lt ha, GetRefCnt_lt hc⟩

theorem GetRefCnt_congr {α : Type} (h : Heap α) {M N : MatrixObject}
    (he : M.data_refcnt = N.data_refcnt) : GetRefCnt h M = GetRefCnt h N := by
  simp [GetRefCnt, he]

theorem RefInv.create {α : Type} [Zero α] {h : Heap α} {live : List MatrixObject}
    (hinv : RefInv (⟨h, live⟩ : World α)) (n m : Nat) :
    RefInv (⟨allocHeap h n m, freshHandle h n m :: live⟩ : World α) := by
  have hCr : (freshHandle h n m).data_refcnt = h.refcnts.length := rfl
  have hCd : (freshHandle h n m).data = h.arrays.length := rfl
  have hzero : refCount live h.refcnts.length = 0 :=
    refCount_eq_zero (fun V hV => Nat.ne_of_lt (hinv.bounds hV).2)
  refine ⟨fun M hM => ?_, fun p arr hp => ?_⟩
  · rcases List.mem_cons.mp hM with h1 | h1
    · subst h1
      refine ⟨?_, ⟨List.replicate ((n * m) % SIZE_MOD) 0, by simp [allocHeap, freshHandle]⟩,
        fun V hV => ?_⟩
      · show GetRefCnt (allocHeap h n m) (freshHandle h n m)
          = some (refCount (freshHandle h n m :: live) (freshHandle h n m).data_refcnt : Int)
        rw [refCount_cons, hCr, hzero]
        simp [GetRefCnt, allocHeap, freshHandle]
      · rcases List.mem_cons.mp hV with h2 | h2
        · rw [h2]
          exact ⟨fun _ => rfl, fun _ => rfl⟩
        · have hb := hinv.bounds h2
          constructor
          · intro he
            rw [hCd] at he
            omega
          · intro he
            rw [hCr] at he
            omega
    · have hb := hinv.bounds h1
      obtain ⟨hc, ⟨arr, ha⟩, hpair⟩ := hinv.1 M h1
      refine ⟨?_, ⟨arr, ?_⟩, fun V hV => ?_⟩
      · show GetRefCnt (allocHeap h n m) M
          = some (refCount (freshHandle h n m :: live) M.data_refcnt : Int)
        rw [refCount_cons, hCr, if_neg (by omega), Nat.add_zero, ← hc]
        simp [GetRefCnt, allocHeap, List.getElem?_append_left hb.2]
      · show (allocHeap h n m).arrays[M.data]? = _
        rw [← ha]
        exact List.getElem?_append_left hb.1
      · rcases List.mem_cons.mp hV with h2 | h2
        · rw [h2, hCd, hCr]
          constructor
          · intro he
            omega
          · intro he
            omega
        · exact hpair V h2
  · have hp' : (h.arrays ++ [some (List.replicate ((n * m) % SIZE_MOD) (0 : α))])[p]?
        = some (some arr) := hp
    by_cases hlt : p < h.arrays.length
    · rw [List.getElem?_append_left hlt] at hp'
      obtain ⟨M, hM, hd⟩ := hinv.2 p arr hp'
      exact ⟨M, List.mem_cons_of_mem _ hM, hd⟩
    · have hlen := array_lt hp
      have hlen' : p < h.arrays.length + 1 := by
        simpa [allocHeap] using hlen
      exact ⟨freshHandle h n m, List.mem_cons_self _ _, by rw [hCd]; omega⟩

theorem RefInv.view {α : Type} {h : Heap α} {live : List MatrixObject}
    (hinv : RefInv (⟨h, live⟩ : World α)) {M0 V : MatrixObject} (hM0 : M0 ∈ live)
    (hd : V.data = M0.data) (hr : V.data_refcnt = M0.data_refcnt) :
    RefInv (⟨⟨h.arrays, h.refcnts.set M0.data_refcnt
      (some ⟨(refCount live M0.data_refcnt : Int) + 1⟩)⟩, V :: live⟩ : World α) := by
  have hb0 := hinv.bounds hM0
  have rep : ∀ M ∈ V :: live, ∃ M' ∈ live, M'.data = M.data ∧
      M'.data_refcnt = M.data_refcnt := by
    intro M hM
    rcases List.mem_cons.mp hM with h1 | h1
    · exact ⟨M0, hM0, by rw [h1, hd], by rw [h1, hr]⟩
    · exact ⟨M, h1, rfl, rfl⟩
  refine ⟨fun M hM => ?_, fun p arr hp => ?_⟩
  · obtain ⟨M', hM', ed, er⟩ := rep M hM
    obtain ⟨hc, ⟨arr, ha⟩, hpair⟩ := hinv.1 M' hM'
    refine ⟨?_, ⟨arr, by rw [← ed]; exact ha⟩, fun X hX => ?_⟩
    · show GetRefCnt _ M = some (refCount (V :: live) M.data_refcnt : Int)
      rw [GetRefCnt_set h h.arrays _ _ hb0.2, refCount_cons, hr]
      by_cases he : M.data_refcnt = M0.data_refcnt
      · rw [if_pos he, if_pos he.symm, he]
        simp
      · rw [if_neg he, if_neg (Ne.symm he), Nat.add_zero, GetRefCnt_congr h er.symm, hc, er]
    · obtain ⟨X', hX', ed', er'⟩ := rep X hX
      rw [← ed', ← er', ← ed, ← er]
      exact hpair X' hX'
  · obtain ⟨M, hM, hd'⟩ := hinv.2 p arr hp
    exact ⟨M, List.mem_cons_of_mem _ hM, hd'⟩

theorem RefInv.write {α : Type} {h g : Heap α} {live : List MatrixObject}
    (hinv : RefInv (⟨h, live⟩ : World α)) {p idx : Nat} {v : α}
    (he : h.store p idx v = some g) : RefInv (⟨g, live⟩ : World α) := by
  obtain ⟨hrc, arr0, arr1, ha0, ha1⟩ := Heap.store_inv he
  have hp := array_lt ha0
  refine ⟨fun M hM => ?_, fun q arr hq => ?_⟩
  · obtain ⟨hc, ⟨arr, ha⟩, hpair⟩ := hinv.1 M hM
    refine ⟨?_, ?_, hpair⟩
    · show GetRefCnt g M = _
      rw [← hc]
      simp [GetRefCnt, hrc]
    · show ∃ arr, g.arrays[M.data]? = some (some arr)
      rw [ha1]
      by_cases hpe : p = M.data
      · exact ⟨arr1, by rw [← hpe, List.getElem?_set]; simp [hp]⟩
      · exact ⟨arr, by rw [List.getElem?_set_ne hpe]; exact ha⟩
  · have hq' : g.arrays[q]? = some (some arr) := hq
    rw [ha1] at hq'
    by_cases hpe : p = q
    · exact hinv.2 q arr0 (by rw [← hpe]; exact ha0)
    · rw [List.getElem?_set_ne hpe] at hq'
      exact hinv.2 q arr hq'

theorem RefInv.destroy {α : Type} {h : Heap α} {live : List MatrixObject}
    (hinv : RefInv (⟨h, live⟩ : World α)) {M0 : MatrixObject} (hM0 : M0 ∈ live) :
    RefInv (⟨⟨if (refCount live M0.data_refcnt : Int) - 1 = 0
        then h.arrays.set M0.data none else h.arrays,
      h.refcnts.set M0.data_refcnt (some ⟨(refCount live M0.data_refcnt : Int) - 1⟩)⟩,
      live.erase M0⟩ : World α) := by
  have hb0 := hinv.bounds hM0
  have hpos0 := refCount_pos_of_mem hM0
  have hcount : refCount (live.erase M0) M0.data_refcnt = refCount live M0.data_refcnt - 1 := by
    rw [refCount_erase hM0, if_pos rfl]
  refine ⟨fun M hM => ?_, fun p arr hp => ?_⟩
  · have hMl : M ∈ live := List.mem_of_mem_erase hM
    have hposM := refCount_pos_of_mem hM
    obtain ⟨hc, ⟨arr, ha⟩, hpair⟩ := hinv.1 M hMl
    refine ⟨?_, ⟨arr, ?_⟩, fun X hX => hpair X (List.mem_of_mem_erase hX)⟩
    · show GetRefCnt _ M = some (refCount (live.erase M0) M.data_refcnt : Int)
      rw [GetRefCnt_set h _ _ _ hb0.2, refCount_erase hM0]
      by_cases he : M.data_refcnt = M0.data_refcnt
      · rw [if_pos he, if_pos he.symm, he]
        congr 1
        omega
      · rw [if_neg he, if_neg (Ne.symm he), Nat.sub_zero]
        exact hc
    · show (if (refCount live M0.data_refcnt : Int) - 1 = 0
          then h.arrays.set M0.data none else h.arrays)[M.data]? = some (some arr)
      by_cases h0 : (refCount live M0.data_refcnt : Int) - 1 = 0
      · rw [if_pos h0]
        have hne : M.data_refcnt ≠ M0.data_refcnt := by
          intro he
          rw [he, hcount] at hposM
          omega
        have hned : M0.data ≠ M.data := fun hd =>
          hne ((hinv.1 M0 hM0).2.2 M hMl |>.mp hd.symm)
        rw [List.getElem?_set_ne hned]
        exact ha
      · rw [if_neg h0]
        exact ha
  · have hp' : (if (refCount live M0.data_refcnt : Int) - 1 = 0
        then h.arrays.set M0.data none else h.arrays)[p]? = some (some arr) := hp
    by_cases h0 : (refCount live M0.data_refcnt : Int) - 1 = 0
    · rw [if_pos h0] at hp'
      have hne : M0.data ≠ p := by
        intro he
        rw [he, List.getElem?_set] at hp'
        simp at hp'
      rw [List.getElem?_set_ne hne] at hp'
      obtain ⟨V, hV, hd⟩ := hinv.2 p arr hp'
      have hVne : V ≠ M0 := fun he => hne (by rw [← he, hd])
      exact ⟨V, (List.mem_erase_of_ne hVne).mpr hV, hd⟩
    · rw [if_neg h0] at hp'
      obtain ⟨V, hV, hd⟩ := hinv.2 p arr hp'
      by_cases hVe : V = M0
      · have hpos' : 0 < refCount (live.erase M0) M0.data_refcnt := by
          rw [hcount]
          omega
        obtain ⟨V', hV', hr'⟩ := exists_of_refCount_pos hpos'
        have hV'l := List.mem_of_mem_erase hV'
        exact ⟨V', hV', by rw [((hinv.1 M0 hM0).2.2 V' hV'l).mpr hr', ← hVe, hd]⟩
      · exact ⟨V, (List.mem_erase_of_ne hVe).mpr hV, hd⟩

theorem LifeStep.preserves {α : Type} [Zero α] {w w' : World α} (hs : LifeStep w w')
    (hinv : RefInv w) : RefInv w' := by
  cases hs with
  | create n m C g he =>
    rw [CreateMatrixFromSize_eq] at he
    simp only [Option.some.injEq, Prod.mk.injEq] at he
    obtain ⟨e1, e2⟩ := he
    subst e1
    subst e2
    exact RefInv.create hinv n m
  | copy_view M V g hM he =>
    have hc := (hinv.1 M hM).1
    rw [CreateViewToMatrix_eq w.heap M _ hc
      (by exact_mod_cast refCount_pos_of_mem hM)] at he
    simp only [Option.some.injEq, Prod.mk.injEq] at he
    obtain ⟨e1, e2⟩ := he
    subst e1
    subst e2
    exact RefInv.view hinv hM rfl rfl
  | transpose_view M T g hM he =>
    have hc := (hinv.1 M hM).1
    rw [CreateTransposeView_eq w.heap M _ hc
      (by exact_mod_cast refCount_pos_of_mem hM)] at he
    simp only [Option.some.injEq, Prod.mk.injEq] at he
    obtain ⟨e1, e2⟩ := he
    subst e1
    subst e2
    exact RefInv.view hinv hM rfl rfl
  | write p idx v g he => exact RefInv.write hinv he
  | destroy M g hM he =>
    obtain ⟨hc, ⟨arr, ha⟩, -⟩ := hinv.1 M hM
    rw [Matrix_dealloc_eq hc ha] at he
    simp only [Option.some.injEq] at he
    subst he
    exact RefInv.destroy hinv hM

theorem Alive.refInv {α : Type} [Zero α] {w : World α} (hw : Alive w) : RefInv w := by
  induction hw with
  | start =>
    refine ⟨fun M hM => ?_, fun p arr hp => ?_⟩
    · simp at hM
    · exfalso
      have hp' : ([none] : List (Option (List α)))[p]? = some (some arr) := hp
      cases p with
      | zero => simp at hp'
      | succ k => simp at hp'
  | step w w' _ hs ih => exact hs.preserves ih

theorem RefInv.countingCalls {α : Type} {w : World α} (hinv : RefInv w) {M : MatrixObject}
    (hM : M ∈ w.handles) :
    CountingCalls w.heap M (refCount w.handles M.data_refcnt : Int) := by
  obtain ⟨hc, ⟨arr, ha⟩, -⟩ := hinv.1 M hM
  have hpos : (0 : Int) < (refCount w.handles M.data_refcnt : Int) := by
    exact_mod_cast refCount_pos_of_mem hM
  have hlt := GetRefCnt_lt hc
  refine ⟨⟨_, _, CreateViewToMatrix_eq w.heap M _ hc hpos, rfl, rfl, ?_, rfl⟩,
    ⟨_, _, CreateTransposeView_eq w.heap M _ hc hpos, rfl, rfl, ?_, rfl⟩,
    ⟨_, Matrix_dealloc_eq hc ha, ?_, fun h0 => ?_, fun h0 => ?_⟩⟩
  · rw [GetRefCnt_set w.heap _ _ _ hlt, if_pos rfl]
  · rw [GetRefCnt_set w.heap _ _ _ hlt, if_pos rfl]
  · rw [GetRefCnt_set w.heap _ _ _ hlt, if_pos rfl]
  · show (if _ then _ else _) = _
    rw [if_pos h0]
  · show (if _ then _ else _) = _
    rw [if_neg h0]

theorem scenarioWorld_alive : Alive scenarioWorld :=
  Alive.step _ _
    (Alive.step _ _ Alive.start
      (LifeStep.create ⟨emptyHeap Int, []⟩ 2 3 ⟨2, 3, 3, 1, 1, 1⟩
        ⟨[none, some [0, 0, 0, 0, 0, 0]], [none, some ⟨1⟩]⟩ rfl))
    (LifeStep.transpose_view ⟨⟨[none, some [0, 0, 0, 0, 0, 0]], [none, some ⟨1⟩]⟩,
        [⟨2, 3, 3, 1, 1, 1⟩]⟩ ⟨2, 3, 3, 1, 1, 1⟩ ⟨3, 2, 1, 3, 1, 1⟩
      ⟨[none, some [0, 0, 0, 0, 0, 0]], [none, some ⟨2⟩]⟩ (List.mem_singleton.mpr rfl) rfl)

/-! ## Claims -/

/-- C1: for every pair of valid matrices `A`, `B` (each row-major or a transposed view) with
`A.ncols = B.nrows`, `MatMulImpl` succeeds and returns a fresh row-major matrix `C` with
`C.nrows = A.nrows`, `C.ncols = B.ncols` and, for all `i < A.nrows`, `j < B.ncols`,
`C[i][j]` equal to the sum accumulated from `0` in ascending `k = 0 .. A.ncols - 1` of
`A[i][k] * B[k][j]`, each matrix read through its own strides. -/
theorem MatMulImpl_correct {α : Type} [Zero α] [Add α] [Mul α] (h : Heap α)
    (A B : MatrixObject) (hA : Valid h A) (hB : Valid h B) (hK : A.ncols = B.nrows) :
    ∃ C g, MatMulImpl h A B = PyResult.ok (C, g) ∧ C.nrows = A.nrows ∧ C.ncols = B.ncols ∧
      C.rows_stride = C.ncols ∧ C.cols_stride = 1 ∧ Fresh h C g ∧
      ∀ i j, i < A.nrows → j < B.ncols →
        readAt g C i j = some (sumFrom0 A.ncols (fun k => entry h A i k * entry h B k j)) := by
  obtain ⟨C, g, he, hn, hm, hrs, hcs, hf, -, hC⟩ := MatMulImplCPU_spec h A B hA hB hK
  refine ⟨C, g, ?_, hn, hm, by rw [hrs, hm], hcs, hf, hC⟩
  rw [MatMulImpl, if_neg (not_not.mpr hK), he]
  rfl

/-- C1, concrete scenario: `A = [[1,2],[3,4]]`, `B = [[5,6],[7,8]]` give
`matmul(A, B) = [[19,22],[43,50]]`. -/
theorem MatMulImpl_correct_witness :
    Valid scenarioHeap scenarioA ∧ Valid scenarioHeap scenarioB ∧
    scenarioA.ncols = scenarioB.nrows ∧
    ∃ C g, MatMulImpl scenarioHeap scenarioA scenarioB = PyResult.ok (C, g) ∧
      C.nrows = 2 ∧ C.ncols = 2 ∧ C.rows_stride = 2 ∧ C.cols_stride = 1 ∧
      readAt g C 0 0 = some 19 ∧ readAt g C 0 1 = some 22 ∧
      readAt g C 1 0 = some 43 ∧ readAt g C 1 1 = some 50 := by
  obtain ⟨C, g, he, hn, hm, hrs, hcs, -, hC⟩ :=
    MatMulImpl_correct scenarioHeap scenarioA scenarioB (by decide) (by decide) rfl
  exact ⟨by decide, by decide, rfl, C, g, he, hn, hm, by rw [hrs, hm]; rfl, hcs,
    hC 0 0 (by decide) (by decide), hC 0 1 (by decide) (by decide),
    hC 1 0 (by decide) (by decide), hC 1 1 (by decide) (by decide)⟩

/-- C9: for every valid matrix `M`, `CreateTransposeView` returns a handle `T` on the array
and counter of `M` with `T.nrows = M.ncols`, `T.ncols = M.nrows`, the two strides swapped and
`T[i][j] = M[j][i]` for all `i < M.ncols`, `j < M.nrows`; the arrays of the heap, hence the
stored data of `M`, are unchanged (the handle `M` is a value the function does not write). -/
theorem CreateTransposeView_spec {α : Type} [Zero α] (h : Heap α) (M : MatrixObject)
    (hv : Valid h M) :
    ∃ T h', CreateTransposeView h M = some (T, h') ∧
      T.data = M.data ∧ T.data_refcnt = M.data_refcnt ∧
      T.nrows = M.ncols ∧ T.ncols = M.nrows ∧
      T.rows_stride = M.cols_stride ∧ T.cols_stride = M.rows_stride ∧
      h'.arrays = h.arrays ∧
      (∀ i j, i < M.ncols → j < M.nrows → readAt h' T i j = some (entry h M j i)) ∧
      (∀ i j, i < M.nrows → j < M.ncols → readAt h' M i j = some (entry h M i j)) := by
  obtain ⟨c, hc, hpos⟩ := hv.refcnt_pos
  refine ⟨_, _, CreateTransposeView_eq h M c hc hpos, rfl, rfl, rfl, rfl, rfl, rfl, rfl, ?_, ?_⟩
  · intro i j hi hj
    rw [← hv.readAt_eq hj hi]
    simp only [readAt, index_transpose]
    exact Heap.load_congr rfl _ _
  · intro i j hi hj
    rw [← hv.readAt_eq hi hj]
    exact Heap.load_congr rfl _ _

/-- C9, concrete scenario: `transpose([[1,2],[3,4]]) = [[1,3],[2,4]]`. -/
theorem CreateTransposeView_spec_witness :
    Valid scenarioHeap scenarioA ∧
    ∃ T h', CreateTransposeView scenarioHeap scenarioA = some (T, h') ∧
      T.data = scenarioA.data ∧ T.nrows = 2 ∧ T.ncols = 2 ∧
      T.rows_stride = 1 ∧ T.cols_stride = 2 ∧
      readAt h' T 0 0 = some 1 ∧ readAt h' T 0 1 = some 3 ∧
      readAt h' T 1 0 = some 2 ∧ readAt h' T 1 1 = some 4 := by
  refine ⟨by decide, ?_⟩
  obtain ⟨T, h', he, hd, -, hn, hm, hrs, hcs, -, hT, -⟩ :=
    CreateTransposeView_spec scenarioHeap scenarioA (by decide)
  exact ⟨T, h', he, hd, hn, hm, hrs, hcs,
    hT 0 0 (by decide) (by decide), hT 0 1 (by decide) (by decide),
    hT 1 0 (by decide) (by decide), hT 1 1 (by decide) (by decide)⟩

/-- C10: for every valid matrix `M`, transposing the transposed view of `M` gives a handle
with the shape, strides, array and counter of `M`, whose element `(i, j)` is `M[i][j]` for
all `i < M.nrows`, `j < M.ncols`. -/
theorem double_transpose_identity {α : Type} [Zero α] (h : Heap α) (M : MatrixObject)
    (hv : Valid h M) :
    ∃ T h1 TT h2, CreateTransposeView h M = some (T, h1) ∧
      CreateTransposeView h1 T = some (TT, h2) ∧
      TT.nrows = M.nrows ∧ TT.ncols = M.ncols ∧
      TT.rows_stride = M.rows_stride ∧ TT.cols_stride = M.cols_stride ∧
      TT.data = M.data ∧ TT.data_refcnt = M.data_refcnt ∧
      h2.arrays = h.arrays ∧
      ∀ i j, i < M.nrows → j < M.ncols → readAt h2 TT i j = some (entry h M i j) := by
  obtain ⟨c, hc, hpos⟩ := hv.refcnt_pos
  have hr := GetRefCnt_eq_some hc
  have hlt : M.data_refcnt < h.refcnts.length := by
    by_contra hn
    rw [List.getElem?_eq_none (by omega)] at hr
    simp at hr
  have hc1 : GetRefCnt
      ({ h with refcnts := h.refcnts.set M.data_refcnt (some ⟨c + 1⟩) } : Heap α)
      ({ M with nrows := M.ncols, ncols := M.nrows,
                rows_stride := M.cols_stride, cols_stride := M.rows_stride } : MatrixObject)
      = some (c + 1) := by
    simp [GetRefCnt, List.getElem?_set, hlt]
  refine ⟨_, _, _, _, CreateTransposeView_eq h M c hc hpos,
    CreateTransposeView_eq _ _ (c + 1) hc1 (by omega), rfl, rfl, rfl, rfl, rfl, rfl, rfl, ?_⟩
  intro i j hi hj
  rw [← hv.readAt_eq hi hj]
  exact Heap.load_congr rfl _ _

/-- C10 at the matrix `[[1,2],[3,4]]`. -/
theorem double_transpose_identity_witness :
    Valid scenarioHeap scenarioA ∧
    ∃ T h1 TT h2, CreateTransposeView scenarioHeap scenarioA = some (T, h1) ∧
      CreateTransposeView h1 T = some (TT, h2) ∧
      TT.nrows = 2 ∧ TT.ncols = 2 ∧ TT.data = scenarioA.data ∧
      readAt h2 TT 0 0 = some 1 ∧ readAt h2 TT 0 1 = some 2 ∧
      readAt h2 TT 1 0 = some 3 ∧ readAt h2 TT 1 1 = some 4 := by
  refine ⟨by decide, ?_⟩
  obtain ⟨T, h1, TT, h2, he1, he2, hn, hm, -, -, hd, -, -, hT⟩ :=
    double_transpose_identity scenarioHeap scenarioA (by decide)
  exact ⟨T, h1, TT, h2, he1, he2, hn, hm, hd,
    hT 0 0 (by decide) (by decide), hT 0 1 (by decide) (by decide),
    hT 1 0 (by decide) (by decide), hT 1 1 (by decide) (by decide)⟩

/-- C2: for all matrices `A`, `B` (with `size_t` fields), `MatMulImpl` raises its shape error
(a `RuntimeError`) if and only if `A.ncols ≠ B.nrows`; it then returns no matrix, and the
message is `Wrong shapes while matmul: (A.nrows, A.ncols) @ (B.nrows, B.ncols)`. -/
theorem MatMulImpl_shape_error {α : Type} [Zero α] [Add α] [Mul α] (h : Heap α)
    (A B : MatrixObject) (hA : SizeT A) (hB : SizeT B) :
    ((∃ exc msg, MatMulImpl h A B = PyResult.raised exc msg) ↔ A.ncols ≠ B.nrows) ∧
    (A.ncols ≠ B.nrows →
      MatMulImpl h A B = PyResult.raised PyExc.RuntimeError
        ("Wrong shapes while matmul: " ++ fmtShape A.nrows A.ncols ++ " @ "
          ++ fmtShape B.nrows B.ncols) ∧
      ∀ r, MatMulImpl h A B ≠ PyResult.ok r) := by
  have hlen := matmulText_length hA hB
  by_cases hm : A.ncols ≠ B.nrows
  · have he : MatMulImpl h A B = PyResult.raised PyExc.RuntimeError
        ("Wrong shapes while matmul: " ++ fmtShape A.nrows A.ncols ++ " @ "
          ++ fmtShape B.nrows B.ncols) := by
      rw [MatMulImpl, if_pos hm, snprintf_eq 256 _ hlen]
    refine ⟨⟨fun _ => hm, fun _ => ⟨_, _, he⟩⟩, fun _ => ⟨he, fun r hr => ?_⟩⟩
    rw [he] at hr
    exact PyResult.noConfusion hr
  · have he : MatMulImpl h A B = PyResult.ofOption (MatMulImplCPU h A B) := by
      rw [MatMulImpl, if_neg hm]
    refine ⟨⟨fun hex => ?_, fun hmm => absurd hmm hm⟩, fun hmm => absurd hmm hm⟩
    obtain ⟨exc, msg, hmsg⟩ := hex
    rw [he] at hmsg
    exact absurd hmsg (PyResult.ofOption_ne_raised _ _ _)

/-- C2 at a `1 × 4` and a `2 × 2` matrix: the message is
`Wrong shapes while matmul: (1, 4) @ (2, 2)`. -/
theorem MatMulImpl_shape_error_witness :
    SizeT (handleOf 1 1 4) ∧ SizeT scenarioB ∧
    (handleOf 1 1 4).ncols ≠ scenarioB.nrows ∧
    MatMulImpl scenarioHeap (handleOf 1 1 4) scenarioB
      = PyResult.raised PyExc.RuntimeError "Wrong shapes while matmul: (1, 4) @ (2, 2)" :=
  ⟨by decide, by decide, by decide,
    ((MatMulImpl_shape_error scenarioHeap (handleOf 1 1 4) scenarioB
      (by decide) (by decide)).2 (by decide)).1⟩

/-- C4: for every pair of matrices `left`, `right` (with `size_t` fields), each of
`Matrix_add`, `Matrix_subtract`, `Matrix_multiply`, `Matrix_divide` raises its shape error
(a `ValueError`) if and only if `left.nrows ≠ right.nrows` or `left.ncols ≠ right.ncols`;
the result is then the error alone, with the message
`Shapes of @left and @right should be the same, got: (r, c) and (r, c)` naming both
shapes; on equal shapes no exception is raised. -/
theorem elementwise_shape_error {α : Type} [Zero α] [Add α] [Sub α] [Mul α] [Div α]
    (h : Heap α) (left right : MatrixObject) (hl : SizeT left) (hr : SizeT right) :
    ShapeErrorIff (Matrix_add h (PyObject.matrix left) (PyObject.matrix right)) left right ∧
    ShapeErrorIff (Matrix_subtract h (PyObject.matrix left) (PyObject.matrix right))
      left right ∧
    ShapeErrorIff (Matrix_multiply h (PyObject.matrix left) (PyObject.matrix right))
      left right ∧
    ShapeErrorIff (Matrix_divide h (PyObject.matrix left) (PyObject.matrix right))
      left right :=
  ⟨check_shapeErrorIff left right hl hr _, check_shapeErrorIff left right hl hr _,
    check_shapeErrorIff left right hl hr _, check_shapeErrorIff left right hl hr _⟩

/-- C4 at a `1 × 4` and a `2 × 2` matrix: `Matrix_add` raises
`Shapes of @left and @right should be the same, got: (1, 4) and (2, 2)`. -/
theorem elementwise_shape_error_witness :
    SizeT (handleOf 1 1 4) ∧ SizeT scenarioB ∧
    Matrix_add scenarioHeap (PyObject.matrix (handleOf 1 1 4)) (PyObject.matrix scenarioB)
      = PyResult.raised PyExc.ValueError
          "Shapes of @left and @right should be the same, got: (1, 4) and (2, 2)" :=
  ⟨by decide, by decide,
    (elementwise_shape_error scenarioHeap (handleOf 1 1 4) scenarioB
      (by decide) (by decide)).1.2.1 (by decide)⟩

/-- C3: for each of `MatrixAdd`, `MatrixSubtract`, `MatrixMultiply`, `MatrixDivide` and every
pair of valid matrices `left`, `right` of identical shape (row-major or transposed views), the
result is a fresh matrix of the same shape in row-major layout (`rows_stride = ncols`,
`cols_stride = 1`) with `result[i][j] = op left[i][j] right[i][j]` for all valid `i`, `j`,
each operand read through its own strides. -/
theorem elementwise_correct {α : Type} [Zero α] [Add α] [Sub α] [Mul α] [Div α]
    (h : Heap α) (left right : MatrixObject) (hl : Valid h left) (hr : Valid h right)
    (hn : left.nrows = right.nrows) (hm : left.ncols = right.ncols) :
    IsElementwiseResult (fun x y => x + y) h left right (MatrixAdd h left right) ∧
    IsElementwiseResult (fun x y => x - y) h left right (MatrixSubtract h left right) ∧
    IsElementwiseResult (fun x y => x * y) h left right (MatrixMultiply h left right) ∧
    IsElementwiseResult (fun x y => x / y) h left right (MatrixDivide h left right) :=
  ⟨MatrixElementwise_spec _ h left right hl hr hn hm,
    MatrixElementwise_spec _ h left right hl hr hn hm,
    MatrixElementwise_spec _ h left right hl hr hn hm,
    MatrixElementwise_spec _ h left right hl hr hn hm⟩

/-- C3, concrete scenario: `A + B = [[6,8],[10,12]]` and `A - B = [[-4,-4],[-4,-4]]` for
`A = [[1,2],[3,4]]`, `B = [[5,6],[7,8]]`. -/
theorem elementwise_correct_witness :
    Valid scenarioHeap scenarioA ∧ Valid scenarioHeap scenarioB ∧
    (∃ C g, MatrixAdd scenarioHeap scenarioA scenarioB = some (C, g) ∧
      C.nrows = 2 ∧ C.ncols = 2 ∧ C.rows_stride = 2 ∧ C.cols_stride = 1 ∧
      readAt g C 0 0 = some 6 ∧ readAt g C 0 1 = some 8 ∧
      readAt g C 1 0 = some 10 ∧ readAt g C 1 1 = some 12) ∧
    (∃ C g, MatrixSubtract scenarioHeap scenarioA scenarioB = some (C, g) ∧
      readAt g C 0 0 = some (-4) ∧ readAt g C 0 1 = some (-4) ∧
      readAt g C 1 0 = some (-4) ∧ readAt g C 1 1 = some (-4)) := by
  obtain ⟨⟨C, g, he, hn, hm, hrs, hcs, -, hC⟩, ⟨D, k, he', -, -, -, -, -, hD⟩, -, -⟩ :=
    elementwise_correct scenarioHeap scenarioA scenarioB (by decide) (by decide) rfl rfl
  exact ⟨by decide, by decide,
    ⟨C, g, he, hn, hm, hrs, hcs,
      hC 0 0 (by decide) (by decide), hC 0 1 (by decide) (by decide),
      hC 1 0 (by decide) (by decide), hC 1 1 (by decide) (by decide)⟩,
    ⟨D, k, he',
      hD 0 0 (by decide) (by decide), hD 0 1 (by decide) (by decide),
      hD 1 0 (by decide) (by decide), hD 1 1 (by decide) (by decide)⟩⟩

/-- C5 (the code at the failing input): on the transposed view `T = [[1,3],[2,4]]` of
`[[1,2],[3,4]]`, `MatrixNegative` returns a row-major matrix `R` whose raw slots are the
negated raw slots of the shared array, so `R[0][1] = -2` although `T[0][1] = 3`. -/
theorem MatrixNegative_transposed_view :
    Valid scenarioHeap scenarioAT ∧ readAt scenarioHeap scenarioAT 0 1 = some 3 ∧
    ∃ R g, MatrixNegative scenarioHeap scenarioAT = some (R, g) ∧
      R.nrows = 2 ∧ R.ncols = 2 ∧ R.rows_stride = 2 ∧ R.cols_stride = 1 ∧
      readAt g R 0 1 = some (-2) ∧ readAt g R 1 0 = some (-3) :=
  ⟨by decide, by decide, _, _, rfl, rfl, rfl, rfl, rfl, by decide, by decide⟩

/-- C6 as stated fails: the copy of the transposed view of `[[1,2],[3,4]]` has
`rows_stride = 1` and `cols_stride = 2`, not `rows_stride = ncols = 2` and `cols_stride = 1`. -/
theorem MatrixCopy_row_major_counterexample :
    Valid scenarioHeap scenarioAT ∧
    ∃ C g, MatrixCopy scenarioHeap scenarioAT = some (C, g) ∧
      C.rows_stride = 1 ∧ C.cols_stride = 2 ∧
      ¬ (C.rows_stride = scenarioAT.ncols ∧ C.cols_stride = 1) :=
  ⟨by decide, _, _, rfl, rfl, rfl, by decide⟩

/-- C6, amended: for every valid matrix `M`, including a transposed view, `MatrixCopy` (also
used for unary plus, `Matrix_positive`) returns a matrix with the strides of `M`:
`rows_stride = M.rows_stride` and `cols_stride = M.cols_stride`.  The copy of a row-major
matrix is row-major; the copy of a transposed view keeps `rows_stride = 1`,
`cols_stride = nrows`. -/
theorem MatrixCopy_strides {α : Type} [Zero α] (h : Heap α) (M : MatrixObject)
    (hv : Valid h M) :
    ∃ C g, MatrixCopy h M = some (C, g) ∧ Matrix_positive h M = some (C, g) ∧
      C.rows_stride = M.rows_stride ∧ C.cols_stride = M.cols_stride ∧
      (RowMajor M → C.rows_stride = C.ncols ∧ C.cols_stride = 1) ∧
      (Transposed M → C.rows_stride = 1 ∧ C.cols_stride = C.nrows) := by
  obtain ⟨C, g, he, hn, hm, hrs, hcs, -, -, -⟩ := MatrixCopy_spec h M hv
  refine ⟨C, g, he, he, hrs, hcs, fun hr => ?_, fun ht => ?_⟩
  · rw [hrs, hcs, hm]
    exact hr
  · rw [hrs, hcs, hn]
    exact ht

/-- C6, amended, at the transposed view of `[[1,2],[3,4]]`. -/
theorem MatrixCopy_strides_witness :
    Valid scenarioHeap scenarioAT ∧
    ∃ C g, MatrixCopy scenarioHeap scenarioAT = some (C, g) ∧
      C.rows_stride = 1 ∧ C.cols_stride = 2 := by
  obtain ⟨C, g, he, -, hrs, hcs, -, -⟩ := MatrixCopy_strides scenarioHeap scenarioAT (by decide)
  exact ⟨by decide, C, g, he, hrs, hcs⟩

/-- C7: for every valid matrix `M` (row-major or transposed view), `MatrixCopy` returns a
fresh matrix `C` with `C.nrows = M.nrows`, `C.ncols = M.ncols` and `C[i][j] = M[i][j]` for all
valid `i`, `j`, each read through its own strides. -/
theorem MatrixCopy_contents {α : Type} [Zero α] (h : Heap α) (M : MatrixObject)
    (hv : Valid h M) :
    ∃ C g, MatrixCopy h M = some (C, g) ∧ C.nrows = M.nrows ∧ C.ncols = M.ncols ∧
      Fresh h C g ∧
      ∀ i j, i < M.nrows → j < M.ncols →
        readAt g C i j = some (entry h M i j) ∧ readAt h M i j = some (entry h M i j) := by
  obtain ⟨C, g, he, hn, hm, -, -, hf, -, hC⟩ := MatrixCopy_spec h M hv
  exact ⟨C, g, he, hn, hm, hf, fun i j hi hj => ⟨hC i j hi hj, hv.readAt_eq hi hj⟩⟩

/-- C7 at the transposed view `[[1,3],[2,4]]` of `[[1,2],[3,4]]`. -/
theorem MatrixCopy_contents_witness :
    Valid scenarioHeap scenarioAT ∧
    ∃ C g, MatrixCopy scenarioHeap scenarioAT = some (C, g) ∧ C.nrows = 2 ∧ C.ncols = 2 ∧
      readAt g C 0 0 = some 1 ∧ readAt g C 0 1 = some 3 ∧
      readAt g C 1 0 = some 2 ∧ readAt g C 1 1 = some 4 := by
  obtain ⟨C, g, he, hn, hm, -, hC⟩ := MatrixCopy_contents scenarioHeap scenarioAT (by decide)
  exact ⟨by decide, C, g, he, hn, hm,
    (hC 0 0 (by decide) (by decide)).1, (hC 0 1 (by decide) (by decide)).1,
    (hC 1 0 (by decide) (by decide)).1, (hC 1 1 (by decide) (by decide)).1⟩

/-- C8: for every valid matrix `M` and every value `v`, the copy `C = MatrixCopy(M)` has an
array distinct from the array of `M`, and after `Matrix_set(C, i, j, v)` at any valid
`(i, j)`, or after `Matrix_fill(C, v)`, every element of `M` and of every other view `V` on
the array of `M` reads as before the copy was made. -/
theorem deep_copy_isolation {α : Type} [Zero α] (h : Heap α) (M : MatrixObject)
    (hv : Valid h M) (v : α) :
    ∃ C g, MatrixCopy h M = some (C, g) ∧ C.data ≠ M.data ∧
      C.nrows = M.nrows ∧ C.ncols = M.ncols ∧
      (∀ i j : Int, 0 ≤ i → i < C.nrows → 0 ≤ j → j < C.ncols →
        ∃ g2, Matrix_set g C i j v = some g2 ∧ Matrix_get g2 C i j = some v ∧
          ∀ V : MatrixObject, V.data = M.data →
            ∀ i' j', readAt g2 V i' j' = readAt h V i' j') ∧
      (∃ g3, Matrix_fill g C v = some g3 ∧
          ∀ V : MatrixObject, V.data = M.data →
            ∀ i' j', readAt g3 V i' j' = readAt h V i' j') := by
  obtain ⟨C, g, he, hn, hm, -, -, hf, hC, -⟩ := MatrixCopy_spec h M hv
  have hMlt := Heap.bufLen_lt hv.2.1
  have hle : h.arrays.length ≤ C.data := Nat.le_of_eq hf.1.symm
  refine ⟨C, g, he, hf.data_ne hv, hn, hm, ?_, ?_⟩
  · intro i j hi0 hi hj0 hj
    obtain ⟨ei, hi'⟩ := toSizeT_of_nonneg hi0 hi hC.1.1.2
    obtain ⟨ej, hj'⟩ := toSizeT_of_nonneg hj0 hj hC.1.2.1.2
    obtain ⟨g2, hst, hs, hnew, -⟩ := Heap.store_spec g C.data
      (DataIndexFromCoords C i.toNat j.toNat) (C.nrows * C.ncols) v hC.2.1
      (hC.1.index_lt hi' hj')
    refine ⟨g2, ?_, ?_, fun V hV i' j' => ?_⟩
    · rw [Matrix_set, ei, ej]
      exact hst
    · rw [Matrix_get, ei, ej]
      exact hnew
    · rw [readAt, readAt, hV]
      exact (hf.2.2.1.sameExcept hle hs).load_eq hMlt _
  · obtain ⟨g3, hfill, hs, -⟩ := fillLoop_spec g C.data (DataSize C) (C.nrows * C.ncols) v
      hC.2.1 (Nat.le_of_eq hC.1.dataSize)
    refine ⟨g3, hfill, fun V hV i' j' => ?_⟩
    rw [readAt, readAt, hV]
    exact (hf.2.2.1.sameExcept hle hs).load_eq hMlt _

/-- C8 at the transposed view of `[[1,2],[3,4]]`: after the copy is overwritten at `(0, 1)`
with `9`, the view still reads `3` there. -/
theorem deep_copy_isolation_witness :
    Valid scenarioHeap scenarioAT ∧
    ∃ C g g2, MatrixCopy scenarioHeap scenarioAT = some (C, g) ∧ C.data ≠ scenarioAT.data ∧
      Matrix_set g C 0 1 9 = some g2 ∧ Matrix_get g2 C 0 1 = some 9 ∧
      readAt g2 scenarioAT 0 1 = some 3 ∧ readAt g2 scenarioA 0 1 = some 2 := by
  obtain ⟨C, g, he, hne, hn, hm, hset, -⟩ :=
    deep_copy_isolation scenarioHeap scenarioAT (by decide) 9
  obtain ⟨g2, hs, hg, hV⟩ := hset 0 1 (by decide) (by rw [hn]; decide) (by decide)
    (by rw [hm]; decide)
  exact ⟨by decide, C, g, g2, he, hne, hs, hg,
    (hV scenarioAT rfl 0 1).trans (by decide), (hV scenarioA rfl 0 1).trans (by decide)⟩

/-- C20: for every valid matrix `M` (row-major or transposed view), all valid coordinates
`(i, j)`, `(i', j')` and every value `v`: `Matrix_set(M, i, j, v)` succeeds, afterwards
`Matrix_get(M, i, j)` is `v`, and `Matrix_get(M, i', j')` is the element read before the set
when `(i', j') ≠ (i, j)`; the stride map `(a, b) ↦ rows_stride * a + cols_stride * b` is
injective on `[0, nrows) × [0, ncols)`. -/
theorem get_set_law {α : Type} (h : Heap α) (M : MatrixObject) (hv : Valid h M)
    (i j : Int) (hi0 : 0 ≤ i) (hi : i < (M.nrows : Int)) (hj0 : 0 ≤ j)
    (hj : j < (M.ncols : Int)) (v : α) :
    ∃ g, Matrix_set h M i j v = some g ∧ Matrix_get g M i j = some v ∧
      (∀ i' j' : Int, 0 ≤ i' → i' < (M.nrows : Int) → 0 ≤ j' → j' < (M.ncols : Int) →
        (i', j') ≠ (i, j) →
          Matrix_get g M i' j' = Matrix_get h M i' j' ∧ ∃ x, Matrix_get h M i' j' = some x) ∧
      (∀ a b a' b' : Nat, a < M.nrows → b < M.ncols → a' < M.nrows → b' < M.ncols →
        M.rows_stride * a + M.cols_stride * b = M.rows_stride * a' + M.cols_stride * b' →
          a = a' ∧ b = b') := by
  obtain ⟨eg, hi', hj'⟩ := Matrix_get_eq h hv.1 hi0 hi hj0 hj
  obtain ⟨g, hset, -, hnew, hold⟩ :=
    set_through_alias hv hv rfl hi0 hi hj0 hj hi' hj' rfl v
  refine ⟨g, hset, ?_, fun i' j' hi0' hi1' hj0' hj1' hne => ?_, ?_⟩
  · rw [(Matrix_get_eq g hv.1 hi0 hi hj0 hj).1]
    exact hnew
  · obtain ⟨e1, ha, hb⟩ := Matrix_get_eq h hv.1 hi0' hi1' hj0' hj1'
    rw [(Matrix_get_eq g hv.1 hi0' hi1' hj0' hj1').1, e1]
    exact ⟨hold _ _ ha hb (int_pair_ne hi0 hj0 hi0' hj0' hne),
      Heap.load_of_bufLen hv.2.1 (hv.1.index_lt ha hb)⟩
  · intro a b a' b' ha hb ha' hb' he
    apply hv.1.index_inj ha hb ha' hb'
    rw [(hv.1.index_eq ha hb).1, (hv.1.index_eq ha' hb').1]
    exact he

/-- C20 at the transposed view `[[1,3],[2,4]]` of `[[1,2],[3,4]]`: after `set(0, 1, 9)` the
view reads `9` at `(0, 1)` and still `2` at `(1, 0)`. -/
theorem get_set_law_witness :
    Valid scenarioHeap scenarioAT ∧
    ∃ g, Matrix_set scenarioHeap scenarioAT 0 1 9 = some g ∧
      Matrix_get g scenarioAT 0 1 = some 9 ∧ Matrix_get g scenarioAT 1 0 = some 2 := by
  obtain ⟨g, hset, hget, hother, -⟩ := get_set_law scenarioHeap scenarioAT (by decide) 0 1
    (by decide) (by decide) (by decide) (by decide) 9
  exact ⟨by decide, g, hset, hget,
    (hother 1 0 (by decide) (by decide) (by decide) (by decide) (by decide)).1.trans
      (by decide)⟩

/-- C16: for every valid matrix `M` and value `v`: (1) `CreateViewToMatrix` returns a view
`V` such that after `Matrix_set(V, i, j, v)`, `Matrix_get(M, i, j)` is `v`; (2)
`CreateTransposeView` returns a view `T` such that after `Matrix_set(T, i, j, v)`,
`Matrix_get(M, j, i)` is `v`, and after `Matrix_set(M, i, j, v)`, `Matrix_get(T, j, i)` is
`v`; in each case every other element of `M` reads as before. -/
theorem view_aliasing {α : Type} (h : Heap α) (M : MatrixObject) (hv : Valid h M) (v : α) :
    (∃ V h1, CreateViewToMatrix h M = some (V, h1) ∧
      ∀ i j : Int, 0 ≤ i → i < (M.nrows : Int) → 0 ≤ j → j < (M.ncols : Int) →
        ∃ h2, Matrix_set h1 V i j v = some h2 ∧ Matrix_get h2 M i j = some v ∧
          ∀ i' j' : Int, 0 ≤ i' → i' < (M.nrows : Int) → 0 ≤ j' → j' < (M.ncols : Int) →
            (i', j') ≠ (i, j) → Matrix_get h2 M i' j' = Matrix_get h M i' j') ∧
    (∃ T h1, CreateTransposeView h M = some (T, h1) ∧
      (∀ i j : Int, 0 ≤ i → i < (T.nrows : Int) → 0 ≤ j → j < (T.ncols : Int) →
        ∃ h2, Matrix_set h1 T i j v = some h2 ∧ Matrix_get h2 M j i = some v ∧
          ∀ i' j' : Int, 0 ≤ i' → i' < (M.nrows : Int) → 0 ≤ j' → j' < (M.ncols : Int) →
            (i', j') ≠ (j, i) → Matrix_get h2 M i' j' = Matrix_get h M i' j') ∧
      (∀ i j : Int, 0 ≤ i → i < (M.nrows : Int) → 0 ≤ j → j < (M.ncols : Int) →
        ∃ h2, Matrix_set h1 M i j v = some h2 ∧ Matrix_get h2 T j i = some v ∧
          ∀ i' j' : Int, 0 ≤ i' → i' < (M.nrows : Int) → 0 ≤ j' → j' < (M.ncols : Int) →
            (i', j') ≠ (i, j) → Matrix_get h2 M i' j' = Matrix_get h M i' j')) := by
  obtain ⟨c, hc, hpos⟩ := hv.refcnt_pos
  have hM1 := Valid.retain hc hpos hv
  have hT1 : Valid ({ h with refcnts := h.refcnts.set M.data_refcnt (some ⟨c + 1⟩) } : Heap α)
      ({ M with nrows := M.ncols, ncols := M.nrows,
                rows_stride := M.cols_stride, cols_stride := M.rows_stride } : MatrixObject) :=
    ⟨hv.1.transpose, by rw [Nat.mul_comm]; exact hM1.2.1, hM1.2.2⟩
  have hread : ∀ a b, readAt
      ({ h with refcnts := h.refcnts.set M.data_refcnt (some ⟨c + 1⟩) } : Heap α) M a b
        = readAt h M a b := fun a b => Heap.load_congr rfl _ _
  have others : ∀ (g : Heap α) (a b : Int), 0 ≤ a → 0 ≤ b →
      (∀ a' b', a' < M.nrows → b' < M.ncols → (a', b') ≠ (a.toNat, b.toNat) →
        readAt g M a' b' = readAt
          ({ h with refcnts := h.refcnts.set M.data_refcnt (some ⟨c + 1⟩) } : Heap α) M a' b') →
      ∀ i' j' : Int, 0 ≤ i' → i' < (M.nrows : Int) → 0 ≤ j' → j' < (M.ncols : Int) →
        (i', j') ≠ (a, b) → Matrix_get g M i' j' = Matrix_get h M i' j' := by
    intro g a b ha0 hb0 hold i' j' hi0' hi1' hj0' hj1' hne
    obtain ⟨e1, ha, hb⟩ := Matrix_get_eq h hv.1 hi0' hi1' hj0' hj1'
    rw [(Matrix_get_eq g hv.1 hi0' hi1' hj0' hj1').1, e1,
      hold _ _ ha hb (int_pair_ne ha0 hb0 hi0' hj0' hne), hread]
  refine ⟨⟨M, _, CreateViewToMatrix_eq h M c hc hpos, fun i j hi0 hi hj0 hj => ?_⟩,
    ⟨_, _, CreateTransposeView_eq h M c hc hpos, fun i j hi0 hi hj0 hj => ?_,
      fun i j hi0 hi hj0 hj => ?_⟩⟩
  · obtain ⟨eg, hi', hj'⟩ := Matrix_get_eq h hv.1 hi0 hi hj0 hj
    obtain ⟨g, hset, -, hnew, hold⟩ :=
      set_through_alias hM1 hM1 rfl hi0 hi hj0 hj hi' hj' rfl v
    refine ⟨g, hset, ?_, others g i j hi0 hj0 hold⟩
    rw [(Matrix_get_eq g hv.1 hi0 hi hj0 hj).1]
    exact hnew
  · obtain ⟨eg, hi', hj'⟩ := Matrix_get_eq h hT1.1 hi0 hi hj0 hj
    obtain ⟨g, hset, -, hnew, hold⟩ :=
      set_through_alias hM1 hT1 rfl hi0 hi hj0 hj hj' hi' (index_transpose M _ _) v
    refine ⟨g, hset, ?_, others g j i hj0 hi0 hold⟩
    rw [(Matrix_get_eq g hv.1 hj0 hj hi0 hi).1]
    exact hnew
  · obtain ⟨eg, hi', hj'⟩ := Matrix_get_eq h hv.1 hi0 hi hj0 hj
    obtain ⟨g, hset, -, hnew, hold⟩ :=
      set_through_alias hM1 hM1 rfl hi0 hi hj0 hj hi' hj' rfl v
    refine ⟨g, hset, ?_, others g i j hi0 hj0 hold⟩
    rw [(Matrix_get_eq g hT1.1 hj0 hj hi0 hi).1, readAt, index_transpose]
    exact hnew

/-- C16 at `M = [[1,2],[3,4]]`: after `set(T, 0, 1, 9)` on the transposed view `T`,
`get(M, 1, 0)` is `9` and `get(M, 0, 1)` is still `2`. -/
theorem view_aliasing_witness :
    Valid scenarioHeap scenarioA ∧
    ∃ T h1 h2, CreateTransposeView scenarioHeap scenarioA = some (T, h1) ∧
      Matrix_set h1 T 0 1 9 = some h2 ∧ Matrix_get h2 scenarioA 1 0 = some 9 ∧
      Matrix_get h2 scenarioA 0 1 = some 2 := by
  obtain ⟨-, T, h1, he, hT, -⟩ := view_aliasing scenarioHeap scenarioA (by decide) 9
  have hn : T.nrows = 2 := by
    have h3 : (CreateTransposeView scenarioHeap scenarioA).map (fun r => r.1.nrows)
        = some 2 := by decide
    rw [he] at h3
    exact Option.some.inj h3
  have hm : T.ncols = 2 := by
    have h3 : (CreateTransposeView scenarioHeap scenarioA).map (fun r => r.1.ncols)
        = some 2 := by decide
    rw [he] at h3
    exact Option.some.inj h3
  obtain ⟨h2, hset, hget, hother⟩ := hT 0 1 (by decide) (by rw [hn]; decide) (by decide)
    (by rw [hm]; decide)
  exact ⟨by decide, T, h1, h2, he, hset, hget,
    (hother 0 1 (by decide) (by decide) (by decide) (by decide) (by decide)).trans
      (by decide)⟩

/-- C11: for every valid matrix `M` (row-major or a view such as a transpose) and every value
`v`, `FillMatrix(M, v)` succeeds and afterwards `Matrix_get(M, i, j)` is exactly `v` for all
`0 ≤ i < M.nrows`, `0 ≤ j < M.ncols`; only the array of `M` is written, and the loop over the
raw slots `0 .. nrows * ncols - 1` gives the same heap as overwriting every logical element
through the stride formula (`fillLogical`). -/
theorem fill_then_get {α : Type} (h : Heap α) (M : MatrixObject) (hv : Valid h M) (v : α) :
    ∃ g, FillMatrix h M v = some g ∧ Matrix_fill h M v = some g ∧
      (∀ i j : Int, 0 ≤ i → i < (M.nrows : Int) → 0 ≤ j → j < (M.ncols : Int) →
        Matrix_get g M i j = some v) ∧
      SameExcept M.data h g ∧ fillLogical h M v = some g := by
  obtain ⟨g, hg, hs, hdone⟩ := FillMatrix_spec hv v
  obtain ⟨g', hg', hs', hdone'⟩ := fillLogical_spec hv v
  have heq : g' = g := heap_eq_of_sameExcept hs' hs hv.2.1
    (fun idx hidx => (hdone' idx hidx).trans (hdone idx hidx).symm)
  refine ⟨g, hg, hg, fun i j hi0 hi hj0 hj => ?_, hs, by rw [hg', heq]⟩
  obtain ⟨e1, ha, hb⟩ := Matrix_get_eq g hv.1 hi0 hi hj0 hj
  rw [e1]
  exact hdone _ (hv.1.index_lt ha hb)

/-- C11 at the transposed view of `[[1,2],[3,4]]` filled with `7`. -/
theorem fill_then_get_witness :
    Valid scenarioHeap scenarioAT ∧
    ∃ g, FillMatrix scenarioHeap scenarioAT 7 = some g ∧
      Matrix_get g scenarioAT 0 0 = some 7 ∧ Matrix_get g scenarioAT 0 1 = some 7 ∧
      Matrix_get g scenarioAT 1 0 = some 7 ∧ Matrix_get g scenarioAT 1 1 = some 7 ∧
      fillLogical scenarioHeap scenarioAT 7 = some g := by
  obtain ⟨g, hg, -, hget, -, hl⟩ := fill_then_get scenarioHeap scenarioAT (by decide) 7
  exact ⟨by decide, g, hg,
    hget 0 0 (by decide) (by decide) (by decide) (by decide),
    hget 0 1 (by decide) (by decide) (by decide) (by decide),
    hget 1 0 (by decide) (by decide) (by decide) (by decide),
    hget 1 1 (by decide) (by decide) (by decide) (by decide), hl⟩

/-- C12: for all C `int`s `rows ≥ 1`, `cols ≥ 1`: `Matrix_init` (create) and `matmul_zeros`
yield a fresh matrix with `nrows = rows`, `ncols = cols`, `rows_stride = cols`,
`cols_stride = 1` and every element `0`; `matmul_ones` yields every element `1`;
`matmul_full` with the value `v` yields every element `v`. -/
theorem constructors_filled {α : Type} [Zero α] [One α] (h : Heap α) (rows cols : Int)
    (hr : 1 ≤ rows ∧ rows < (INT_LIMIT : Int)) (hc : 1 ≤ cols ∧ cols < (INT_LIMIT : Int))
    (v : α) :
    (∃ C g, Matrix_init h Matrix_new rows cols = some (0, C, g) ∧ IsFilled h rows cols 0 C g) ∧
    (∃ C g, matmul_zeros h rows cols = PyResult.ok (C, g) ∧ IsFilled h rows cols 0 C g) ∧
    (∃ C g, matmul_ones h rows cols = PyResult.ok (C, g) ∧ IsFilled h rows cols 1 C g) ∧
    (∃ C g, matmul_full h rows cols v = PyResult.ok (C, g) ∧ IsFilled h rows cols v C g) := by
  obtain ⟨g0, hz, hi, hf0⟩ := createFilled_spec h rows cols hr hc (0 : α)
  obtain ⟨g1, ho, -, hf1⟩ := createFilled_spec h rows cols hr hc (1 : α)
  obtain ⟨g2, hfv, -, hf2⟩ := createFilled_spec h rows cols hr hc v
  refine ⟨⟨_, g0, ?_, hf0⟩, ⟨_, g0, ?_, hf0⟩, ⟨_, g1, ?_, hf1⟩, ⟨_, g2, ?_, hf2⟩⟩
  · rw [Matrix_init, if_neg (by omega)]
    exact hi
  · rw [matmul_zeros, hz]
    rfl
  · rw [matmul_ones, ho]
    rfl
  · rw [matmul_full, hfv]
    rfl

/-- C12, concrete scenarios: `zeros((2,3))` has 2 rows, 3 columns and every element `0`;
`ones((2,2))` has every element `1`; `full((1,4), 7.5)` has every element `7.5`. -/
theorem constructors_filled_witness :
    (∃ C g, matmul_zeros (emptyHeap ℚ) 2 3 = PyResult.ok (C, g) ∧ C.nrows = 2 ∧ C.ncols = 3 ∧
      ∀ i j, i < 2 → j < 3 → readAt g C i j = some 0) ∧
    (∃ C g, matmul_ones (emptyHeap ℚ) 2 2 = PyResult.ok (C, g) ∧ C.nrows = 2 ∧ C.ncols = 2 ∧
      ∀ i j, i < 2 → j < 2 → readAt g C i j = some 1) ∧
    (∃ C g, matmul_full (emptyHeap ℚ) 1 4 (15 / 2) = PyResult.ok (C, g) ∧ C.nrows = 1 ∧
      C.ncols = 4 ∧ ∀ i j, i < 1 → j < 4 → readAt g C i j = some (15 / 2)) := by
  obtain ⟨-, ⟨C, g, he, hn, hm, -, -, -, -, hC⟩, -, -⟩ :=
    constructors_filled (emptyHeap ℚ) 2 3 (by decide) (by decide) 0
  obtain ⟨-, -, ⟨C1, g1, he1, hn1, hm1, -, -, -, -, hC1⟩, -⟩ :=
    constructors_filled (emptyHeap ℚ) 2 2 (by decide) (by decide) 0
  obtain ⟨-, -, -, ⟨C2, g2, he2, hn2, hm2, -, -, -, -, hC2⟩⟩ :=
    constructors_filled (emptyHeap ℚ) 1 4 (by decide) (by decide) (15 / 2)
  exact ⟨⟨C, g, he, hn, hm, fun i j hi hj => hC i j (by rw [hn]; exact hi) (by rw [hm]; exact hj)⟩,
    ⟨C1, g1, he1, hn1, hm1,
      fun i j hi hj => hC1 i j (by rw [hn1]; exact hi) (by rw [hm1]; exact hj)⟩,
    ⟨C2, g2, he2, hn2, hm2,
      fun i j hi hj => hC2 i j (by rw [hn2]; exact hi) (by rw [hm2]; exact hj)⟩⟩

/-- C13 (the code at the failing input): with the shape `(0, 3)`, `Matrix_init` returns `-1`
and leaves the object and the heap as they were, but `matmul_zeros`, `matmul_ones`,
`matmul_full` and `matmul_rand` raise nothing and return a matrix with `nrows = 0`. -/
theorem factories_accept_zero_rows :
    Matrix_init (emptyHeap Int) Matrix_new 0 3 = some (-1, Matrix_new, emptyHeap Int) ∧
    (∃ C g, matmul_zeros (emptyHeap Int) 0 3 = PyResult.ok (C, g) ∧
      C.nrows = 0 ∧ C.ncols = 3) ∧
    (∃ C g, matmul_ones (emptyHeap Int) 0 3 = PyResult.ok (C, g) ∧
      C.nrows = 0 ∧ C.ncols = 3) ∧
    (∃ C g, matmul_full (emptyHeap Int) 0 3 5 = PyResult.ok (C, g) ∧
      C.nrows = 0 ∧ C.ncols = 3) ∧
    (∃ C g s, matmul_rand 2147483647 (emptyHeap Int) (fun _ => 7) 0 3 = PyResult.ok (C, g, s) ∧
      C.nrows = 0 ∧ C.ncols = 3) :=
  ⟨rfl, ⟨_, _, rfl, rfl, rfl⟩, ⟨_, _, rfl, rfl, rfl⟩, ⟨_, _, rfl, rfl, rfl⟩,
    ⟨_, _, _, rfl, rfl, rfl⟩⟩

/-- C14 (the code at the failing input): when `rand()` returns `RAND_MAX` (here
`2147483647`), the element `rand() / RAND_MAX` of `rand((1, 1))`, in exact arithmetic, is `1`,
which is not strictly less than `1`. -/
theorem matmul_rand_reaches_one :
    ∃ C g s, matmul_rand 2147483647 (emptyHeap ℚ) (fun _ => 2147483647) 1 1
        = PyResult.ok (C, g, s) ∧
      C.nrows = 1 ∧ C.ncols = 1 ∧ readAt g C 0 0 = some 1 ∧ ¬ ((1 : ℚ) < 1) := by
  obtain ⟨g, he, -, -, hC⟩ := matmul_rand_spec 2147483647 (emptyHeap ℚ)
    (fun _ => 2147483647) 1 1 (by decide) (by decide)
  refine ⟨_, g, _, he, rfl, rfl, ?_, lt_irrefl 1⟩
  rw [hC 0 0 (by decide) (by decide)]
  norm_num

/-- C19: when multiplication of scalars is commutative, for all valid matrices `A`, `B` with
`A.ncols = B.nrows`, `MatMulImpl` on the transposed views of `B` and of `A` succeeds, its
result has the shape of the transposed view of `MatMulImpl(A, B)`, and both have at every
`(i, j)` the sum in ascending `k` of `A[j][k] * B[k][i]`. -/
theorem matmul_transpose {α : Type} [Zero α] [Add α] [CommMagma α] (h : Heap α)
    (A B : MatrixObject) (hA : Valid h A) (hB : Valid h B) (hK : A.ncols = B.nrows) :
    ∃ BT h1 AT h2 P h3 C g1 CT g2,
      CreateTransposeView h B = some (BT, h1) ∧ CreateTransposeView h1 A = some (AT, h2) ∧
      MatMulImpl h2 BT AT = PyResult.ok (P, h3) ∧
      MatMulImpl h A B = PyResult.ok (C, g1) ∧ CreateTransposeView g1 C = some (CT, g2) ∧
      P.nrows = CT.nrows ∧ P.ncols = CT.ncols ∧ P.nrows = B.ncols ∧ P.ncols = A.nrows ∧
      ∀ i j, i < B.ncols → j < A.nrows →
        readAt h3 P i j
          = some (sumFrom0 A.ncols (fun k => entry h A j k * entry h B k i)) ∧
        readAt g2 CT i j
          = some (sumFrom0 A.ncols (fun k => entry h A j k * entry h B k i)) := by
  obtain ⟨BT, h1, e1, ha1, hBT, hBTn, hBTm, hBTd, -, hkeep1, hBTi⟩ :=
    CreateTransposeView_valid hB
  obtain ⟨AT, h2, e2, ha2, hAT, hATn, hATm, hATd, -, hkeep2, hATi⟩ :=
    CreateTransposeView_valid (hkeep1 A hA)
  have hK' : BT.ncols = AT.nrows := by rw [hBTm, hATn, hK]
  obtain ⟨P, h3, e3, hPn, hPm, -, -, -, -, hP⟩ :=
    MatMulImplCPU_spec h2 BT AT (hkeep2 BT hBT) hAT hK'
  obtain ⟨C, g1, e4, hCn, hCm, -, -, -, hCv, hC⟩ := MatMulImplCPU_spec h A B hA hB hK
  obtain ⟨CT, g2, e5, ha5, -, hCTn, hCTm, hCTd, -, -, hCTi⟩ := CreateTransposeView_valid hCv
  refine ⟨BT, h1, AT, h2, P, h3, C, g1, CT, g2, e1, e2, MatMulImpl_of_CPU hK' e3,
    MatMulImpl_of_CPU hK e4, e5, ?_, ?_, hPn.trans hBTn, hPm.trans hATm,
    fun i j hi hj => ⟨?_, ?_⟩⟩
  · rw [hPn, hBTn, hCTn, hCm]
  · rw [hPm, hATm, hCTm, hCn]
  · rw [hP i j (by rw [hBTn]; exact hi) (by rw [hATm]; exact hj), hBTm, ← hK]
    refine congrArg some (sumFrom0_congr _ _ _ (fun k _ => ?_))
    rw [(entry_of_alias (ha2.trans ha1) hBTd (hBTi i k)).2,
      (entry_of_alias ha2 hATd (hATi k j)).2,
      (entry_of_alias ha1 rfl (rfl : DataIndexFromCoords A j k = _)).2, mul_comm]
  · rw [(entry_of_alias ha5 hCTd (hCTi i j)).1]
    exact hC j i hj hi

/-- C19 at `A = [[1,2],[3,4]]`, `B = [[5,6],[7,8]]`: both sides are `[[19,43],[22,50]]`. -/
theorem matmul_transpose_witness :
    Valid scenarioHeap scenarioA ∧ Valid scenarioHeap scenarioB ∧
    ∃ BT h1 AT h2 P h3 C g1 CT g2,
      CreateTransposeView scenarioHeap scenarioB = some (BT, h1) ∧
      CreateTransposeView h1 scenarioA = some (AT, h2) ∧
      MatMulImpl h2 BT AT = PyResult.ok (P, h3) ∧
      MatMulImpl scenarioHeap scenarioA scenarioB = PyResult.ok (C, g1) ∧
      CreateTransposeView g1 C = some (CT, g2) ∧
      readAt h3 P 0 0 = some 19 ∧ readAt h3 P 0 1 = some 43 ∧
      readAt h3 P 1 0 = some 22 ∧ readAt h3 P 1 1 = some 50 ∧
      readAt g2 CT 0 0 = some 19 ∧ readAt g2 CT 0 1 = some 43 ∧
      readAt g2 CT 1 0 = some 22 ∧ readAt g2 CT 1 1 = some 50 := by
  obtain ⟨BT, h1, AT, h2, P, h3, C, g1, CT, g2, e1, e2, e3, e4, e5, -, -, -, -, hP⟩ :=
    matmul_transpose scenarioHeap scenarioA scenarioB (by decide) (by decide) rfl
  exact ⟨by decide, by decide, BT, h1, AT, h2, P, h3, C, g1, CT, g2, e1, e2, e3, e4, e5,
    (hP 0 0 (by decide) (by decide)).1, (hP 0 1 (by decide) (by decide)).1,
    (hP 1 0 (by decide) (by decide)).1, (hP 1 1 (by decide) (by decide)).1,
    (hP 0 0 (by decide) (by decide)).2, (hP 0 1 (by decide) (by decide)).2,
    (hP 1 0 (by decide) (by decide)).2, (hP 1 1 (by decide) (by decide)).2⟩

/-- C17: every matrix `M` of a state reachable from the empty state by constructors with
`rows, cols ≥ 1`, views, transposed views, deep copies, negations, elementwise operations and
products has, for all `i < nrows` and `j < ncols`,
`DataIndexFromCoords(i, j) = rows_stride * i + cols_stride * j` below the length
`nrows * ncols` of its array; and no access made by fill, copy, negation, the elementwise
operations or the product on matrices of the state falls outside an array (none of them has
undefined behaviour). -/
theorem valid_index_invariant {α : Type} [Zero α] [One α] [Add α] [Sub α] [Mul α] [Div α]
    [Neg α] [NatCast α] (w : World α) (hw : Reachable w) (M : MatrixObject)
    (hM : M ∈ w.handles) :
    IndexInBounds w.heap M ∧ ∀ N ∈ w.handles, NoUndefined w.heap M N :=
  ⟨(hw.all_valid M hM).indexInBounds,
    fun N hN => (hw.all_valid M hM).noUndefined (hw.all_valid N hN)⟩

/-- C17 at the transposed view of `zeros((2, 3))`: the index of its last element `(2, 1)` is
`5`, below the length `6` of the array. -/
theorem valid_index_invariant_witness :
    Reachable scenarioWorld ∧
    (⟨3, 2, 1, 3, 1, 1⟩ : MatrixObject) ∈ scenarioWorld.handles ∧
    scenarioWorld.heap.bufLen 1 = some 6 ∧
    DataIndexFromCoords (⟨3, 2, 1, 3, 1, 1⟩ : MatrixObject) 2 1 = 5 ∧
    NoUndefined scenarioWorld.heap (⟨3, 2, 1, 3, 1, 1⟩ : MatrixObject)
      (⟨2, 3, 3, 1, 1, 1⟩ : MatrixObject) := by
  have hmem : (⟨3, 2, 1, 3, 1, 1⟩ : MatrixObject) ∈ scenarioWorld.handles :=
    List.mem_cons_self _ _
  have hmem2 : (⟨2, 3, 3, 1, 1, 1⟩ : MatrixObject) ∈ scenarioWorld.handles :=
    List.mem_cons_of_mem _ (List.mem_singleton.mpr rfl)
  obtain ⟨⟨hlen, hidx⟩, hno⟩ :=
    valid_index_invariant scenarioWorld scenarioWorld_reachable _ hmem
  exact ⟨scenarioWorld_reachable, hmem, hlen, by decide, hno _ hmem2⟩

/-- C18: in every state reached by constructions, views, transposed views, writes and
destructions of live handles: the counter of each live handle equals the number of live
handles on its array, that array is not freed, and every array that is not freed has a live
handle (`RefInv`); a construction returns a matrix with counter 1 on an array and a counter
that no live handle references; on a live handle with counter `c`, `CreateViewToMatrix` and
`CreateTransposeView` succeed, raise the counter to `c + 1` and leave the arrays unchanged,
and `Matrix_dealloc` succeeds, lowers the counter to `c - 1` and frees the array exactly when
`c - 1 = 0`. -/
theorem refcount_invariant {α : Type} [Zero α] (w : World α) (hw : Alive w) :
    RefInv w ∧
    (∀ n m, ∃ C g, CreateMatrixFromSize w.heap n m = some (C, g) ∧ GetRefCnt g C = some 1 ∧
      g.arrays[C.data]? = some (some (List.replicate (DataSize C) 0)) ∧
      ∀ M ∈ w.handles, M.data ≠ C.data ∧ M.data_refcnt ≠ C.data_refcnt) ∧
    ∀ M ∈ w.handles, CountingCalls w.heap M (refCount w.handles M.data_refcnt : Int) := by
  have hinv := hw.refInv
  refine ⟨hinv, fun n m => ?_, fun M hM => hinv.countingCalls hM⟩
  refine ⟨_, _, CreateMatrixFromSize_eq w.heap n m, ?_, ?_, fun M hM => ?_⟩
  · simp [GetRefCnt, allocHeap, freshHandle]
  · simp [allocHeap, freshHandle, DataSize]
  · have hb := hinv.bounds hM
    exact ⟨Nat.ne_of_lt hb.1, Nat.ne_of_lt hb.2⟩

/-- C18 at the state with `zeros((2, 3))` and its transposed view: the shared counter is `2`,
the number of live handles; destroying the view leaves the counter `1` and the array in
place. -/
theorem refcount_invariant_witness :
    Alive scenarioWorld ∧
    GetRefCnt scenarioWorld.heap (⟨3, 2, 1, 3, 1, 1⟩ : MatrixObject) = some 2 ∧
    refCount scenarioWorld.handles 1 = 2 ∧
    ∃ g, Matrix_dealloc scenarioWorld.heap (⟨3, 2, 1, 3, 1, 1⟩ : MatrixObject) = some g ∧
      GetRefCnt g (⟨3, 2, 1, 3, 1, 1⟩ : MatrixObject) = some 1 ∧
      g.arrays = scenarioWorld.heap.arrays := by
  have hmem : (⟨3, 2, 1, 3, 1, 1⟩ : MatrixObject) ∈ scenarioWorld.handles :=
    List.mem_cons_self _ _
  obtain ⟨hinv, -, hcalls⟩ := refcount_invariant scenarioWorld scenarioWorld_alive
  obtain ⟨-, -, g, hd, hc, -, hkeep⟩ := hcalls _ hmem
  have hcount : refCount scenarioWorld.handles 1 = 2 := by decide
  refine ⟨scenarioWorld_alive, (hinv.1 _ hmem).1.trans (by decide), hcount, g, hd,
    hc.trans (by decide), hkeep (by decide)⟩

end MatMul
